import Mathlib

/-!
# ncmpcpp: song formats and column layouts

A shallow embedding of the parts of ncmpcpp that deal with song formats:

* `generate_columns` and `columns_to_format` (settings.cpp),
* the tag lookup and the cell text of `showSongsInColumns`, the flag choice of
  `showSongs`, `toColumnName` and `Display::Columns` (display.cpp),
* the `buffer` option worker and the worker of `song_status_format` (settings.cpp),
* `SongToString` (playlist_editor.cpp),
* the template compiler and evaluator `Format::parse` / `Format::print` /
  `Format::stringify`.  Their implementation (format.h, format_impl.h) is not
  among the sources, so that part is modelled from the specification.

Text (`std::string`, `std::wstring`) is a `List Char`.
-/

set_option autoImplicit false

namespace Ncmpcpp

/-- Text: a `std::string` / `std::wstring` seen as its sequence of characters. -/
abbrev Text := List Char

/-! ## Outcomes of the embedded C++ code -/

/-- Ways in which a run of the embedded code ends without a value. -/
inductive Failure where
  /-- `boost::bad_lexical_cast` was thrown. -/
  | bad_lexical_cast
  /-- a read for which C++ defines no value: a `std::string` at an index greater
  than its length, or an iterator at `end()`. -/
  | out_of_range
  /-- an `assert` did not hold. -/
  | assertion_failed
  /-- a parse error of `Format::parse`, with its position. -/
  | parse_error (position : Nat)
  /-- the iteration bound of the embedding was reached. -/
  | out_of_fuel
  deriving DecidableEq, Repr

/-! ## Format: data model (modelled from the specification) -/

namespace Format

/-- Modelled from the spec: `Format::Flags` (format.h is not among the sources).
A set of four independent capability bits. -/
structure Flags where
  tag : Bool
  color : Bool
  format : Bool
  outputSwitch : Bool
  deriving DecidableEq, Repr

namespace Flags

/-- Flag set `Format::Flags::Tag`. -/
def Tag : Flags := ⟨true, false, false, false⟩
/-- Flag set `Format::Flags::Color`. -/
def Color : Flags := ⟨false, true, false, false⟩
/-- Flag set `Format::Flags::Format`. -/
def Format : Flags := ⟨false, false, true, false⟩
/-- Flag set `Format::Flags::OutputSwitch`. -/
def OutputSwitch : Flags := ⟨false, false, false, true⟩
/-- Flag set `Format::Flags::All`, that is `Tag|Color|Format|OutputSwitch`. -/
def All : Flags := ⟨true, true, true, true⟩

/-- Bitwise or of two flag sets (`a | b`). -/
def or (a b : Flags) : Flags :=
  ⟨a.tag || b.tag, a.color || b.color, a.format || b.format, a.outputSwitch || b.outputSwitch⟩

/-- Bitwise exclusive or of two flag sets (`a ^ b`). -/
def xor (a b : Flags) : Flags :=
  ⟨Bool.xor a.tag b.tag, Bool.xor a.color b.color, Bool.xor a.format b.format,
    Bool.xor a.outputSwitch b.outputSwitch⟩

end Flags

/-- Argument of a colour directive: a preset colour slot, or "reset current colour". -/
inductive ColorSpec where
  | slot (n : Nat)
  | reset
  deriving DecidableEq, Repr

/-- The three attributes a directive can toggle. -/
inductive AttrKind where
  | Bold
  | Underline
  | Reverse
  deriving DecidableEq, Repr

/-- Modelled from the spec: `Format::Expression` (format.h is not among the sources).
The node kinds are those of the specification's data model; `FirstOf` is the name
settings.cpp uses for the specification's `FieldRef`, `G` is the type of its
candidates (a field code in a parsed template, an accessor in `columns_to_format`). -/
inductive Expression (G : Type) where
  | Literal (text : Text)
  | FirstOf (candidates : List G)
  | Group (body : List (Expression G)) (is_optional : Bool)
  | Alternative (left : List (Expression G)) (right : List (Expression G))
  | ColorDirective (c : ColorSpec)
  | AttributeDirective (kind : AttrKind) (enable : Bool)
  | OutputSwitchMarker

/-- An AST is the ordered sequence of its top-level expressions. -/
abbrev AST (G : Type) := List (Expression G)

/-- The record a template is rendered against: `get(field_code) -> Optional<String>`. -/
abbrev Record (G : Type) := G → Option Text

/-- The style state: current colour slot (`none` is the default colour) and the
bold / underline / reverse bits. -/
structure Style where
  color : Option Nat
  bold : Bool
  underline : Bool
  reverse : Bool
  deriving DecidableEq, Repr

/-- The initial style of a render call: default colour, no attributes. -/
def Style.initial : Style := ⟨none, false, false, false⟩

/-- Effect of a colour directive on the style state. -/
def Style.setColor (st : Style) : ColorSpec → Style
  | .slot n => { st with color := some n }
  | .reset => { st with color := none }

/-- Effect of an attribute directive on the style state. -/
def Style.setAttr (st : Style) (kind : AttrKind) (enable : Bool) : Style :=
  match kind with
  | .Bold => { st with bold := enable }
  | .Underline => { st with underline := enable }
  | .Reverse => { st with reverse := enable }

/-- One output event: a piece of text with the style active when it was emitted. -/
abbrev Event := Text × Style

/-- What the evaluation of a fragment yields: the events of the main and of the
trailing sequence, the style state and the output-switch state after the fragment,
whether a `FirstOf` was evaluated in it (`refs`) and whether one resolved to
non-empty text (`hit`). -/
structure Out where
  main : List Event
  trailing : List Event
  style : Style
  switched : Bool
  refs : Bool
  hit : Bool
  deriving DecidableEq, Repr

/-- The fragment that emits nothing and leaves style and output switch as they are. -/
def Out.empty (st : Style) (sw : Bool) : Out := ⟨[], [], st, sw, false, false⟩

/-- The fragment emitting one piece of text: into the trailing sequence once the
output was switched, into the main sequence before. -/
def Out.emit (st : Style) (sw : Bool) (t : Text) : Out :=
  if sw then ⟨[], [(t, st)], st, sw, false, false⟩ else ⟨[(t, st)], [], st, sw, false, false⟩

/-- Sequencing of two fragments, the second evaluated after the first. -/
def Out.append (a b : Out) : Out :=
  ⟨a.main ++ b.main, a.trailing ++ b.trailing, b.style, b.switched, a.refs || b.refs,
    a.hit || b.hit⟩

/-- The text of a list of events, concatenated. -/
def eventsText (es : List Event) : Text := (es.map Prod.fst).flatten

/-- All the text of a fragment: the main sequence followed by the trailing one. -/
def Out.text (o : Out) : Text := eventsText o.main ++ eventsText o.trailing

/-- The "first of" semantics of a field reference: the text of the first candidate
whose accessor gives non-empty text, empty when there is none.  A missing field
counts as empty text. -/
def resolve {G : Type} (record : Record G) : List G → Text
  | [] => []
  | c :: cs =>
    match record c with
    | some (x :: xs) => x :: xs
    | _ => resolve record cs

/-- A group is suppressed when a field reference was evaluated in it and none of
them resolved to non-empty text; a group without field references is visible. -/
def Out.suppressed (o : Out) : Bool := o.refs && !o.hit

/-- The evaluation of a group body that was evaluated to `o` from style `st` and
output-switch state `sw`: the tentative buffer is spliced in, or discarded together
with its style changes. -/
def Out.asGroup (st : Style) (sw : Bool) (o : Out) : Out :=
  if o.suppressed then ⟨[], [], st, sw, true, false⟩ else o

mutual
/-- Modelled from the spec: the evaluator of `Format::print` (format_impl.h is not
among the sources), for one expression, from style `st` and switch state `sw`. -/
def evalExpr {G : Type} (record : Record G) (flags : Flags) (st : Style) (sw : Bool) :
    Expression G → Out
  | .Literal t => Out.emit st sw t
  | .FirstOf cs =>
    match resolve record cs with
    | [] => ⟨[], [], st, sw, true, false⟩
    | x :: xs => { Out.emit st sw (x :: xs) with refs := true, hit := true }
  | .Group body _ => (evalSeq record flags st sw body).asGroup st sw
  | .Alternative left right =>
    let l := (evalSeq record flags st sw left).asGroup st sw
    match l.text with
    | _ :: _ => l
    | [] =>
      let r := evalSeq record flags st sw right
      { r with refs := l.refs || r.refs }
  | .ColorDirective c =>
    if flags.color then Out.empty (st.setColor c) sw else Out.empty st sw
  | .AttributeDirective kind enable =>
    if flags.format then Out.empty (st.setAttr kind enable) sw else Out.empty st sw
  | .OutputSwitchMarker =>
    if flags.outputSwitch then Out.empty st true else Out.empty st sw
/-- The evaluator for a sequence of expressions, in document order. -/
def evalSeq {G : Type} (record : Record G) (flags : Flags) (st : Style) (sw : Bool) :
    List (Expression G) → Out
  | [] => Out.empty st sw
  | e :: es =>
    let a := evalExpr record flags st sw e
    a.append (evalSeq record flags a.style a.switched es)
end

/-- Modelled from the spec: `render(ast, record, flags)`, from the initial style. -/
def render {G : Type} (ast : AST G) (record : Record G) (flags : Flags) : Out :=
  evalSeq record flags Style.initial false ast

/-- The record standing for "no song" (`nullptr`): every field is missing. -/
def noSong {G : Type} : Record G := fun _ => none

/-- Modelled from the spec: `Format::print(ast, out, song, right_aligned, flags)`;
`song` is `none` for `nullptr`.  The result holds what went to `out` (main) and to
the right-aligned buffer (trailing). -/
def print {G : Type} (ast : AST G) (song : Option (Record G)) (flags : Flags) : Out :=
  render ast (song.getD noSong) flags

/-- Modelled from the spec: `Format::stringify(ast, song)`, the plain text a
non-interactive consumer gets (only `Tag` is wanted there). -/
def stringify {G : Type} (ast : AST G) (song : Option (Record G)) : Text :=
  (print ast song Flags.Tag).text

/-! ## Format: the parser (modelled from the specification) -/

/-- A style directive as produced by the directive table. -/
inductive Directive where
  | color (c : ColorSpec)
  | attribute (kind : AttrKind) (enable : Bool)
  | outputSwitch
  deriving DecidableEq, Repr

/-- The AST node of a directive. -/
def Directive.toExpression {G : Type} : Directive → Expression G
  | .color c => .ColorDirective c
  | .attribute kind enable => .AttributeDirective kind enable
  | .outputSwitch => .OutputSwitchMarker

/-- Modelled from the spec: the configuration data the parser consults (format_impl.h
is not among the sources): the field-code registry and the fixed directive table,
for the codes written `$c` and for the switching-off codes written `$/c`. -/
structure Registry where
  fieldCode : Char → Bool
  directive : Char → Option Directive
  directiveOff : Char → Option Directive

/-- The reserved characters of the template grammar: `{ } | $ % \`. -/
def reserved (c : Char) : Bool :=
  c = '{' || c = '}' || c = '|' || c = '$' || c = '%' || c = '\\'

/-- What one run of the sequence parser returns: the sequence, whether a `|` was met
at this nesting depth, whether the run stopped at a `}` (and not at the end of the
input), and the input left. -/
structure Parsed where
  seq : List (Expression Char)
  alt : Bool
  close : Bool
  rest : Text

/-- Closes the pending literal run `lit` and appends it to the sequence `acc`. -/
def flushLiteral (acc : List (Expression Char)) (lit : Text) : List (Expression Char) :=
  match lit with
  | [] => acc
  | _ :: _ => acc ++ [.Literal lit]

/-- Modelled from the spec: the recursive-descent parser of `Format::parse`
(format_impl.h is not among the sources).  `total` is the length of the whole
template (positions are `total` minus the input left), `acc` the elements of the
current branch so far, `lit` the pending literal run.  A `|` closes the current
branch and opens the next; a `{...}` is an `Alternative` when a `|` was met inside
it and a `Group` otherwise. -/
def parseItems (reg : Registry) (total : Nat) :
    Nat → Text → List (Expression Char) → Text → Except Failure Parsed
  | 0, _, _, _ => .error .out_of_fuel
  | _ + 1, [], acc, lit => .ok ⟨flushLiteral acc lit, false, false, []⟩
  | fuel + 1, c :: rest, acc, lit =>
    if c = '}' then .ok ⟨flushLiteral acc lit, false, true, rest⟩
    else if c = '|' then
      match parseItems reg total fuel rest [] [] with
      | .error e => .error e
      | .ok r => .ok ⟨[.Alternative (flushLiteral acc lit) r.seq], true, r.close, r.rest⟩
    else if c = '{' then
      match parseItems reg total fuel rest [] [] with
      | .error e => .error e
      | .ok g =>
        if g.close then
          parseItems reg total fuel g.rest
            (flushLiteral acc lit ++ (if g.alt then g.seq else [.Group g.seq true])) []
        else .error (.parse_error (total - (rest.length + 1)))
    else if c = '\\' then
      match rest with
      | d :: rest2 =>
        if reserved d then parseItems reg total fuel rest2 acc (lit ++ [d])
        else parseItems reg total fuel rest acc (lit ++ [c])
      | [] => parseItems reg total fuel rest acc (lit ++ [c])
    else if c = '%' then
      match rest with
      | d :: rest2 =>
        if reg.fieldCode d then
          parseItems reg total fuel rest2 (flushLiteral acc lit ++ [.FirstOf [d]]) []
        else .error (.parse_error (total - (rest2.length + 1)))
      | [] => .error (.parse_error total)
    else if c = '$' then
      match rest with
      | '/' :: d :: rest2 =>
        match reg.directiveOff d with
        | some x => parseItems reg total fuel rest2 (flushLiteral acc lit ++ [x.toExpression]) []
        | none => .error (.parse_error (total - (rest2.length + 1)))
      | d :: rest2 =>
        match reg.directive d with
        | some x => parseItems reg total fuel rest2 (flushLiteral acc lit ++ [x.toExpression]) []
        | none => .error (.parse_error (total - (rest2.length + 1)))
      | [] => .error (.parse_error total)
    else parseItems reg total fuel rest acc (lit ++ [c])

/-- Modelled from the spec: `Format::parse(template_text, flags)` (format_impl.h is
not among the sources).  The flags are a hint only: the AST does not depend on them.
A `}` without an opening `{` is a parse error at its position. -/
def parse (reg : Registry) (text : Text) (_flags : Flags) : Except Failure (AST Char) :=
  match parseItems reg text.length (text.length + 1) text [] [] with
  | .error e => .error e
  | .ok p =>
    if p.close then .error (.parse_error (text.length - (p.rest.length + 1))) else .ok p.seq

/-- Modelled from the spec: the directive table.  Digits 1 to 9 select a colour slot,
`0` resets the colour, `b`, `u`, `r` switch bold, underline, reverse on, and `R` is
the output switch. -/
def specDirective (c : Char) : Option Directive :=
  if c = '0' then some (.color .reset)
  else if '1' ≤ c ∧ c ≤ '9' then some (.color (.slot (c.toNat - '0'.toNat)))
  else if c = 'b' then some (.attribute .Bold true)
  else if c = 'u' then some (.attribute .Underline true)
  else if c = 'r' then some (.attribute .Reverse true)
  else if c = 'R' then some .outputSwitch
  else none

/-- Modelled from the spec: the switching-off codes `$/b`, `$/u`, `$/r`. -/
def specDirectiveOff (c : Char) : Option Directive :=
  if c = 'b' then some (.attribute .Bold false)
  else if c = 'u' then some (.attribute .Underline false)
  else if c = 'r' then some (.attribute .Reverse false)
  else none

/-- The field codes of the registry: those `toColumnName` (display.cpp) has a label
for. -/
def fieldCodes : List Char :=
  ['l', 'f', 'D', 'a', 'A', 't', 'b', 'y', 'n', 'N', 'g', 'c', 'p', 'd', 'C', 'P']

/-- The registry used for the templates of the configuration. -/
def specRegistry : Registry :=
  ⟨fun c => decide (c ∈ fieldCodes), specDirective, specDirectiveOff⟩

end Format

/-! ## Columns (settings.h, settings.cpp) -/

namespace NC

/-- Modelled from the spec: `NC::Color` of the window toolkit (not among the
sources); the code embedded here only uses `Default`. -/
inductive Color where
  | Default
  | Black
  | Red
  | Green
  | Yellow
  | Blue
  | Magenta
  | Cyan
  | White
  | End
  deriving DecidableEq, Repr

end NC

/-- The column of settings.h, as its default constructor leaves it where it
initialises a member (`stretch_limit(-1), right_alignment(0), display_empty_tag(1)`);
`name` and `type` start empty, the other members are assigned by `generate_columns`. -/
structure Column where
  name : Text := []
  type : Text := []
  width : Int := 0
  stretch_limit : Int := -1
  color : NC.Color := NC.Color.Default
  fixed : Bool := false
  right_alignment : Bool := false
  display_empty_tag : Bool := true
  deriving DecidableEq, Repr

/-- `MPD::Song` as far as the code here uses it: `getTags(get)` for an accessor. -/
structure Song (G : Type) where
  getTags : G → Text

/-- The functions the embedded code calls that are not among the sources; `G` is
the type of the song accessors (`MPD::Song::GetFunction`).

* `getEnclosedString s a b pos`: the enclosed text and the new value of `*pos`;
* `lexical_cast_int`, `lexical_cast_Color`: `boost::lexical_cast`, `none` for
  `bad_lexical_cast`;
* `charToGetFunction`: `none` for `nullptr`;
* `ToWString` and `Charset::utf8ToLocale`: the conversions of the encoding. -/
structure Helpers (G : Type) where
  getEnclosedString : Text → Char → Char → Nat → Text × Nat
  lexical_cast_int : Text → Option Int
  lexical_cast_Color : Text → Option NC.Color
  charToGetFunction : Char → Option G
  ToWString : Text → Text
  utf8ToLocale : Text → Text

/-- Subscript of a `std::string`: a character of the string, the terminating
`'\0'` at index `length`, and no defined value beyond. -/
def strAt (s : Text) (i : Nat) : Except Failure Char :=
  if h : i < s.length then .ok (s.get ⟨i, h⟩)
  else if i = s.length then .ok (Char.ofNat 0)
  else .error .out_of_range

/-- The loop `do col.type += tag_type[(++i)++]; while (tag_type[i] == '|');` of
`generate_columns` (settings.cpp 77-79).  `j` is the value of `i` after its
pre-increment (`size_t i = -1` makes the first one 0); the result is `col.type`
and the value of `i` when the loop is left. -/
def extract_tag_types (tag_type : Text) : Nat → Nat → Text → Except Failure (Text × Nat)
  | 0, _, _ => .error .out_of_fuel
  | fuel + 1, j, type =>
    match strAt tag_type j with
    | .error e => .error e
    | .ok c =>
      match strAt tag_type (j + 1) with
      | .error e => .error e
      | .ok d =>
        if d = '|' then extract_tag_types tag_type fuel (j + 2) (type ++ [c])
        else .ok (type ++ [c], j + 1)

/-- The loop `for (; i < tag_type.length(); ++i) switch (tag_type[i]) ...` of
`generate_columns` (settings.cpp 82-93), over the characters from index `i` on. -/
def apply_attributes (col : Column) : Text → Column
  | [] => col
  | c :: cs =>
    if c = 'r' then apply_attributes { col with right_alignment := true } cs
    else if c = 'E' then apply_attributes { col with display_empty_tag := false } cs
    else apply_attributes col cs

/-- The width text of a column without its one trailing `f` (settings.cpp 55-61). -/
def width_digits (width : Text) : Text :=
  if width.getLast? = some 'f' then width.dropLast else width

/-- The part of a brace text before its first `:`, which is what
`tag_type.resize(tag_type_colon_pos)` leaves (settings.cpp 65-70). -/
def tag_part (tag_type : Text) : Text :=
  if tag_type.indexOf ':' < tag_type.length then tag_type.take (tag_type.indexOf ':')
  else tag_type

/-- The alternative name of a column: the text after the first `:` of the brace
text, which stays empty without a `:` (settings.cpp 65-70). -/
def name_part {G : Type} (h : Helpers G) (tag_type : Text) : Text :=
  if tag_type.indexOf ':' < tag_type.length then
    h.ToWString (tag_type.drop (tag_type.indexOf ':' + 1))
  else []

/-- The statement `if (!tag_type.empty()) { ... } else col.display_empty_tag = 0;` of
`generate_columns` (settings.cpp 72-96), for the tag type left of the `:`. -/
def apply_tag_type (col : Column) (tag_type : Text) : Except Failure Column :=
  match tag_type with
  | [] => .ok { col with display_empty_tag := false }
  | _ :: _ =>
    match extract_tag_types tag_type (tag_type.length + 1) 0 [] with
    | .error e => .error e
    | .ok (type, i) => .ok (apply_attributes { col with type := type } (tag_type.drop i))

/-- The body of the `while` loop of `generate_columns` (settings.cpp 48-99) for the
three enclosed texts of one column, in the order of the source: colour, fixed
width, alternative name, tag types and attributes, width. -/
def make_column {G : Type} (h : Helpers G) (width scolor tag_type : Text) :
    Except Failure Column :=
  match (if scolor = [] then some NC.Color.Default else h.lexical_cast_Color scolor) with
  | none => .error .bad_lexical_cast
  | some color =>
    match apply_tag_type
      { color := color, fixed := decide (width.getLast? = some 'f'),
        name := name_part h tag_type } (tag_part tag_type) with
    | .error e => .error e
    | .ok col =>
      match h.lexical_cast_int (width_digits width) with
      | none => .error .bad_lexical_cast
      | some w => .ok { col with width := w }

/-- The `while` loop of `generate_columns` (settings.cpp 46-100), bounded by `fuel`
iterations. -/
def generate_columns_loop {G : Type} (h : Helpers G) (format : Text) :
    Nat → Nat → List Column → Except Failure (List Column)
  | 0, _, _ => .error .out_of_fuel
  | fuel + 1, pos, result =>
    let w := h.getEnclosedString format '(' ')' pos
    match w.1 with
    | [] => .ok result
    | _ :: _ =>
      let c := h.getEnclosedString format '[' ']' w.2
      let t := h.getEnclosedString format '{' '}' c.2
      match make_column h w.1 c.1 t.1 with
      | .error e => .error e
      | .ok col => generate_columns_loop h format fuel t.2 (result ++ [col])

/-- Addition of `int`s, two's complement. -/
def int_add (a b : Int) : Int := (a + b + 2 ^ 31) % 2 ^ 32 - 2 ^ 31

/-- The loop over `result.rbegin()` of `generate_columns` (settings.cpp 105-116), on
the reversed list: the fixed columns at the end add up their widths, the last
column with relative width gets the sum as its `stretch_limit`. -/
def set_stretch_limit : List Column → Int → List Column
  | [], _ => []
  | c :: cs, stretch_limit =>
    if c.fixed then c :: set_stretch_limit cs (int_add stretch_limit c.width)
    else { c with stretch_limit := stretch_limit } :: cs

/-- The function `generate_columns` of settings.cpp 41-120.  The `while` loop is
given one iteration per character of `format`, and one more. -/
def generate_columns {G : Type} (h : Helpers G) (format : Text) :
    Except Failure (List Column) :=
  match generate_columns_loop h format (format.length + 1) 0 [] with
  | .error e => .error e
  | .ok result => .ok (set_stretch_limit result.reverse 0).reverse

/-- The enclosed texts (width, colour, tag type) of the columns which the `while`
loop of `generate_columns` reads from `format`, with the same bound. -/
def column_texts {G : Type} (h : Helpers G) (format : Text) :
    Nat → Nat → List (Text × Text × Text)
  | 0, _ => []
  | fuel + 1, pos =>
    let w := h.getEnclosedString format '(' ')' pos
    match w.1 with
    | [] => []
    | _ :: _ =>
      let c := h.getEnclosedString format '[' ']' w.2
      let t := h.getEnclosedString format '{' '}' c.2
      (w.1, c.1, t.1) :: column_texts h format fuel t.2

/-- Whether `generate_columns` reads the tag part of a brace text within the
string's range while it extracts the tag types (settings.cpp 72-79). -/
def reads_in_range (tag_type : Text) : Bool :=
  match apply_tag_type {} (tag_part tag_type) with
  | .ok _ => true
  | .error _ => false

/-- The accessors of the codes of one column, with `assert(f != nullptr)` for each
(settings.cpp 129-135). -/
def first_of_column {G : Type} (h : Helpers G) : Text → Except Failure (List G)
  | [] => .ok []
  | type :: rest =>
    match h.charToGetFunction type with
    | none => .error .assertion_failed
    | some f =>
      match first_of_column h rest with
      | .error e => .error e
      | .ok fs => .ok (f :: fs)

/-- The function `columns_to_format` of settings.cpp 122-145.  An empty column list
makes the loop read `column->type` at `columns.end()`. -/
def columns_to_format {G : Type} (h : Helpers G) : List Column → Except Failure (Format.AST G)
  | [] => .error .out_of_range
  | column :: rest =>
    match first_of_column h column.type with
    | .error e => .error e
    | .ok first_of =>
      match rest with
      | [] => .ok [.FirstOf first_of]
      | next :: more =>
        match columns_to_format h (next :: more) with
        | .error e => .error e
        | .ok result => .ok (.FirstOf first_of :: .Literal [' '] :: result)

/-- What the option `song_columns_list_format` stores (settings.cpp 370-374):
`columns = generate_columns(v); song_columns_mode_format = columns_to_format(columns)`. -/
def read_columns_format {G : Type} (h : Helpers G) (v : Text) :
    Except Failure (List Column × Format.AST G) :=
  match generate_columns h v with
  | .error e => .error e
  | .ok columns =>
    match columns_to_format h columns with
    | .error e => .error e
    | .ok ast => .ok (columns, ast)

/-! ## Display (display.cpp) -/

/-- The loop of `showSongsInColumns` (display.cpp 197-205) which resolves the tag
of a column, over the codes from index `i` on; `tag` is the value assigned last. -/
def column_tag_loop {G : Type} (h : Helpers G) (s : Song G) : Text → Text → Except Failure Text
  | [], tag => .ok tag
  | c :: cs, _ =>
    match h.charToGetFunction c with
    | none => .error .assertion_failed
    | some get =>
      match h.ToWString (h.utf8ToLocale (s.getTags get)) with
      | [] => column_tag_loop h s cs []
      | x :: xs => .ok (x :: xs)

/-- The tag `showSongsInColumns` resolves for a column (display.cpp 197-205). -/
def column_tag {G : Type} (h : Helpers G) (column : Column) (s : Song G) : Except Failure Text :=
  column_tag_loop h s column.type []

/-- The flags `showSongs` passes to `Format::print` (display.cpp 119-121):
`discard_colors ? Format::Flags::Tag | Format::Flags::OutputSwitch : Format::Flags::All`. -/
def showSongs_flags (discard_colors : Bool) : Format.Flags :=
  if discard_colors then Format.Flags.Tag.or Format.Flags.OutputSwitch else Format.Flags.All

/-- The call `Format::print(ast, menu, &s, &right_aligned, flags)` of `showSongs`
(display.cpp 119-121): `main` is what the menu gets, `trailing` is `right_aligned`. -/
def showSongs_print {G : Type} (ast : Format.AST G) (s : Format.Record G)
    (discard_colors : Bool) : Format.Out :=
  Format.print ast (some s) (showSongs_flags discard_colors)

/-- The parser worker `buffer` of settings.cpp 163-173, before `map`:
`Format::parse(s, Color | Format)` and then `Format::print(ast, result, nullptr)`.
`print_flags` is the default flags argument of `Format::print`, declared in
format.h (not among the sources). -/
def buffer (reg : Format.Registry) (print_flags : Format.Flags) (s : Text) :
    Except Failure Format.Out :=
  match Format.parse reg s (Format.Flags.Color.or Format.Flags.Format) with
  | .error e => .error e
  | .ok ast => .ok (Format.print ast none print_flags)

/-! ## The helpers for concrete runs -/

/-- The characters a backslash escapes in a column specification: the reserved
characters of the template grammar and the delimiters of the column grammar. -/
def columnReserved (c : Char) : Bool :=
  Format.reserved c || c = '(' || c = ')' || c = '[' || c = ']' || c = ':'

/-- The text from the head of the input up to the first unescaped `b`, with the
index after that `b`; the input starts at index `i`. -/
def enclosedUpTo (b : Char) : Text → Text → Nat → Text × Nat
  | [], acc, i => (acc, i + 1)
  | [c], acc, i => if c = b then (acc, i + 1) else (acc ++ [c], i + 2)
  | c :: d :: rest, acc, i =>
    if c = b then (acc, i + 1)
    else if c = '\\' ∧ columnReserved d then enclosedUpTo b rest (acc ++ [d]) (i + 2)
    else enclosedUpTo b (d :: rest) (acc ++ [c]) (i + 1)

/-- Modelled from the spec: `getEnclosedString(s, a, b, &pos)` (utility/string is
not among the sources): the text between the first `a` at or after `pos` and the
next unescaped `b`, a backslash before a reserved character giving that character;
`pos` moves behind the closing `b`.  Without an `a` the text is empty and `pos`
becomes `npos`. -/
def getEnclosedString (s : Text) (a b : Char) (pos : Nat) : Text × Nat :=
  let i := pos + (s.drop pos).indexOf a
  if i < s.length then enclosedUpTo b (s.drop (i + 1)) [] (i + 1)
  else ([], 2 ^ 64 - 1)

/-- The value of a text of decimal digits, `none` when a character is no digit. -/
def digitsValue : Text → Nat → Option Nat
  | [], acc => some acc
  | c :: cs, acc =>
    if '0' ≤ c ∧ c ≤ '9' then digitsValue cs (acc * 10 + (c.toNat - '0'.toNat)) else none

/-- Modelled from the spec: `boost::lexical_cast<int>` (not among the sources): an
optional sign and at least one decimal digit, of a value that fits an `int`. -/
def lexical_cast_int (s : Text) : Option Int :=
  let value (neg : Bool) (ds : Text) : Option Int :=
    match ds with
    | [] => none
    | _ :: _ =>
      match digitsValue ds 0 with
      | none => none
      | some n =>
        let v : Int := if neg then -(n : Int) else (n : Int)
        if -(2 ^ 31 : Int) ≤ v ∧ v < 2 ^ 31 then some v else none
  match s with
  | '-' :: ds => value true ds
  | '+' :: ds => value false ds
  | ds => value false ds

/-- Modelled from the spec: `boost::lexical_cast<NC::Color>` (not among the
sources), on the colour names of the configuration file. -/
def lexical_cast_Color (s : Text) : Option NC.Color :=
  if s = "default".toList then some .Default
  else if s = "black".toList then some .Black
  else if s = "red".toList then some .Red
  else if s = "green".toList then some .Green
  else if s = "yellow".toList then some .Yellow
  else if s = "blue".toList then some .Blue
  else if s = "magenta".toList then some .Magenta
  else if s = "cyan".toList then some .Cyan
  else if s = "white".toList then some .White
  else none

/-- Modelled from the spec: `charToGetFunction` (utility/type_conversions is not
among the sources): the accessor of a field code of the registry, named by the
code, and `nullptr` for any other character. -/
def charToGetFunction (c : Char) : Option Char :=
  if c ∈ Format.fieldCodes then some c else none

/-- The helpers used for concrete runs; the conversions of the encoding leave a
text as it is. -/
def refHelpers : Helpers Char :=
  ⟨getEnclosedString, lexical_cast_int, lexical_cast_Color, charToGetFunction, id, id⟩

/-! ## Notions used to state the properties -/

namespace Format

/-- Nodes that are neither a field reference nor a nesting construct: literals,
directives and the output-switch marker. -/
def Expression.isPlain {G : Type} : Expression G → Bool
  | .Literal _ => true
  | .ColorDirective _ => true
  | .AttributeDirective _ _ => true
  | .OutputSwitchMarker => true
  | _ => false

end Format

/-- The text `showSongsInColumns` gets for one accessor:
`ToWString(Charset::utf8ToLocale(s.getTags(get)))` (display.cpp 202). -/
def tag_text {G : Type} (h : Helpers G) (s : Song G) (get : G) : Text :=
  h.ToWString (h.utf8ToLocale (s.getTags get))

/-- The texts of the candidates of a column, in the order of its codes. -/
def candidate_texts {G : Type} (h : Helpers G) (column : Column) (s : Song G) : List Text :=
  column.type.filterMap fun c => (h.charToGetFunction c).map (tag_text h s)

/-- The first non-empty text of a list, the empty text when there is none. -/
def first_non_empty : List Text → Text
  | [] => []
  | [] :: ts => first_non_empty ts
  | (x :: xs) :: _ => x :: xs

namespace Format

mutual
/-- Whether a field reference occurs in the subtree of an expression. -/
def Expression.hasFieldRef {G : Type} : Expression G → Bool
  | .FirstOf _ => true
  | .Group body _ => hasFieldRefSeq body
  | .Alternative left right => hasFieldRefSeq left || hasFieldRefSeq right
  | _ => false
/-- Whether a field reference occurs in the subtree of a sequence. -/
def hasFieldRefSeq {G : Type} : List (Expression G) → Bool
  | [] => false
  | e :: es => e.hasFieldRef || hasFieldRefSeq es
end

mutual
/-- Whether some field reference in the subtree of an expression, at any depth,
resolves to non-empty text for the record. -/
def Expression.anyFieldNonEmpty {G : Type} (record : Record G) : Expression G → Bool
  | .FirstOf cs => !(resolve record cs).isEmpty
  | .Group body _ => anyFieldNonEmptySeq record body
  | .Alternative left right => anyFieldNonEmptySeq record left || anyFieldNonEmptySeq record right
  | _ => false
/-- Whether some field reference in the subtree of a sequence resolves to non-empty
text for the record. -/
def anyFieldNonEmptySeq {G : Type} (record : Record G) : List (Expression G) → Bool
  | [] => false
  | e :: es => e.anyFieldNonEmpty record || anyFieldNonEmptySeq record es
end

mutual
/-- Whether the subtree of an expression carries no `Alternative`. -/
def Expression.altFree {G : Type} : Expression G → Bool
  | .Group body _ => altFreeSeq body
  | .Alternative _ _ => false
  | _ => true
/-- Whether the subtree of a sequence carries no `Alternative`. -/
def altFreeSeq {G : Type} : List (Expression G) → Bool
  | [] => true
  | e :: es => e.altFree && altFreeSeq es
end

/-- Whether the group with this body is rendered (its tentative buffer is spliced
into the output and not discarded) when evaluated from style `st` and switch `sw`. -/
def groupVisible {G : Type} (record : Record G) (flags : Flags) (st : Style) (sw : Bool)
    (body : List (Expression G)) : Bool :=
  !(evalSeq record flags st sw body).suppressed

end Format

namespace Format

/-- Whether a sequence has a `Group` among its elements. -/
def containsGroup {G : Type} : List (Expression G) → Bool
  | [] => false
  | .Group _ _ :: _ => true
  | _ :: es => containsGroup es

end Format

namespace Format

/-- The texts of a list of events, in order. -/
def eventTexts (es : List Event) : List Text := es.map Prod.fst

/-- Fragment `b` has the text of fragment `a`, all of it in the main sequence: the
texts of `b.main` are those of `a.main` followed by those of `a.trailing`, `b` has
no trailing event, and both saw the same field references. -/
def Out.mergedTextOf (a b : Out) : Prop :=
  eventTexts b.main = eventTexts a.main ++ eventTexts a.trailing ∧ b.trailing = [] ∧
    b.refs = a.refs ∧ b.hit = a.hit

/-- Fragments `a` and `b` have the same texts in the main sequence and the same
texts in the trailing sequence, end in the same output-switch state and saw the
same field references. -/
def Out.sameTexts (a b : Out) : Prop :=
  eventTexts b.main = eventTexts a.main ∧ eventTexts b.trailing = eventTexts a.trailing ∧
    b.switched = a.switched ∧ b.refs = a.refs ∧ b.hit = a.hit

/-- Every event of the fragment carries the style `st`, and the fragment ends in
that style. -/
def Out.styledOnly (st : Style) (o : Out) : Prop :=
  (∀ e ∈ o.main, e.2 = st) ∧ (∀ e ∈ o.trailing, e.2 = st) ∧ o.style = st

end Format

namespace Format

mutual
/-- The expression without any output-switch marker in its subtree. -/
def Expression.dropMarkers {G : Type} : Expression G → Expression G
  | .Group body opt => .Group (dropMarkersSeq body) opt
  | .Alternative left right => .Alternative (dropMarkersSeq left) (dropMarkersSeq right)
  | .Literal t => .Literal t
  | .FirstOf cs => .FirstOf cs
  | .ColorDirective c => .ColorDirective c
  | .AttributeDirective kind enable => .AttributeDirective kind enable
  | .OutputSwitchMarker => .OutputSwitchMarker
/-- The sequence without any output-switch marker, at any depth. -/
def dropMarkersSeq {G : Type} : List (Expression G) → List (Expression G)
  | [] => []
  | .OutputSwitchMarker :: es => dropMarkersSeq es
  | .Group body opt :: es => (Expression.Group body opt).dropMarkers :: dropMarkersSeq es
  | .Alternative left right :: es =>
    (Expression.Alternative left right).dropMarkers :: dropMarkersSeq es
  | .Literal t :: es => .Literal t :: dropMarkersSeq es
  | .FirstOf cs :: es => .FirstOf cs :: dropMarkersSeq es
  | .ColorDirective c :: es => .ColorDirective c :: dropMarkersSeq es
  | .AttributeDirective kind enable :: es => .AttributeDirective kind enable :: dropMarkersSeq es
end

/-- The record in which a missing field is the empty text. -/
def Record.orEmpty {G : Type} (record : Record G) : Record G :=
  fun g => some ((record g).getD [])

end Format

/-- Whether the width text of a column, without its one trailing `f`, is not a valid
integer for `boost::lexical_cast<int>`. -/
def invalid_width {G : Type} (h : Helpers G) (t : Text × Text × Text) : Prop :=
  h.lexical_cast_int (width_digits t.1) = none

namespace Format

/-- Where the scanner stands in a template text: in plain text, right after a
backslash, right after `$`, or right before the code character of a field
reference or of a directive. -/
inductive LexState where
  | plain
  | escape
  | dollar
  | code
  deriving DecidableEq, Repr

/-- The number of groups that are still open at the end of a template text, `d` of
them being open at its start: a `{` opens a group and a `}` closes one, except that
the character after a backslash is literal text and the character after `%`, `$` or
`$/` is a field or directive code. -/
def openGroupsFrom : LexState → Text → Nat → Nat
  | _, [], d => d
  | .plain, c :: rest, d =>
    if c = '}' then openGroupsFrom .plain rest (d - 1)
    else if c = '{' then openGroupsFrom .plain rest (d + 1)
    else if c = '\\' then openGroupsFrom .escape rest d
    else if c = '%' then openGroupsFrom .code rest d
    else if c = '$' then openGroupsFrom .dollar rest d
    else openGroupsFrom .plain rest d
  | .escape, _ :: rest, d => openGroupsFrom .plain rest d
  | .dollar, c :: rest, d =>
    if c = '/' then openGroupsFrom .code rest d else openGroupsFrom .plain rest d
  | .code, _ :: rest, d => openGroupsFrom .plain rest d

/-- The number of `{` of a template text that have no matching `}`. -/
def openGroups (text : Text) : Nat := openGroupsFrom .plain text 0

/-- A template text has an unterminated group when one of its `{` has no matching
`}`. -/
def unterminated (text : Text) : Prop := 0 < openGroups text

/-- What a reported position can point at: a brace, or the position right after a
`%`, `$` or `/` where a field or directive code is expected. -/
def offendingAt (text : Text) (pos : Nat) : Prop :=
  text[pos]? = some '{' ∨ text[pos]? = some '}' ∨
    ∃ k, pos = k + 1 ∧ (text[k]? = some '%' ∨ text[k]? = some '$' ∨ text[k]? = some '/')

end Format

/-- A brace text of the form `c1|c2|...|ck`, flags, and an optional `:label`: the
codes are `codes` (at least one, none of them the `:`), the flags are `flags` (they
do not start with `|`, which would continue the code list, and hold no `:`), and
the label is `label`. -/
def brace_form (tag_type codes flags : Text) (label : Option Text) : Prop :=
  tag_type = codes.intersperse '|' ++ flags ++
      (match label with
        | none => []
        | some l => ':' :: l) ∧
    codes ≠ [] ∧ (∀ c ∈ codes, c ≠ ':') ∧ ':' ∉ flags ∧ flags.head? ≠ some '|'

/-- The name a label gives to a column: `ToWString` of the text after the `:`, and
the empty name without a label. -/
def label_name {G : Type} (h : Helpers G) : Option Text → Text
  | none => []
  | some l => h.ToWString l

/-- Column `c2` is column `c1` up to its `stretch_limit`. -/
def same_but_stretch (c1 c2 : Column) : Prop :=
  c2.name = c1.name ∧ c2.type = c1.type ∧ c2.width = c1.width ∧ c2.color = c1.color ∧
    c2.fixed = c1.fixed ∧ c2.right_alignment = c1.right_alignment ∧
    c2.display_empty_tag = c1.display_empty_tag

/-- Column `col` is what the loop body of `generate_columns` makes of the enclosed
texts `t`, up to the `stretch_limit` set after the loop. -/
def column_from {G : Type} (h : Helpers G) (t : Text × Text × Text) (col : Column) : Prop :=
  ∃ c0, make_column h t.1 t.2.1 t.2.2 = .ok c0 ∧ same_but_stretch c0 col

/-- The default value of the option `song_columns_list_format` (settings.cpp 369). -/
def default_columns_format : Text :=
  "(20)[]{a} (6f)[green]{NE} (50)[white]{t|f:Title} (20)[cyan]{b} (7f)[magenta]{l}".toList

/-- The columns `generate_columns` makes of the default format, with the helpers for
concrete runs. -/
def default_columns : List Column :=
  [{ type := ['a'], width := 20 },
   { type := ['N'], width := 6, color := .Green, fixed := true, display_empty_tag := false },
   { name := "Title".toList, type := ['t', 'f'], width := 50, color := .White },
   { type := ['b'], width := 20, color := .Cyan, stretch_limit := 7 },
   { type := ['l'], width := 7, color := .Magenta, fixed := true }]

/-! ## Display: cells and headers (display.cpp) -/

/-- The functions on wide strings which display.cpp calls and which are not among
the sources: `wideCut(ws, max_length)` (the text cut to a width), `wideLength`,
`ToString`, and `relative_width w list_width` for the value of the expression
`it->width * list_width * 0.01` assigned to the `int width`. -/
structure WideHelpers where
  wideCut : Text → Int → Text
  wideLength : Text → Nat
  ToString : Text → Text
  relative_width : Int → Nat → Int

/-- The text of a cell of `showSongsInColumns` (display.cpp 197-208): the tag of the
column, replaced by `Config.empty_tag` when it is empty and the column displays
empty tags, and then cut to `width`. -/
def cell_text {G : Type} (h : Helpers G) (wh : WideHelpers) (empty_tag : Text)
    (column : Column) (s : Song G) (width : Int) : Except Failure Text :=
  match column_tag h column s with
  | .error e => .error e
  | .ok tag =>
    .ok (wh.wideCut
      (if tag = [] ∧ column.display_empty_tag = true then h.ToWString empty_tag else tag) width)

/-- The function `toColumnName` of display.cpp 40-77. -/
def toColumnName (c : Char) : Text :=
  if c = 'l' then "Time".toList
  else if c = 'f' then "Filename".toList
  else if c = 'D' then "Directory".toList
  else if c = 'a' then "Artist".toList
  else if c = 'A' then "Album Artist".toList
  else if c = 't' then "Title".toList
  else if c = 'b' then "Album".toList
  else if c = 'y' then "Date".toList
  else if c = 'n' ∨ c = 'N' then "Track".toList
  else if c = 'g' then "Genre".toList
  else if c = 'c' then "Composer".toList
  else if c = 'p' then "Performer".toList
  else if c = 'd' then "Disc".toList
  else if c = 'C' then "Comment".toList
  else if c = 'P' then "Priority".toList
  else "?".toList

/-- The loop of `Display::Columns` which builds the name of a column without a name
of its own (display.cpp 287-296): the names of its codes, with a `/` after each but
the last.  For an empty type the loop reads `type[0]`, the terminating `'\0'`. -/
def column_name_loop : Text → Text
  | [] => toColumnName (Char.ofNat 0)
  | [c] => toColumnName c
  | c :: d :: rest => toColumnName c ++ '/' :: column_name_loop (d :: rest)

/-- The name of a column in the header, before it is cut (display.cpp 284-299). -/
def header_name (column : Column) : Text :=
  if column.name = [] then column_name_loop column.type else column.name

/-- Subtraction of `int`s, two's complement. -/
def int_sub (a b : Int) : Int := (a - b + 2 ^ 31) % 2 ^ 32 - 2 ^ 31

/-- Conversion of a `size_t` to `int`, two's complement. -/
def int_of_size_t (n : Nat) : Int := ((n : Int) + 2 ^ 31) % 2 ^ 32 - 2 ^ 31

/-- A column `Display::Columns` emits: the column, the width it gets, its name cut to
that width, and whether it is the last column of the list. -/
structure HeaderCell where
  column : Column
  width : Int
  name : Text
  last : Bool
  deriving DecidableEq, Repr

/-- The width `Display::Columns` first gives to a column (display.cpp 266-271): a
column with a stretch limit takes what remains but the limit, a fixed column its
width, another column its share of the list width. -/
def column_width (wh : WideHelpers) (list_width : Nat) (it : Column) (remained_width : Int) :
    Int :=
  if it.stretch_limit ≥ 0 then int_sub remained_width it.stretch_limit
  else if it.fixed then it.width else wh.relative_width it.width list_width

/-- The statement `if (it != last) --width;` (display.cpp 275-278). -/
def spaced_width (width : Int) (last : Bool) : Int :=
  if last then width else int_sub width 1

/-- The loop of `Display::Columns` (display.cpp 264-320) over the columns from `it`
on, with the current value of `remained_width`: the columns it emits. -/
def Columns_loop (wh : WideHelpers) (list_width : Nat) : List Column → Int → List HeaderCell
  | [], _ => []
  | it :: rest, remained_width =>
    if column_width wh list_width it remained_width = 0 then
      Columns_loop wh list_width rest remained_width
    else if int_sub remained_width
        (spaced_width (column_width wh list_width it remained_width) rest.isEmpty) < 0 ∨
        spaced_width (column_width wh list_width it remained_width) rest.isEmpty < 0 then []
    else
      ⟨it, spaced_width (column_width wh list_width it remained_width) rest.isEmpty,
        wh.wideCut (header_name it)
          (spaced_width (column_width wh list_width it remained_width) rest.isEmpty),
        rest.isEmpty⟩ ::
        Columns_loop wh list_width rest
          (if rest.isEmpty then remained_width
           else int_sub remained_width
             (int_add (spaced_width (column_width wh list_width it remained_width) rest.isEmpty)
               1))

/-- What `Display::Columns` appends to `result` for one column (display.cpp 302-319):
the name and the spaces that fill the width, in the order of the alignment, and the
space between two columns. -/
def header_cell_text {G : Type} (h : Helpers G) (wh : WideHelpers) (cell : HeaderCell) : Text :=
  let x_off := max 0 (int_sub cell.width (int_of_size_t (wh.wideLength cell.name)))
  let spaces := List.replicate x_off.toNat ' '
  let name := h.utf8ToLocale (wh.ToString cell.name)
  (if cell.column.right_alignment then spaces ++ name else name ++ spaces) ++
    (if cell.last then [] else [' '])

/-- The function `Display::Columns` of display.cpp 255-323, for the column list
`Config.columns`. -/
def Display.Columns {G : Type} (h : Helpers G) (wh : WideHelpers) (columns : List Column)
    (list_width : Nat) : Text :=
  ((Columns_loop wh list_width columns (int_of_size_t list_width)).map
    (header_cell_text h wh)).flatten

/-- Modelled from the spec: the wide-string helpers for concrete runs, on texts whose
characters are one column wide (utility/wide_string is not among the sources). -/
def refWide : WideHelpers :=
  ⟨fun t w => t.take w.toNat, List.length, id, fun w lw => w * (lw : Int) / 100⟩

namespace Format

/-- The template text that stands for a literal text: every reserved character is
written with a backslash before it. -/
def escapeReserved : Text → Text
  | [] => []
  | c :: cs => if reserved c then '\\' :: c :: escapeReserved cs else c :: escapeReserved cs

end Format

namespace Format

/-- Whether an expression is neither a `Group` nor an `Alternative`. -/
def Expression.isLeaf {G : Type} : Expression G → Bool
  | .Group _ _ => false
  | .Alternative _ _ => false
  | _ => true

/-- The text an expression that is no group and no alternative stands for: the text
of a literal, the substitution of a field reference, nothing for a directive. -/
def Expression.ownText {G : Type} (record : Record G) : Expression G → Text
  | .Literal t => t
  | .FirstOf cs => resolve record cs
  | _ => []

/-- The concatenation, in source order, of the literals and the field substitutions
of a sequence. -/
def sourceText {G : Type} (record : Record G) (l : List (Expression G)) : Text :=
  (l.map (Expression.ownText record)).flatten

end Format

/-- The two display modes of a list of songs (enums.h is not among the sources). -/
inductive DisplayMode where
  | Classic
  | Columns
  deriving DecidableEq, Repr

/-- The record of a song: every accessor gives a text. -/
def Song.record {G : Type} (s : Song G) : Format.Record G := fun get => some (s.getTags get)

/-- The function `SongToString` of playlist_editor.cpp 441-454, with the
configuration values it reads. -/
def SongToString {G : Type} (playlist_display_mode : DisplayMode)
    (song_list_format song_columns_mode_format : Format.AST G) (s : Song G) : Text :=
  match playlist_display_mode with
  | .Classic => Format.stringify song_list_format (some s.record)
  | .Columns => Format.stringify song_columns_mode_format (some s.record)

/-- The worker of the option `song_status_format` (settings.cpp 308-314): the
template is parsed twice with the same flags, once as a wide string for
`song_status_wformat` and once as it is. -/
def song_status_format_worker {G : Type} (h : Helpers G) (reg : Format.Registry) (v : Text) :
    Except Failure (Format.AST Char × Format.AST Char) :=
  match Format.parse reg (h.ToWString v) (Format.Flags.All.xor Format.Flags.OutputSwitch) with
  | .error e => .error e
  | .ok song_status_wformat =>
    match Format.parse reg v (Format.Flags.All.xor Format.Flags.OutputSwitch) with
    | .error e => .error e
    | .ok song_status_format => .ok (song_status_wformat, song_status_format)

/-! ## Options (settings.cpp) -/

/-- The worker of the option `default_place_to_search_in` (settings.cpp 432-438): the
value it assigns to `search_in_db`, or the message of its `std::runtime_error`. -/
def default_place_to_search_in_worker (v : Text) : Except Text Bool :=
  if v = "database".toList then .ok true
  else if v = "playlist".toList then .ok true
  else .error ("invalid argument: ".toList ++ v)

/-- The option `default_place_to_search_in` of `Configuration::read` (settings.cpp
432-440): the value of `search_in_db` once the configuration is read.  The option
parser (utility/option_parser is not among the sources) runs the worker on the value
of an option that is present, and `defaults_to(search_in_db, true)` otherwise. -/
def default_place_to_search_in (value : Option Text) : Except Text Bool :=
  match value with
  | none => .ok true
  | some v => default_place_to_search_in_worker v

/-- The `int` a value wraps to, two's complement. -/
def int_wrap (x : Int) : Int := (x + 2 ^ 31) % 2 ^ 32 - 2 ^ 31

/-- Whether a value is that of an `int`. -/
def is_int (x : Int) : Prop := -(2 ^ 31) ≤ x ∧ x < 2 ^ 31

/-- The sum of the widths of a list of columns. -/
def widths_sum (cols : List Column) : Int := (cols.map Column.width).sum

/-- A format with two fixed columns after a relative one, whose widths add up to
`2 ^ 31`. -/
def wide_columns_format : Text := "(10)[]{a} (2147483647f)[]{b} (1f)[]{l}".toList

/-! ## Statusbar (statusbar.cpp) -/

namespace Statusbar

/-- The file-scope variables of statusbar.cpp 33-39.  A time is a count of ticks of
the clock, `statusbar_lock_delay` a count of seconds; the initial value of
`statusbar_lock_time` is never read, since `tryRedraw` reads it only under a positive
delay, which only `print` sets, together with the time. -/
structure State where
  progressbar_block_update : Bool := false
  statusbar_lock_time : Int := 0
  statusbar_lock_delay : Int := -1
  statusbar_block_update : Bool := false
  statusbar_allow_unlock : Bool := true
  deriving DecidableEq, Repr

/-- Modelled from the spec: the duration `boost::posix_time::seconds(n)` in ticks of
the clock (boost is not among the sources), which counts microseconds. -/
def seconds (n : Int) : Int := n * 1000000

/-- The function `Statusbar::print(int delay, const std::string &message)` of
statusbar.cpp 175-189, on the variables of the file, for the values of
`Config.statusbar_visibility` and `Global::Timer`.  What it writes to the footer
window is not part of the state. -/
def print (statusbar_visibility : Bool) (Timer : Int) (delay : Int) (_message : Text)
    (s : State) : State :=
  if s.statusbar_allow_unlock then
    if statusbar_visibility then
      { s with statusbar_lock_time := Timer, statusbar_lock_delay := delay,
               statusbar_block_update := true }
    else
      { s with statusbar_lock_time := Timer, statusbar_lock_delay := delay,
               progressbar_block_update := true }
  else s

/-- The function `Statusbar::tryRedraw` of statusbar.cpp 130-167, on the variables of
the file.  What it draws when both bars are free is not part of the state. -/
def tryRedraw (statusbar_visibility : Bool) (Timer : Int) (s : State) : State :=
  if s.statusbar_lock_delay > 0 ∧
      Timer - s.statusbar_lock_time > seconds s.statusbar_lock_delay then
    if statusbar_visibility then
      { s with statusbar_lock_delay := -1, statusbar_block_update := !s.statusbar_allow_unlock }
    else
      { s with statusbar_lock_delay := -1,
               progressbar_block_update := !s.statusbar_allow_unlock }
  else s

/-- The function `Statusbar::isUnlocked` (statusbar.cpp 125-128). -/
def isUnlocked (s : State) : Bool := !s.statusbar_block_update

/-- The function `Progressbar::isUnlocked` (statusbar.cpp 53-56). -/
def Progressbar_isUnlocked (s : State) : Bool := !s.progressbar_block_update

/-- The bar which `print` locks: the status bar if it is visible, the progress bar
otherwise; whether it is unlocked. -/
def locked_bar_isUnlocked (statusbar_visibility : Bool) (s : State) : Bool :=
  if statusbar_visibility then isUnlocked s else Progressbar_isUnlocked s

end Statusbar

/-- What makes `len` the display length of the texts of a header, for the helpers
which are not among the sources: it adds up over a concatenation, a run of spaces
takes a cell for each, a name takes the cells `wideLength` counts, and `wideCut`
cuts a name to the width it is given. -/
def display_length_of {G : Type} (h : Helpers G) (wh : WideHelpers) (len : Text → Nat) : Prop :=
  (∀ a b, len (a ++ b) = len a + len b) ∧
    (∀ n, len (List.replicate n ' ') = n) ∧
    (∀ t, len (h.utf8ToLocale (wh.ToString t)) = wh.wideLength t) ∧
    ∀ t w, 0 ≤ w → (wh.wideLength (wh.wideCut t w) : Int) ≤ w

/-- Whether the widths `Display::Columns` assigns to its `int width` are values of an
`int`: the width of each column and the value of the floating-point expression for
it. -/
def int_widths (wh : WideHelpers) (columns : List Column) (list_width : Nat) : Prop :=
  ∀ c ∈ columns, is_int c.width ∧ is_int (wh.relative_width c.width list_width)

/-- Two fixed columns, the first of which is as wide as a line of 10 cells and one
more. -/
def tight_columns_format : Text := "(11f)[]{a} (5f)[]{b}".toList

/-- A format with one column of relative width between two fixed columns. -/
def one_relative_format : Text := "(6f)[]{N} (50)[]{t} (7f)[]{l}".toList

/-- The columns `generate_columns` makes of `one_relative_format`, with the helpers
for concrete runs. -/
def one_relative_columns : List Column :=
  [{ type := ['N'], width := 6, fixed := true },
   { type := ['t'], width := 50, stretch_limit := 7 },
   { type := ['l'], width := 7, fixed := true }]

/-! ## Menu (menu_impl.h) -/

namespace NC

/-- The directions of `Menu::scroll` (`NC::Scroll`, window.h is not among the
sources). -/
inductive Scroll where
  | Up
  | Down
  | PageUp
  | PageDown
  | Home
  | End
  deriving DecidableEq, Repr

/-- Addition of `size_t` values, modulo `2 ^ 64`. -/
def size_t_add (a b : Nat) : Nat := (a + b) % 2 ^ 64

/-- Subtraction of `size_t` values, modulo `2 ^ 64`. -/
def size_t_sub (a b : Nat) : Nat := (a + 2 ^ 64 - b) % 2 ^ 64

/-- The members of `Menu<ItemT>` which `Menu::scroll` and `Menu::highlight` read or
write, with `m_height` of the window.  An item stands as the answer which
`isHighlightable` gives for it (menu.h is not among the sources): false for a
separator or another item which the cursor may not rest on. -/
structure Menu where
  m_items : List Bool
  m_height : Nat
  m_beginning : Nat := 0
  m_highlight : Nat := 0
  m_cyclic_scroll_enabled : Bool := false
  m_autocenter_cursor : Bool := false
  deriving DecidableEq, Repr

namespace Menu

/-- The call `isHighlightable(pos)`, which reads `m_items[pos]`: no defined value
beyond the items. -/
def isHighlightable (m : Menu) (pos : Nat) : Except Failure Bool :=
  match m.m_items[pos]? with
  | some item => .ok item
  | none => .error .out_of_range

/-- The function `Menu::highlight` of menu_impl.h 329-339. -/
def highlight (m : Menu) (pos : Nat) : Except Failure Menu :=
  if pos < m.m_items.length then
    .ok { m with
      m_highlight := pos
      m_beginning := if pos < m.m_height / 2 then 0 else size_t_sub pos (m.m_height / 2) }
  else .error .assertion_failed

/-- The end of `Menu::scroll`: `if (m_autocenter_cursor) highlight(m_highlight);`
(menu_impl.h 312-313). -/
def autocenter (m : Menu) : Except Failure Menu :=
  if m.m_autocenter_cursor then m.highlight m.m_highlight else .ok m

/-- The local `max_highlight` of `Menu::scroll` (menu_impl.h 230). -/
def max_highlight (m : Menu) : Nat := size_t_sub m.m_items.length 1

/-- The local `max_beginning` of `Menu::scroll` (menu_impl.h 231). -/
def max_beginning (m : Menu) : Nat :=
  if m.m_items.length < m.m_height then 0 else size_t_sub m.m_items.length m.m_height

/-- The local `max_visible_highlight` of `Menu::scroll` (menu_impl.h 232). -/
def max_visible_highlight (m : Menu) : Nat :=
  size_t_sub (size_t_add m.m_beginning m.m_height) 1

/-- The end of each case of the `switch` of `Menu::scroll`:
`if (!isHighlightable(m_highlight)) scroll(where); break;`, followed by the end of
the function.  `scroll` stands for the recursive call. -/
def settle (scroll : Menu → Scroll → Except Failure Menu) (m : Menu) (where_ : Scroll) :
    Except Failure Menu :=
  match m.isHighlightable m.m_highlight with
  | .error e => .error e
  | .ok true => m.autocenter
  | .ok false =>
    match scroll m where_ with
    | .error e => .error e
    | .ok m1 => m1.autocenter

/-- The case `Scroll::Up` of `Menu::scroll` (menu_impl.h 235-250), with the locals of
the call for a menu with items. -/
def scroll_Up (scroll : Menu → Scroll → Except Failure Menu) (m : Menu) : Except Failure Menu :=
  let m1 : Menu :=
    { m with m_beginning :=
        if m.m_highlight ≤ m.m_beginning ∧ m.m_highlight > 0 then size_t_sub m.m_beginning 1
        else m.m_beginning }
  if m1.m_highlight = 0 then
    if m1.m_cyclic_scroll_enabled then scroll m1 .End else m1.autocenter
  else
    let m2 : Menu := { m1 with m_highlight := size_t_sub m1.m_highlight 1 }
    settle scroll m2
      (if m2.m_highlight = 0 ∧ m2.m_cyclic_scroll_enabled = false then .Down else .Up)

/-- The case `Scroll::Down` of `Menu::scroll` (menu_impl.h 251-266). -/
def scroll_Down (scroll : Menu → Scroll → Except Failure Menu) (m : Menu) :
    Except Failure Menu :=
  let m1 : Menu :=
    { m with m_beginning :=
        if m.m_highlight ≥ m.max_visible_highlight ∧ m.m_highlight < m.max_highlight then
          size_t_add m.m_beginning 1
        else m.m_beginning }
  if m1.m_highlight = m.max_highlight then
    if m1.m_cyclic_scroll_enabled then scroll m1 .Home else m1.autocenter
  else
    let m2 : Menu := { m1 with m_highlight := size_t_add m1.m_highlight 1 }
    settle scroll m2
      (if m2.m_highlight = m.max_highlight ∧ m2.m_cyclic_scroll_enabled = false then .Up
       else .Down)

/-- The case `Scroll::PageUp` of `Menu::scroll` (menu_impl.h 267-282). -/
def scroll_PageUp (scroll : Menu → Scroll → Except Failure Menu) (m : Menu) :
    Except Failure Menu :=
  if m.m_cyclic_scroll_enabled = true ∧ m.m_highlight = 0 then scroll m .End
  else
    let m1 : Menu :=
      { m with m_highlight :=
          if m.m_highlight < m.m_height then 0 else size_t_sub m.m_highlight m.m_height }
    let m2 : Menu :=
      { m1 with m_beginning :=
          if m1.m_beginning < m1.m_height then 0 else size_t_sub m1.m_beginning m1.m_height }
    settle scroll m2
      (if m2.m_highlight = 0 ∧ m2.m_cyclic_scroll_enabled = false then .Down else .Up)

/-- The case `Scroll::PageDown` of `Menu::scroll` (menu_impl.h 283-294). -/
def scroll_PageDown (scroll : Menu → Scroll → Except Failure Menu) (m : Menu) :
    Except Failure Menu :=
  if m.m_cyclic_scroll_enabled = true ∧ m.m_highlight = m.max_highlight then scroll m .Home
  else
    let m1 : Menu :=
      { m with
        m_highlight := size_t_add m.m_highlight m.m_height
        m_beginning := size_t_add m.m_beginning m.m_height }
    let m2 : Menu :=
      { m1 with
        m_beginning := min m1.m_beginning m.max_beginning
        m_highlight := min m1.m_highlight m.max_highlight }
    settle scroll m2
      (if m2.m_highlight = m.max_highlight ∧ m2.m_cyclic_scroll_enabled = false then .Up
       else .Down)

/-- The case `Scroll::Home` of `Menu::scroll` (menu_impl.h 295-302). -/
def scroll_Home (scroll : Menu → Scroll → Except Failure Menu) (m : Menu) :
    Except Failure Menu :=
  settle scroll { m with m_highlight := 0, m_beginning := 0 } .Down

/-- The case `Scroll::End` of `Menu::scroll` (menu_impl.h 303-310). -/
def scroll_End (scroll : Menu → Scroll → Except Failure Menu) (m : Menu) :
    Except Failure Menu :=
  settle scroll { m with m_highlight := m.max_highlight, m_beginning := m.max_beginning } .Up

/-- The body of `Menu::scroll` (menu_impl.h 225-314); `scroll` stands for the
recursive calls. -/
def scroll_body (scroll : Menu → Scroll → Except Failure Menu) (m : Menu) (where_ : Scroll) :
    Except Failure Menu :=
  if m.m_items.isEmpty then .ok m
  else
    match where_ with
    | .Up => m.scroll_Up scroll
    | .Down => m.scroll_Down scroll
    | .PageUp => m.scroll_PageUp scroll
    | .PageDown => m.scroll_PageDown scroll
    | .Home => m.scroll_Home scroll
    | .End => m.scroll_End scroll

/-- The function `Menu::scroll` of menu_impl.h 225-314, with a bound `fuel` on the
depth of its recursion. -/
def scroll : Nat → Menu → Scroll → Except Failure Menu
  | 0 => fun _ _ => .error .out_of_fuel
  | fuel + 1 => scroll_body (scroll fuel)

/-- The ranges of the members: a vector holds fewer than `2 ^ 63` items, the other
members are values of a `size_t`; and the highlighted position is that of an item. -/
def ranged (m : Menu) : Prop :=
  m.m_items.length < 2 ^ 63 ∧ m.m_height < 2 ^ 64 ∧ m.m_beginning < 2 ^ 64 ∧
    m.m_highlight < m.m_items.length

/-- The highlighted item is inside the window of the menu, of a height of at least
one line. -/
def windowed (m : Menu) : Prop :=
  1 ≤ m.m_height ∧ m.m_beginning ≤ m.m_highlight ∧
    m.m_highlight + 1 ≤ m.m_beginning + m.m_height

/-- Position `pos` holds an item the cursor may rest on. -/
def highlightableAt (m : Menu) (pos : Nat) : Prop := m.m_items[pos]? = some true

/-- Menu `m1` has the items, the height and the settings of menu `m`. -/
def same_menu (m m1 : Menu) : Prop :=
  m1.m_items = m.m_items ∧ m1.m_height = m.m_height ∧
    m1.m_cyclic_scroll_enabled = m.m_cyclic_scroll_enabled ∧
    m1.m_autocenter_cursor = m.m_autocenter_cursor

/-- Menu `m1` is a state of menu `m` with its members in range, and with the
highlighted item inside the window if that of `m` is. -/
def kept (m m1 : Menu) : Prop :=
  m1.ranged ∧ same_menu m m1 ∧ (m.windowed → m1.windowed)

end Menu

/-- A menu of four items with a separator at positions 1 and 2, in a window of two
lines, with the cursor on the first item. -/
def separator_menu : Menu :=
  { m_items := [true, false, false, true], m_height := 2 }

/-- The menu `separator_menu` with cyclic scrolling and the centered cursor. -/
def cyclic_menu : Menu :=
  { m_items := [true, false, false, true], m_height := 2, m_cyclic_scroll_enabled := true,
    m_autocenter_cursor := true }

/-- A menu whose cursor is on a separator, the last item. -/
def unsettled_menu : Menu :=
  { m_items := [true, true, false], m_height := 2, m_beginning := 1, m_highlight := 2 }

end NC

/-! # Properties -/

namespace Format

/-! ## The evaluator: sequencing -/

theorem Out.empty_append (st : Style) (sw : Bool) (o : Out) : (Out.empty st sw).append o = o := by
  cases o; simp [Out.empty, Out.append]

theorem Out.append_assoc (a b c : Out) : (a.append b).append c = a.append (b.append c) := by
  simp [Out.append, Bool.or_assoc]

theorem evalSeq_nil {G : Type} (r : Record G) (f : Flags) (st : Style) (sw : Bool) :
    evalSeq r f st sw [] = Out.empty st sw := by
  simp [evalSeq]

theorem evalSeq_cons {G : Type} (r : Record G) (f : Flags) (st : Style) (sw : Bool)
    (e : Expression G) (es : List (Expression G)) :
    evalSeq r f st sw (e :: es) =
      (evalExpr r f st sw e).append
        (evalSeq r f (evalExpr r f st sw e).style (evalExpr r f st sw e).switched es) := by
  simp [evalSeq]

theorem evalSeq_append {G : Type} (r : Record G) (f : Flags) (a b : List (Expression G)) :
    ∀ (st : Style) (sw : Bool), evalSeq r f st sw (a ++ b) =
      (evalSeq r f st sw a).append
        (evalSeq r f (evalSeq r f st sw a).style (evalSeq r f st sw a).switched b) := by
  induction a with
  | nil => intro st sw; simp only [List.nil_append, evalSeq_nil, Out.empty_append]; rfl
  | cons e es ih =>
    intro st sw
    simp only [List.cons_append, evalSeq_cons, ih, Out.append_assoc]
    simp [Out.append]

theorem evalExpr_Group {G : Type} (r : Record G) (f : Flags) (st : Style) (sw : Bool)
    (body : List (Expression G)) (opt : Bool) :
    evalExpr r f st sw (.Group body opt) = (evalSeq r f st sw body).asGroup st sw := by
  simp only [evalExpr]

theorem evalExpr_plain {G : Type} (r : Record G) (f : Flags) (st : Style) (sw : Bool)
    (e : Expression G) (he : e.isPlain = true) :
    (evalExpr r f st sw e).refs = false ∧ (evalExpr r f st sw e).hit = false := by
  cases e <;> simp [Expression.isPlain] at he <;> simp [evalExpr, Out.emit, Out.empty] <;>
    split <;> simp

theorem evalSeq_plain {G : Type} (r : Record G) (f : Flags) (l : List (Expression G)) :
    ∀ (st : Style) (sw : Bool), (∀ e ∈ l, e.isPlain = true) →
      (evalSeq r f st sw l).refs = false ∧ (evalSeq r f st sw l).hit = false := by
  induction l with
  | nil => intro st sw _; simp [evalSeq_nil, Out.empty]
  | cons e es ih =>
    intro st sw h
    have h1 := evalExpr_plain r f st sw e (h e (List.mem_cons_self _ _))
    have h2 := ih (evalExpr r f st sw e).style (evalExpr r f st sw e).switched
      (fun x hx => h x (List.mem_cons_of_mem _ hx))
    simp [evalSeq_cons, Out.append, h1, h2]

theorem evalExpr_FirstOf_empty {G : Type} (r : Record G) (f : Flags) (st : Style) (sw : Bool)
    (cs : List G) (h : resolve r cs = []) :
    evalExpr r f st sw (.FirstOf cs) = ⟨[], [], st, sw, true, false⟩ := by
  simp [evalExpr, h]

theorem resolve_single {G : Type} (r : Record G) (c : G) :
    resolve r [c] = (r c).getD [] := by
  unfold resolve
  cases h : r c with
  | none => simp [resolve]
  | some t => cases t <;> simp [resolve]

/-! ## C1 -/

/-- C1: a group whose only field reference resolves to empty text renders nothing
(no event in the main or the trailing sequence, zero-length text), whatever
literals and directives stand before and after the reference; in particular the
template `{%a - }{%t}` renders exactly `Song` for every record whose artist is
empty or missing and whose title is `Song`, under every flag set and through
`stringify`. -/
theorem group_with_empty_field_renders_nothing {G : Type} (r : Record G) (f : Flags)
    (st : Style) (sw : Bool) (pre post : List (Expression G)) (cs : List G) (opt : Bool)
    (hpre : ∀ e ∈ pre, e.isPlain = true) (hpost : ∀ e ∈ post, e.isPlain = true)
    (h : resolve r cs = []) :
    ((evalExpr r f st sw (.Group (pre ++ .FirstOf cs :: post) opt)).main = [] ∧
      (evalExpr r f st sw (.Group (pre ++ .FirstOf cs :: post) opt)).trailing = [] ∧
      (evalExpr r f st sw (.Group (pre ++ .FirstOf cs :: post) opt)).text = []) ∧
    ∀ (song : Record Char) (flags : Flags),
      (song 'a').getD [] = [] → song 't' = some "Song".toList →
      ∃ ast, parse specRegistry "{%a - }{%t}".toList flags = .ok ast ∧
        (render ast song flags).text = "Song".toList ∧
        stringify ast (some song) = "Song".toList := by
  constructor
  · have h1 := evalSeq_plain r f pre st sw hpre
    have h2 := evalSeq_plain r f post (evalSeq r f st sw pre).style
      (evalSeq r f st sw pre).switched hpost
    rw [evalExpr_Group, evalSeq_append, evalSeq_cons, evalExpr_FirstOf_empty r f _ _ cs h]
    simp [Out.asGroup, Out.suppressed, Out.append, h1, h2, Out.text, eventsText]
  · intro song flags ha ht
    refine ⟨[.Group [.FirstOf ['a'], .Literal " - ".toList] true, .Group [.FirstOf ['t']] true],
      rfl, ?_, ?_⟩
    · simp [render, evalSeq, evalExpr, resolve_single, ha, ht, Out.asGroup, Out.suppressed,
        Out.append, Out.emit, Out.text, eventsText, Out.empty]
    · simp [stringify, print, render, evalSeq, evalExpr, resolve_single, ha, ht, Out.asGroup,
        Out.suppressed, Out.append, Out.emit, Out.text, eventsText, Out.empty]

/-- Witness of C1: the group `{%a - }` of the title format, for a song without
artist. -/
theorem group_with_empty_field_renders_nothing_witness :
    (∀ e ∈ ([] : List (Expression Char)), e.isPlain = true) ∧
    (∀ e ∈ [Expression.Literal (G := Char) " - ".toList], e.isPlain = true) ∧
    resolve (fun c => if c = 't' then some "Song".toList else none) ['a'] = [] ∧
    (evalExpr (fun c => if c = 't' then some "Song".toList else none) Flags.All Style.initial
      false (.Group ([] ++ .FirstOf ['a'] :: [.Literal " - ".toList]) true)).text = [] ∧
    ∃ ast, parse specRegistry "{%a - }{%t}".toList Flags.Tag = .ok ast ∧
      (render ast (fun c => if c = 't' then some "Song".toList else none) Flags.Tag).text
        = "Song".toList :=
  have hpre : ∀ e ∈ ([] : List (Expression Char)), e.isPlain = true := by simp
  have hpost : ∀ e ∈ [Expression.Literal (G := Char) " - ".toList], e.isPlain = true := by
    simp [Expression.isPlain]
  have hres : resolve (fun c => if c = 't' then some "Song".toList else none) ['a'] = [] := by
    simp [resolve]
  have key := group_with_empty_field_renders_nothing
    (fun c => if c = 't' then some "Song".toList else none) Flags.All Style.initial false
    [] [.Literal " - ".toList] ['a'] true hpre hpost hres
  ⟨hpre, hpost, hres, key.1.2.2,
    (key.2 (fun c => if c = 't' then some "Song".toList else none) Flags.Tag (by simp)
      (by simp)).imp fun _ h => ⟨h.1, h.2.1⟩⟩

end Format

namespace Format

/-! ## C2 -/

theorem evalExpr_Alternative {G : Type} (r : Record G) (f : Flags) (st : Style) (sw : Bool)
    (left right : List (Expression G)) :
    evalExpr r f st sw (.Alternative left right) =
      if (evalExpr r f st sw (.Group left true)).text = [] then
        { evalSeq r f st sw right with
          refs := (evalExpr r f st sw (.Group left true)).refs || (evalSeq r f st sw right).refs }
      else evalExpr r f st sw (.Group left true) := by
  simp only [evalExpr]
  cases h : ((evalSeq r f st sw left).asGroup st sw).text <;> simp

/-- C2: the template `{%t}|{%f}` renders the title whenever the title is non-empty,
whatever the filename is, and the filename when the title is empty or missing; and
in general an `Alternative` yields its left branch, evaluated as a group body,
whenever that branch has non-empty text, and its right branch otherwise. -/
theorem alternative_prefers_left (song : Record Char) (flags : Flags) :
    (∃ ast, parse specRegistry "{%t}|{%f}".toList flags = .ok ast ∧
      (render ast song flags).text =
        if (song 't').getD [] = [] then (song 'f').getD [] else (song 't').getD []) ∧
    ∀ (G : Type) (r : Record G) (f : Flags) (st : Style) (sw : Bool)
      (left right : List (Expression G)),
      (evalExpr r f st sw (.Alternative left right)).main =
        (if (evalExpr r f st sw (.Group left true)).text = [] then (evalSeq r f st sw right).main
          else (evalExpr r f st sw (.Group left true)).main) ∧
      (evalExpr r f st sw (.Alternative left right)).trailing =
        (if (evalExpr r f st sw (.Group left true)).text = [] then
          (evalSeq r f st sw right).trailing
          else (evalExpr r f st sw (.Group left true)).trailing) ∧
      (evalExpr r f st sw (.Alternative left right)).style =
        (if (evalExpr r f st sw (.Group left true)).text = [] then (evalSeq r f st sw right).style
          else (evalExpr r f st sw (.Group left true)).style) := by
  constructor
  · refine ⟨[.Alternative [.Group [.FirstOf ['t']] true] [.Group [.FirstOf ['f']] true]], rfl, ?_⟩
    cases ht : (song 't').getD [] with
    | nil =>
      cases hf : (song 'f').getD [] <;>
        simp [render, evalSeq, evalExpr, resolve_single, ht, hf, Out.asGroup, Out.suppressed,
          Out.append, Out.emit, Out.text, eventsText, Out.empty]
    | cons x xs =>
      simp [render, evalSeq, evalExpr, resolve_single, ht, Out.asGroup, Out.suppressed,
        Out.append, Out.emit, Out.text, eventsText, Out.empty]
  · intro G r f st sw left right
    rw [evalExpr_Alternative]
    by_cases h : (evalExpr r f st sw (.Group left true)).text = [] <;> simp [h]

end Format

/-! ## C3 -/

theorem column_tag_loop_eq {G : Type} (h : Helpers G) (s : Song G) (type : Text) :
    ∀ (tag : Text), (∀ c ∈ type, (h.charToGetFunction c).isSome = true) → type ≠ [] →
      column_tag_loop h s type tag =
        .ok (first_non_empty (type.filterMap fun c => (h.charToGetFunction c).map (tag_text h s))) := by
  induction type with
  | nil => intro tag _ hne; exact absurd rfl hne
  | cons c cs ih =>
    intro tag hk _
    have hc := hk c (List.mem_cons_self _ _)
    cases hg : h.charToGetFunction c with
    | none => simp [hg] at hc
    | some get =>
      have hk2 : ∀ x ∈ cs, (h.charToGetFunction x).isSome = true :=
        fun x hx => hk x (List.mem_cons_of_mem _ hx)
      cases ht : h.ToWString (h.utf8ToLocale (s.getTags get)) with
      | nil =>
        cases cs with
        | nil => simp [column_tag_loop, hg, ht, tag_text, first_non_empty]
        | cons d ds =>
          have := ih [] hk2 (by simp)
          simp only [column_tag_loop, hg, ht] at this ⊢
          rw [this]
          simp [List.filterMap_cons, hg, tag_text, ht, first_non_empty]
      | cons x xs =>
        simp [column_tag_loop, hg, ht, tag_text, first_non_empty]

theorem first_non_empty_eq_nil (ts : List Text) :
    first_non_empty ts = [] ↔ ∀ t ∈ ts, t = [] := by
  induction ts with
  | nil => simp [first_non_empty]
  | cons t ts ih =>
    cases t with
    | nil => simp [first_non_empty, ih]
    | cons x xs => simp [first_non_empty]

/-- C3: for a column all of whose codes are field codes of the registry, the tag
`showSongsInColumns` resolves is the text of the first code, in the written order,
whose accessor yields non-empty text, and it is empty only if the text of every
candidate is empty. -/
theorem column_tag_first_non_empty {G : Type} (h : Helpers G) (column : Column) (s : Song G)
    (hk : ∀ c ∈ column.type, (h.charToGetFunction c).isSome = true) :
    column_tag h column s = .ok (first_non_empty (candidate_texts h column s)) ∧
    (first_non_empty (candidate_texts h column s) = [] ↔
      ∀ c ∈ column.type, ∀ get, h.charToGetFunction c = some get → tag_text h s get = []) := by
  constructor
  · unfold column_tag candidate_texts
    cases hty : column.type with
    | nil => simp [column_tag_loop, first_non_empty]
    | cons c cs =>
      rw [hty] at hk
      exact column_tag_loop_eq h s (c :: cs) [] hk (by simp)
  · rw [first_non_empty_eq_nil]
    unfold candidate_texts
    constructor
    · intro hall c hc get hg
      apply hall
      simp only [List.mem_filterMap]
      exact ⟨c, hc, by simp [hg]⟩
    · intro hall t ht
      simp only [List.mem_filterMap] at ht
      obtain ⟨c, hc, hm⟩ := ht
      cases hg : h.charToGetFunction c with
      | none => simp [hg] at hm
      | some get =>
        simp [hg] at hm
        rw [← hm]
        exact hall c hc get hg

/-- Witness of C3: the candidates `[b, f]` with an empty album and the file name
`album.flac` resolve to `album.flac`. -/
theorem column_tag_first_non_empty_witness :
    (∀ c ∈ ({ type := ['b', 'f'] } : Column).type, (refHelpers.charToGetFunction c).isSome = true) ∧
    column_tag refHelpers { type := ['b', 'f'] }
      ⟨fun get => if get = 'f' then "album.flac".toList else []⟩ = .ok "album.flac".toList :=
  have hk : ∀ c ∈ ({ type := ['b', 'f'] } : Column).type,
      (refHelpers.charToGetFunction c).isSome = true := by
    intro c hc
    simp at hc
    rcases hc with rfl | rfl <;> rfl
  ⟨hk, (column_tag_first_non_empty refHelpers { type := ['b', 'f'] }
    ⟨fun get => if get = 'f' then "album.flac".toList else []⟩ hk).1⟩

namespace Format

/-! ## C4 -/

theorem Out.asGroup_refs_hit (o : Out) (st : Style) (sw : Bool) :
    (o.asGroup st sw).refs = o.refs ∧ (o.asGroup st sw).hit = o.hit := by
  obtain ⟨m, t, s, w, refs, hit⟩ := o
  cases refs <;> cases hit <;> simp [Out.asGroup, Out.suppressed]

mutual
theorem evalExpr_refs_hit {G : Type} (r : Record G) (f : Flags) :
    ∀ (e : Expression G) (st : Style) (sw : Bool), e.altFree = true →
      (evalExpr r f st sw e).refs = e.hasFieldRef ∧
      (evalExpr r f st sw e).hit = e.anyFieldNonEmpty r
  | .Literal t, st, sw, _ => by
    simp [evalExpr, Out.emit, Expression.hasFieldRef, Expression.anyFieldNonEmpty]
    split <;> simp
  | .FirstOf cs, st, sw, _ => by
    cases h : resolve r cs <;>
      simp [evalExpr, h, Expression.hasFieldRef, Expression.anyFieldNonEmpty]
  | .Group body opt, st, sw, h => by
    have ih := evalSeq_refs_hit r f body st sw (by simpa [Expression.altFree] using h)
    rw [evalExpr_Group]
    simp only [Expression.hasFieldRef, Expression.anyFieldNonEmpty]
    rw [← ih.1, ← ih.2]
    exact Out.asGroup_refs_hit _ st sw
  | .Alternative left right, st, sw, h => by simp [Expression.altFree] at h
  | .ColorDirective c, st, sw, _ => by
    simp [evalExpr, Out.empty, Expression.hasFieldRef, Expression.anyFieldNonEmpty]
    split <;> simp
  | .AttributeDirective k b, st, sw, _ => by
    simp [evalExpr, Out.empty, Expression.hasFieldRef, Expression.anyFieldNonEmpty]
    split <;> simp
  | .OutputSwitchMarker, st, sw, _ => by
    simp [evalExpr, Out.empty, Expression.hasFieldRef, Expression.anyFieldNonEmpty]
    split <;> simp
theorem evalSeq_refs_hit {G : Type} (r : Record G) (f : Flags) :
    ∀ (l : List (Expression G)) (st : Style) (sw : Bool), altFreeSeq l = true →
      (evalSeq r f st sw l).refs = hasFieldRefSeq l ∧
      (evalSeq r f st sw l).hit = anyFieldNonEmptySeq r l
  | [], st, sw, _ => by simp [evalSeq, Out.empty, hasFieldRefSeq, anyFieldNonEmptySeq]
  | e :: es, st, sw, h => by
    have h2 : e.altFree = true ∧ altFreeSeq es = true := by simpa [altFreeSeq] using h
    have ih1 := evalExpr_refs_hit r f e st sw h2.1
    have ih2 := evalSeq_refs_hit r f es (evalExpr r f st sw e).style
      (evalExpr r f st sw e).switched h2.2
    simp [evalSeq_cons, Out.append, ih1, ih2, hasFieldRefSeq, anyFieldNonEmptySeq]
end

/-- C4, as stated, fails: the group `{x{y}}` contains another group and no field
reference at all, so no field reference of its subtree resolves to non-empty text,
and yet it is rendered, as `xy` (a group without field references is always
visible).  Moreover a field reference in a branch of an `Alternative` that is not
selected is never evaluated: in `{{%a}{x|%t}}` with an empty artist the title is
non-empty and the group is not rendered. -/
theorem nested_group_visibility_counterexample :
    ¬ (∀ (record : Record Char) (flags : Flags) (st : Style) (sw : Bool)
        (body : List (Expression Char)), containsGroup body = true →
        (groupVisible record flags st sw body = true ↔ anyFieldNonEmptySeq record body = true)) ∧
    (evalExpr (G := Char) noSong Flags.All Style.initial false
      (.Group [.Literal ['x'], .Group [.Literal ['y']] true] true)).text = ['x', 'y'] ∧
    (anyFieldNonEmptySeq (fun c => if c = 't' then some "Song".toList else none)
        [Expression.Group [.FirstOf ['a']] true, .Alternative [.Literal ['x']] [.FirstOf ['t']]]
        = true ∧
      groupVisible (fun c => if c = 't' then some "Song".toList else none) Flags.All
        Style.initial false
        [Expression.Group [.FirstOf ['a']] true, .Alternative [.Literal ['x']] [.FirstOf ['t']]]
        = false) := by
  refine ⟨?_, ?_, ?_⟩
  · intro h
    have := h noSong Flags.All Style.initial false [.Literal ['x'], .Group [.Literal ['y']] true]
      (by simp [containsGroup])
    simp [groupVisible, evalSeq, evalExpr, Out.asGroup, Out.suppressed, Out.append, Out.emit,
      Out.empty, anyFieldNonEmptySeq, Expression.anyFieldNonEmpty] at this
  · simp [evalSeq, evalExpr, Out.asGroup, Out.suppressed, Out.append, Out.emit,
      Out.empty, Out.text, eventsText]
  · simp [groupVisible, evalSeq, evalExpr, resolve, Out.asGroup, Out.suppressed, Out.append,
      Out.emit, Out.empty, Out.text, eventsText, anyFieldNonEmptySeq,
      Expression.anyFieldNonEmpty]

/-- C4, amended: a group whose subtree carries no `Alternative` (the data model has
alternatives at top level only) is rendered if and only if its subtree has no field
reference at all or at least one field reference anywhere in its subtree, at any
depth, resolves to non-empty text.  A rendered group yields what its body yields;
a group that is not rendered yields no event and leaves style and output switch
as they were. -/
theorem nested_group_visibility {G : Type} (r : Record G) (f : Flags) (st : Style) (sw : Bool)
    (body : List (Expression G)) (opt : Bool) (ha : altFreeSeq body = true) :
    (groupVisible r f st sw body = true ↔
      (hasFieldRefSeq body = false ∨ anyFieldNonEmptySeq r body = true)) ∧
    (groupVisible r f st sw body = true →
      evalExpr r f st sw (.Group body opt) = evalSeq r f st sw body) ∧
    (groupVisible r f st sw body = false →
      (evalExpr r f st sw (.Group body opt)).main = [] ∧
      (evalExpr r f st sw (.Group body opt)).trailing = [] ∧
      (evalExpr r f st sw (.Group body opt)).style = st ∧
      (evalExpr r f st sw (.Group body opt)).switched = sw) := by
  have ih := evalSeq_refs_hit r f body st sw ha
  refine ⟨?_, ?_, ?_⟩
  · simp only [groupVisible, Out.suppressed, ih.1, ih.2]
    cases hasFieldRefSeq body <;> cases anyFieldNonEmptySeq r body <;> simp
  · intro hv
    rw [evalExpr_Group]
    simp only [groupVisible, Bool.not_eq_true', ] at hv
    simp [Out.asGroup, hv]
  · intro hv
    rw [evalExpr_Group]
    simp only [groupVisible, Bool.not_eq_false'] at hv
    simp [Out.asGroup, hv]

/-- Witness of C4: in `{{%a - }%t}` with an empty artist and the title `Song` the
empty inner group does not suppress the outer group, which renders `Song`. -/
theorem nested_group_visibility_witness :
    altFreeSeq [Expression.Group [.FirstOf ['a'], .Literal " - ".toList] true, .FirstOf ['t']]
      = true ∧
    groupVisible (fun c => if c = 't' then some "Song".toList else none) Flags.All
      Style.initial false
      [Expression.Group [.FirstOf ['a'], .Literal " - ".toList] true, .FirstOf ['t']] = true ∧
    (evalExpr (fun c => if c = 't' then some "Song".toList else none) Flags.All Style.initial
      false (.Group [Expression.Group [.FirstOf ['a'], .Literal " - ".toList] true,
        .FirstOf ['t']] true)).text = "Song".toList :=
  have ha : altFreeSeq
      [Expression.Group [.FirstOf ['a'], .Literal " - ".toList] true, .FirstOf ['t']] = true := by
    simp [altFreeSeq, Expression.altFree]
  have key := nested_group_visibility (fun c => if c = 't' then some "Song".toList else none)
    Flags.All Style.initial false
    [Expression.Group [.FirstOf ['a'], .Literal " - ".toList] true, .FirstOf ['t']] true ha
  have hv := key.1.2 (Or.inr (by
    simp [anyFieldNonEmptySeq, Expression.anyFieldNonEmpty, resolve]))
  ⟨ha, hv, by
    rw [key.2.1 hv]
    simp [evalSeq, evalExpr, resolve, Out.asGroup, Out.suppressed, Out.append, Out.emit,
      Out.empty, Out.text, eventsText]⟩

end Format

namespace Format

/-! ## The evaluator and the output switch -/

theorem Out.asGroup_cases (o : Out) (st : Style) (sw : Bool) :
    o.asGroup st sw = o ∨ o.asGroup st sw = ⟨[], [], st, sw, true, false⟩ := by
  unfold Out.asGroup
  split
  · exact Or.inr rfl
  · exact Or.inl rfl

theorem evalExpr_Alternative_cases {G : Type} (r : Record G) (f : Flags) (st : Style) (sw : Bool)
    (left right : List (Expression G)) :
    evalExpr r f st sw (.Alternative left right) = (evalSeq r f st sw left).asGroup st sw ∨
    evalExpr r f st sw (.Alternative left right) =
      { evalSeq r f st sw right with
        refs := ((evalSeq r f st sw left).asGroup st sw).refs || (evalSeq r f st sw right).refs } := by
  rw [evalExpr_Alternative, evalExpr_Group]
  split
  · exact Or.inr rfl
  · exact Or.inl rfl

mutual
theorem evalExpr_switch {G : Type} (r : Record G) (f : Flags) :
    ∀ (e : Expression G) (st : Style) (sw : Bool),
      (sw = true → (evalExpr r f st sw e).main = [] ∧ (evalExpr r f st sw e).switched = true) ∧
      (f.outputSwitch = false → (evalExpr r f st sw e).switched = sw) ∧
      ((evalExpr r f st sw e).switched = false → (evalExpr r f st sw e).trailing = [])
  | .Literal t, st, sw => by
    cases sw <;> simp [evalExpr, Out.emit]
  | .FirstOf cs, st, sw => by
    cases h : resolve r cs <;> cases sw <;> simp [evalExpr, h, Out.emit]
  | .Group body opt, st, sw => by
    have ih := evalSeq_switch r f body st sw
    rw [evalExpr_Group]
    rcases Out.asGroup_cases (evalSeq r f st sw body) st sw with h | h <;> rw [h]
    · exact ih
    · simp
  | .Alternative left right, st, sw => by
    have ih1 := evalSeq_switch r f left st sw
    have ih2 := evalSeq_switch r f right st sw
    rcases evalExpr_Alternative_cases r f st sw left right with h | h <;> rw [h]
    · rcases Out.asGroup_cases (evalSeq r f st sw left) st sw with h2 | h2 <;> rw [h2]
      · exact ih1
      · simp
    · exact ih2
  | .ColorDirective c, st, sw => by
    simp only [evalExpr]; split <;> simp [Out.empty]
  | .AttributeDirective k b, st, sw => by
    simp only [evalExpr]; split <;> simp [Out.empty]
  | .OutputSwitchMarker, st, sw => by
    simp only [evalExpr]; split <;> simp_all [Out.empty]
theorem evalSeq_switch {G : Type} (r : Record G) (f : Flags) :
    ∀ (l : List (Expression G)) (st : Style) (sw : Bool),
      (sw = true → (evalSeq r f st sw l).main = [] ∧ (evalSeq r f st sw l).switched = true) ∧
      (f.outputSwitch = false → (evalSeq r f st sw l).switched = sw) ∧
      ((evalSeq r f st sw l).switched = false → (evalSeq r f st sw l).trailing = [])
  | [], st, sw => by simp [evalSeq_nil, Out.empty]
  | e :: es, st, sw => by
    have ih1 := evalExpr_switch r f e st sw
    have ih2 := evalSeq_switch r f es (evalExpr r f st sw e).style (evalExpr r f st sw e).switched
    rw [evalSeq_cons]
    refine ⟨?_, ?_, ?_⟩
    · intro hsw
      have a := ih1.1 hsw
      have b := ih2.1 a.2
      simp [Out.append, a.1, b.1, b.2]
    · intro hf
      simp only [Out.append]
      rw [ih2.2.1 hf, ih1.2.1 hf]
    · intro hsw
      simp only [Out.append] at hsw ⊢
      have hb := ih2.2.2 hsw
      have ha : (evalExpr r f st sw e).switched = false := by
        cases hs : (evalExpr r f st sw e).switched with
        | false => rfl
        | true =>
          have := (ih2.1 hs).2
          rw [this] at hsw
          exact absurd hsw (by simp)
      simp [ih1.2.2 ha, hb]
end

end Format

namespace Format

/-! ## The evaluator and the flags -/

theorem Out.text_eq (o : Out) :
    o.text = (eventTexts o.main ++ eventTexts o.trailing).flatten := by
  simp [Out.text, eventsText, eventTexts]

theorem mergedTextOf_text {a b : Out} (h : a.mergedTextOf b) : b.text = a.text := by
  rw [Out.text_eq, Out.text_eq, h.1, h.2.1]
  simp [eventTexts]

theorem mergedTextOf_asGroup {a b : Out} (h : a.mergedTextOf b) (st1 st2 : Style)
    (sw : Bool) : (a.asGroup st1 sw).mergedTextOf (b.asGroup st2 false) := by
  obtain ⟨h1, h2, h3, h4⟩ := h
  unfold Out.asGroup Out.suppressed
  rw [h3, h4]
  split
  · simp [Out.mergedTextOf, eventTexts]
  · exact ⟨h1, h2, h3, h4⟩

mutual
theorem evalExpr_merged {G : Type} (r : Record G) (f1 f2 : Flags) (h2 : f2.outputSwitch = false) :
    ∀ (e : Expression G) (st1 st2 : Style) (sw : Bool),
      (evalExpr r f1 st1 sw e).mergedTextOf (evalExpr r f2 st2 false e)
  | .Literal t, st1, st2, sw => by
    cases sw <;> simp [evalExpr, Out.emit, Out.mergedTextOf, eventTexts]
  | .FirstOf cs, st1, st2, sw => by
    cases h : resolve r cs <;> cases sw <;>
      simp [evalExpr, h, Out.emit, Out.mergedTextOf, eventTexts]
  | .Group body opt, st1, st2, sw => by
    rw [evalExpr_Group, evalExpr_Group]
    exact mergedTextOf_asGroup (evalSeq_merged r f1 f2 h2 body st1 st2 sw) st1 st2 sw
  | .Alternative left right, st1, st2, sw => by
    have ihl := mergedTextOf_asGroup (evalSeq_merged r f1 f2 h2 left st1 st2 sw) st1 st2 sw
    have ihr := evalSeq_merged r f1 f2 h2 right st1 st2 sw
    rw [evalExpr_Alternative, evalExpr_Alternative, evalExpr_Group, evalExpr_Group,
      mergedTextOf_text ihl]
    split
    · obtain ⟨a, b, c, d⟩ := ihr
      exact ⟨a, b, by simp [c, ihl.2.2.1], d⟩
    · exact ihl
  | .ColorDirective c, st1, st2, sw => by
    simp only [evalExpr]; split <;> split <;> simp [Out.empty, Out.mergedTextOf, eventTexts]
  | .AttributeDirective k b, st1, st2, sw => by
    simp only [evalExpr]; split <;> split <;> simp [Out.empty, Out.mergedTextOf, eventTexts]
  | .OutputSwitchMarker, st1, st2, sw => by
    simp only [evalExpr, h2]; split <;> simp [Out.empty, Out.mergedTextOf, eventTexts]
theorem evalSeq_merged {G : Type} (r : Record G) (f1 f2 : Flags) (h2 : f2.outputSwitch = false) :
    ∀ (l : List (Expression G)) (st1 st2 : Style) (sw : Bool),
      (evalSeq r f1 st1 sw l).mergedTextOf (evalSeq r f2 st2 false l)
  | [], st1, st2, sw => by simp [evalSeq_nil, Out.empty, Out.mergedTextOf, eventTexts]
  | e :: es, st1, st2, sw => by
    have ih1 := evalExpr_merged r f1 f2 h2 e st1 st2 sw
    have hs2 : (evalExpr r f2 st2 false e).switched = false :=
      (evalExpr_switch r f2 e st2 false).2.1 h2
    have ih2 := evalSeq_merged r f1 f2 h2 es (evalExpr r f1 st1 sw e).style
      (evalExpr r f2 st2 false e).style (evalExpr r f1 st1 sw e).switched
    have sa := evalExpr_switch r f1 e st1 sw
    have sb := evalSeq_switch r f1 es (evalExpr r f1 st1 sw e).style
      (evalExpr r f1 st1 sw e).switched
    rw [evalSeq_cons, evalSeq_cons, hs2]
    obtain ⟨a1, a2, a3, a4⟩ := ih1
    obtain ⟨b1, b2, b3, b4⟩ := ih2
    refine ⟨?_, by simp [Out.append, a2, b2], by simp [Out.append, a3, b3],
      by simp [Out.append, a4, b4]⟩
    simp only [Out.append, eventTexts, List.map_append] at a1 b1 ⊢
    rw [a1, b1]
    rcases Bool.eq_false_or_eq_true (evalExpr r f1 st1 sw e).switched with hs | hs
    · simp [(sb.1 hs).1]
    · simp [sa.2.2 hs]
end

theorem sameTexts_text {a b : Out} (h : a.sameTexts b) : b.text = a.text := by
  rw [Out.text_eq, Out.text_eq, h.1, h.2.1]

theorem sameTexts_asGroup {a b : Out} (h : a.sameTexts b) (st1 st2 : Style)
    (sw : Bool) : (a.asGroup st1 sw).sameTexts (b.asGroup st2 sw) := by
  obtain ⟨h1, h2, h3, h4, h5⟩ := h
  unfold Out.asGroup Out.suppressed
  rw [h4, h5]
  split
  · simp [Out.sameTexts, eventTexts]
  · exact ⟨h1, h2, h3, h4, h5⟩

mutual
theorem evalExpr_sameTexts {G : Type} (r : Record G) (f1 f2 : Flags)
    (h : f2.outputSwitch = f1.outputSwitch) :
    ∀ (e : Expression G) (st1 st2 : Style) (sw : Bool),
      (evalExpr r f1 st1 sw e).sameTexts (evalExpr r f2 st2 sw e)
  | .Literal t, st1, st2, sw => by
    cases sw <;> simp [evalExpr, Out.emit, Out.sameTexts, eventTexts]
  | .FirstOf cs, st1, st2, sw => by
    cases h : resolve r cs <;> cases sw <;>
      simp [evalExpr, h, Out.emit, Out.sameTexts, eventTexts]
  | .Group body opt, st1, st2, sw => by
    rw [evalExpr_Group, evalExpr_Group]
    exact sameTexts_asGroup (evalSeq_sameTexts r f1 f2 h body st1 st2 sw) st1 st2 sw
  | .Alternative left right, st1, st2, sw => by
    have ihl := sameTexts_asGroup (evalSeq_sameTexts r f1 f2 h left st1 st2 sw) st1 st2 sw
    have ihr := evalSeq_sameTexts r f1 f2 h right st1 st2 sw
    rw [evalExpr_Alternative, evalExpr_Alternative, evalExpr_Group, evalExpr_Group,
      sameTexts_text ihl]
    split
    · obtain ⟨a, b, c, d, e⟩ := ihr
      exact ⟨a, b, c, by simp [d, ihl.2.2.2.1], e⟩
    · exact ihl
  | .ColorDirective c, st1, st2, sw => by
    simp only [evalExpr]; split <;> split <;> simp [Out.empty, Out.sameTexts, eventTexts]
  | .AttributeDirective k b, st1, st2, sw => by
    simp only [evalExpr]; split <;> split <;> simp [Out.empty, Out.sameTexts, eventTexts]
  | .OutputSwitchMarker, st1, st2, sw => by
    simp only [evalExpr, h]; split <;> simp [Out.empty, Out.sameTexts, eventTexts]
theorem evalSeq_sameTexts {G : Type} (r : Record G) (f1 f2 : Flags)
    (h : f2.outputSwitch = f1.outputSwitch) :
    ∀ (l : List (Expression G)) (st1 st2 : Style) (sw : Bool),
      (evalSeq r f1 st1 sw l).sameTexts (evalSeq r f2 st2 sw l)
  | [], st1, st2, sw => by simp [evalSeq_nil, Out.empty, Out.sameTexts, eventTexts]
  | e :: es, st1, st2, sw => by
    have ih1 := evalExpr_sameTexts r f1 f2 h e st1 st2 sw
    obtain ⟨a1, a2, a3, a4, a5⟩ := ih1
    have ih2 := evalSeq_sameTexts r f1 f2 h es (evalExpr r f1 st1 sw e).style
      (evalExpr r f2 st2 sw e).style (evalExpr r f1 st1 sw e).switched
    rw [evalSeq_cons, evalSeq_cons, a3]
    obtain ⟨b1, b2, b3, b4, b5⟩ := ih2
    simp only [eventTexts] at a1 a2 b1 b2
    simp [Out.sameTexts, Out.append, eventTexts, a1, a2, a4, a5, b1, b2, b3, b4, b5]
end

theorem styledOnly_asGroup {o : Out} {st : Style} (h : o.styledOnly st) (sw : Bool) :
    (o.asGroup st sw).styledOnly st := by
  unfold Out.asGroup
  split
  · simp [Out.styledOnly]
  · exact h

mutual
theorem evalExpr_styledOnly {G : Type} (r : Record G) (f : Flags) (hc : f.color = false)
    (hf : f.format = false) :
    ∀ (e : Expression G) (st : Style) (sw : Bool), (evalExpr r f st sw e).styledOnly st
  | .Literal t, st, sw => by
    cases sw <;> simp [evalExpr, Out.emit, Out.styledOnly]
  | .FirstOf cs, st, sw => by
    cases h : resolve r cs <;> cases sw <;> simp [evalExpr, h, Out.emit, Out.styledOnly]
  | .Group body opt, st, sw => by
    rw [evalExpr_Group]
    exact styledOnly_asGroup (evalSeq_styledOnly r f hc hf body st sw) sw
  | .Alternative left right, st, sw => by
    have ihl := styledOnly_asGroup (evalSeq_styledOnly r f hc hf left st sw) sw
    have ihr := evalSeq_styledOnly r f hc hf right st sw
    rcases evalExpr_Alternative_cases r f st sw left right with h | h <;> rw [h]
    · exact ihl
    · exact ihr
  | .ColorDirective c, st, sw => by
    simp [evalExpr, hc, Out.empty, Out.styledOnly]
  | .AttributeDirective k b, st, sw => by
    simp [evalExpr, hf, Out.empty, Out.styledOnly]
  | .OutputSwitchMarker, st, sw => by
    simp only [evalExpr]; split <;> simp [Out.empty, Out.styledOnly]
theorem evalSeq_styledOnly {G : Type} (r : Record G) (f : Flags) (hc : f.color = false)
    (hf : f.format = false) :
    ∀ (l : List (Expression G)) (st : Style) (sw : Bool), (evalSeq r f st sw l).styledOnly st
  | [], st, sw => by simp [evalSeq_nil, Out.empty, Out.styledOnly]
  | e :: es, st, sw => by
    have ih1 := evalExpr_styledOnly r f hc hf e st sw
    obtain ⟨a1, a2, a3⟩ := ih1
    have ih2 := evalSeq_styledOnly r f hc hf es (evalExpr r f st sw e).style
      (evalExpr r f st sw e).switched
    rw [a3] at ih2
    obtain ⟨b1, b2, b3⟩ := ih2
    rw [evalSeq_cons, a3]
    refine ⟨?_, ?_, b3⟩
    · intro x hx
      simp only [Out.append, List.mem_append] at hx
      rcases hx with hx | hx
      · exact a1 x hx
      · exact b1 x hx
    · intro x hx
      simp only [Out.append, List.mem_append] at hx
      rcases hx with hx | hx
      · exact a2 x hx
      · exact b2 x hx
end

end Format

/-! ## C5 -/

/-- C5, as stated, fails: the flags `showSongs` uses when the colours of a selected
row are discarded are `Tag|OutputSwitch`, not `Tag` alone, and the row keeps the
output-switch effect: for the AST of `a$Rb` the text `b` goes to the right-aligned
buffer. -/
theorem discard_colors_flags_counterexample :
    showSongs_flags true ≠ Format.Flags.Tag ∧
    ¬ (∀ (ast : Format.AST Char) (s : Format.Record Char),
        (showSongs_print ast s true).trailing = []) ∧
    (showSongs_print (G := Char) [.Literal ['a'], .OutputSwitchMarker, .Literal ['b']]
      Format.noSong true).trailing = [(['b'], Format.Style.initial)] := by
  refine ⟨by decide, ?_, ?_⟩
  · intro h
    have := h [.Literal ['a'], .OutputSwitchMarker, .Literal ['b']] Format.noSong
    simp [showSongs_print, showSongs_flags, Format.print, Format.render, Format.evalSeq,
      Format.evalExpr, Format.Flags.or, Format.Flags.Tag, Format.Flags.OutputSwitch,
      Format.Out.append, Format.Out.emit, Format.Out.empty] at this
  · simp [showSongs_print, showSongs_flags, Format.print, Format.render, Format.evalSeq,
      Format.evalExpr, Format.Flags.or, Format.Flags.Tag, Format.Flags.OutputSwitch,
      Format.Out.append, Format.Out.emit, Format.Out.empty]

/-- C5, amended: for every AST and record, the texts rendered under `Tag` alone are
exactly the texts rendered under `Tag|Color|Format|OutputSwitch`, main sequence
first and trailing sequence after it, in the same order, and they carry no colour,
attribute or output-switch effect (every event has the initial style, nothing is in
the trailing sequence).  The row of `showSongs` whose colours are discarded is
rendered under `Tag|OutputSwitch`: it has the same main texts and the same trailing
texts as the row rendered under all flags, and every event has the initial style. -/
theorem tag_only_keeps_text {G : Type} (ast : Format.AST G) (record : Format.Record G) :
    (Format.eventTexts (Format.render ast record Format.Flags.Tag).main =
        Format.eventTexts (Format.render ast record Format.Flags.All).main ++
          Format.eventTexts (Format.render ast record Format.Flags.All).trailing ∧
      (Format.render ast record Format.Flags.Tag).text =
        (Format.render ast record Format.Flags.All).text ∧
      (Format.render ast record Format.Flags.Tag).trailing = [] ∧
      (Format.render ast record Format.Flags.Tag).switched = false ∧
      (Format.render ast record Format.Flags.Tag).styledOnly Format.Style.initial) ∧
    (showSongs_flags true = Format.Flags.Tag.or Format.Flags.OutputSwitch ∧
      showSongs_flags false = Format.Flags.All ∧
      Format.eventTexts (showSongs_print ast record true).main =
        Format.eventTexts (showSongs_print ast record false).main ∧
      Format.eventTexts (showSongs_print ast record true).trailing =
        Format.eventTexts (showSongs_print ast record false).trailing ∧
      (showSongs_print ast record true).styledOnly Format.Style.initial) := by
  have m := Format.evalSeq_merged record Format.Flags.All Format.Flags.Tag rfl ast
    Format.Style.initial Format.Style.initial false
  have sw := (Format.evalSeq_switch record Format.Flags.Tag ast Format.Style.initial false).2.1 rfl
  have so := Format.evalSeq_styledOnly record Format.Flags.Tag rfl rfl ast Format.Style.initial false
  have st := Format.evalSeq_sameTexts record Format.Flags.All
    (Format.Flags.Tag.or Format.Flags.OutputSwitch) rfl ast Format.Style.initial
    Format.Style.initial false
  have so2 := Format.evalSeq_styledOnly record (Format.Flags.Tag.or Format.Flags.OutputSwitch)
    rfl rfl ast Format.Style.initial false
  exact ⟨⟨m.1, Format.mergedTextOf_text m, m.2.1, sw, so⟩, rfl, rfl, st.1, st.2.1, so2⟩

namespace Format

/-! ## C6 -/

/-- C6: `Format::parse(text, F1)` and `Format::parse(text, F2)` give the same result,
the same AST or the same error, for every template text and any two flag sets. -/
theorem parse_flags_independent (reg : Registry) (text : Text) (F1 F2 : Flags) :
    parse reg text F1 = parse reg text F2 := rfl

/-! ## C7 -/

mutual
theorem evalExpr_dropMarkers {G : Type} (r : Record G) (f : Flags) (hf : f.outputSwitch = false) :
    ∀ (e : Expression G) (st : Style) (sw : Bool),
      evalExpr r f st sw e.dropMarkers = evalExpr r f st sw e
  | .Literal t, st, sw => by simp [Expression.dropMarkers]
  | .FirstOf cs, st, sw => by simp [Expression.dropMarkers]
  | .Group body opt, st, sw => by
    simp only [Expression.dropMarkers, evalExpr_Group, evalSeq_dropMarkers r f hf body st sw]
  | .Alternative left right, st, sw => by
    simp only [Expression.dropMarkers]
    rw [evalExpr_Alternative, evalExpr_Alternative, evalExpr_Group, evalExpr_Group,
      evalSeq_dropMarkers r f hf left st sw, evalSeq_dropMarkers r f hf right st sw]
  | .ColorDirective c, st, sw => by simp [Expression.dropMarkers]
  | .AttributeDirective k b, st, sw => by simp [Expression.dropMarkers]
  | .OutputSwitchMarker, st, sw => by simp [Expression.dropMarkers]
theorem evalSeq_dropMarkers {G : Type} (r : Record G) (f : Flags) (hf : f.outputSwitch = false) :
    ∀ (l : List (Expression G)) (st : Style) (sw : Bool),
      evalSeq r f st sw (dropMarkersSeq l) = evalSeq r f st sw l
  | [], st, sw => by simp [dropMarkersSeq]
  | .OutputSwitchMarker :: es, st, sw => by
    have ih := evalSeq_dropMarkers r f hf es st sw
    have hm : evalExpr r f st sw (.OutputSwitchMarker : Expression G) = Out.empty st sw := by
      simp [evalExpr, hf]
    rw [evalSeq_cons, hm, Out.empty_append]
    simpa [dropMarkersSeq, Out.empty] using ih
  | .Group body opt :: es, st, sw => by
    have ih1 := evalExpr_dropMarkers r f hf (.Group body opt) st sw
    simp only [dropMarkersSeq, evalSeq_cons, ih1]
    rw [evalSeq_dropMarkers r f hf es]
  | .Alternative left right :: es, st, sw => by
    have ih1 := evalExpr_dropMarkers r f hf (.Alternative left right) st sw
    simp only [dropMarkersSeq, evalSeq_cons, ih1]
    rw [evalSeq_dropMarkers r f hf es]
  | .Literal t :: es, st, sw => by
    simp only [dropMarkersSeq, evalSeq_cons]
    rw [evalSeq_dropMarkers r f hf es]
  | .FirstOf cs :: es, st, sw => by
    simp only [dropMarkersSeq, evalSeq_cons]
    rw [evalSeq_dropMarkers r f hf es]
  | .ColorDirective c :: es, st, sw => by
    simp only [dropMarkersSeq, evalSeq_cons]
    rw [evalSeq_dropMarkers r f hf es]
  | .AttributeDirective k b :: es, st, sw => by
    simp only [dropMarkersSeq, evalSeq_cons]
    rw [evalSeq_dropMarkers r f hf es]
end

/-- C7: under flags without `OutputSwitch` the trailing sequence is empty and the
AST renders as the AST with all its output-switch markers removed; under flags with
`OutputSwitch`, for an AST `pre ++ marker :: post`, the main sequence is that of
`pre` alone, and everything `post` renders (evaluated after the marker) is in the
trailing sequence, none of it in the main sequence. -/
theorem output_switch_partition {G : Type} (record : Record G) (f : Flags)
    (ast pre post : List (Expression G)) :
    ((render ast record { f with outputSwitch := false }).trailing = [] ∧
      render (dropMarkersSeq ast) record { f with outputSwitch := false } =
        render ast record { f with outputSwitch := false }) ∧
    ((render (pre ++ .OutputSwitchMarker :: post) record { f with outputSwitch := true }).main =
        (render pre record { f with outputSwitch := true }).main ∧
      (render (pre ++ .OutputSwitchMarker :: post) record
          { f with outputSwitch := true }).trailing =
        (render pre record { f with outputSwitch := true }).trailing ++
          (evalSeq record { f with outputSwitch := true }
            (render pre record { f with outputSwitch := true }).style true post).trailing ∧
      (evalSeq record { f with outputSwitch := true }
        (render pre record { f with outputSwitch := true }).style true post).main = []) := by
  refine ⟨⟨?_, ?_⟩, ?_⟩
  · have h := evalSeq_switch record { f with outputSwitch := false } ast Style.initial false
    exact h.2.2 (h.2.1 rfl)
  · exact evalSeq_dropMarkers record { f with outputSwitch := false } rfl ast Style.initial false
  · have hm : ∀ st sw, evalExpr record { f with outputSwitch := true } st sw
        (.OutputSwitchMarker : Expression G) = Out.empty st true := by
      intro st sw; simp [evalExpr]
    have hp := (evalSeq_switch record { f with outputSwitch := true } post
      (render pre record { f with outputSwitch := true }).style true).1 rfl
    unfold render at hp ⊢
    rw [evalSeq_append, evalSeq_cons, hm, Out.empty_append]
    simp only [Out.empty, Out.append]
    simp [hp.1]

end Format

/-! ## C8 -/

namespace Format

theorem resolve_orEmpty {G : Type} (r : Record G) (cs : List G) :
    resolve r.orEmpty cs = resolve r cs := by
  induction cs with
  | nil => simp [resolve]
  | cons c cs ih =>
    cases h : r c with
    | none => simp [resolve, Record.orEmpty, h, ih]
    | some t => cases t <;> simp [resolve, Record.orEmpty, h, ih]

theorem resolve_noSong {G : Type} (cs : List G) : resolve (noSong (G := G)) cs = [] := by
  induction cs with
  | nil => simp [resolve]
  | cons c cs ih => simp [resolve, noSong, ih]

theorem resolve_allEmpty {G : Type} (cs : List G) :
    resolve (fun _ => some [] : Record G) cs = [] := by
  induction cs with
  | nil => simp [resolve]
  | cons c cs ih => simp [resolve, ih]

mutual
theorem evalExpr_congr {G : Type} (r1 r2 : Record G) (f : Flags)
    (h : ∀ cs, resolve r1 cs = resolve r2 cs) :
    ∀ (e : Expression G) (st : Style) (sw : Bool), evalExpr r1 f st sw e = evalExpr r2 f st sw e
  | .Literal t, st, sw => by simp [evalExpr]
  | .FirstOf cs, st, sw => by simp [evalExpr, h]
  | .Group body opt, st, sw => by
    rw [evalExpr_Group, evalExpr_Group, evalSeq_congr r1 r2 f h body st sw]
  | .Alternative left right, st, sw => by
    rw [evalExpr_Alternative, evalExpr_Alternative, evalExpr_Group, evalExpr_Group,
      evalSeq_congr r1 r2 f h left st sw, evalSeq_congr r1 r2 f h right st sw]
  | .ColorDirective c, st, sw => by simp [evalExpr]
  | .AttributeDirective k b, st, sw => by simp [evalExpr]
  | .OutputSwitchMarker, st, sw => by simp [evalExpr]
theorem evalSeq_congr {G : Type} (r1 r2 : Record G) (f : Flags)
    (h : ∀ cs, resolve r1 cs = resolve r2 cs) :
    ∀ (l : List (Expression G)) (st : Style) (sw : Bool), evalSeq r1 f st sw l = evalSeq r2 f st sw l
  | [], st, sw => by simp [evalSeq_nil]
  | e :: es, st, sw => by
    rw [evalSeq_cons, evalSeq_cons, evalExpr_congr r1 r2 f h e st sw,
      evalSeq_congr r1 r2 f h es]
end

end Format

/-- C8: for an AST a successful parse produced, rendering is a total function of
the record and the flags: the `buffer` worker, which prints without a song, returns
a result; `print` returns a result for every song, also for no song and for a song
with all fields missing; and a missing field contributes exactly what an empty
field contributes. -/
theorem render_never_fails (reg : Format.Registry) (text : Text) (parse_flags : Format.Flags)
    (ast : Format.AST Char) (h : Format.parse reg text parse_flags = .ok ast) :
    (∀ print_flags, buffer reg print_flags text = .ok (Format.print ast none print_flags)) ∧
    (∀ (song : Option (Format.Record Char)) (flags : Format.Flags),
      ∃ out : Format.Out, Format.print ast song flags = out) ∧
    (∀ (flags : Format.Flags),
      Format.print ast none flags = Format.print ast (some fun _ => none) flags ∧
      Format.print ast none flags = Format.print ast (some fun _ => some []) flags) ∧
    (∀ (record : Format.Record Char) (flags : Format.Flags),
      Format.print ast (some record) flags = Format.print ast (some record.orEmpty) flags) := by
  refine ⟨?_, ?_, ?_, ?_⟩
  · intro pf
    have h2 : Format.parse reg text (Format.Flags.Color.or Format.Flags.Format) = .ok ast := h
    simp [buffer, h2]
  · intro song flags
    exact ⟨_, rfl⟩
  · intro flags
    refine ⟨rfl, ?_⟩
    simp only [Format.print, Option.getD, Format.render]
    apply Format.evalSeq_congr
    intro cs
    rw [Format.resolve_noSong, Format.resolve_allEmpty]
  · intro record flags
    simp only [Format.print, Option.getD, Format.render]
    apply Format.evalSeq_congr
    intro cs
    exact (Format.resolve_orEmpty record cs).symm

/-- Witness of C8: the template `{%a - }{%t}` parses, and `buffer` prints it without
a song. -/
theorem render_never_fails_witness :
    Format.parse Format.specRegistry "{%a - }{%t}".toList Format.Flags.All =
      .ok [.Group [.FirstOf ['a'], .Literal " - ".toList] true, .Group [.FirstOf ['t']] true] ∧
    buffer Format.specRegistry Format.Flags.All "{%a - }{%t}".toList =
      .ok (Format.print
        [.Group [.FirstOf ['a'], .Literal " - ".toList] true, .Group [.FirstOf ['t']] true]
        none Format.Flags.All) :=
  ⟨rfl, (render_never_fails Format.specRegistry "{%a - }{%t}".toList Format.Flags.All
    [.Group [.FirstOf ['a'], .Literal " - ".toList] true, .Group [.FirstOf ['t']] true] rfl).1
    Format.Flags.All⟩

/-! ## C9 -/

/-- C9 fails on the code: `generate_columns` accepts the column specification
`(10)[]{z}` although `z` is no field code, and returns a column of type `z`;
`columns_to_format` then runs into `assert(f != nullptr)`, so that reading the
option ends in a failed assertion and not in a reported error. -/
theorem unknown_code_reaches_column_list :
    refHelpers.charToGetFunction 'z' = none ∧
    generate_columns refHelpers "(10)[]{z}".toList =
      .ok [{ type := ['z'], width := 10, stretch_limit := 0 }] ∧
    columns_to_format refHelpers [{ type := ['z'], width := 10, stretch_limit := 0 }] =
      .error .assertion_failed ∧
    read_columns_format refHelpers "(10)[]{z}".toList = .error .assertion_failed :=
  ⟨rfl, rfl, rfl, rfl⟩

/-! ## C10 -/

theorem strAt_of_le (s : Text) (i : Nat) (h : i ≤ s.length) : ∃ c, strAt s i = .ok c := by
  unfold strAt
  by_cases h1 : i < s.length
  · simp [h1]
  · have : i = s.length := by omega
    simp [this]

theorem strAt_error (s : Text) (i : Nat) (e : Failure) (h : strAt s i = .error e) :
    e = .out_of_range := by
  unfold strAt at h
  split at h
  · simp at h
  · split at h
    · simp at h
    · simp at h; exact h.symm

theorem strAt_bar (s : Text) (i : Nat) (h : strAt s i = .ok '|') : i < s.length := by
  unfold strAt at h
  split at h
  · assumption
  · split at h
    · simp at h
    · simp at h

theorem extract_tag_types_error (s : Text) :
    ∀ (fuel j : Nat) (type : Text) (e : Failure), j ≤ s.length → s.length < fuel + j →
      extract_tag_types s fuel j type = .error e → e = .out_of_range := by
  intro fuel
  induction fuel with
  | zero => intro j type e h1 h2; omega
  | succ n ih =>
    intro j type e h1 h2 h
    unfold extract_tag_types at h
    cases hc : strAt s j with
    | error e1 => obtain ⟨c, hc2⟩ := strAt_of_le s j h1; rw [hc2] at hc; simp at hc
    | ok c =>
      rw [hc] at h
      simp only at h
      cases hd : strAt s (j + 1) with
      | error e1 =>
        rw [hd] at h
        simp only [Except.error.injEq] at h
        rw [← h]
        exact strAt_error s (j + 1) e1 hd
      | ok d =>
        rw [hd] at h
        simp only at h
        by_cases hb : d = '|'
        · rw [if_pos hb] at h
          rw [hb] at hd
          have := strAt_bar s (j + 1) hd
          exact ih (j + 2) (type ++ [c]) e (by omega) (by omega) h
        · rw [if_neg hb] at h
          simp at h

theorem apply_tag_type_error (col : Column) (tag : Text) (e : Failure)
    (h : apply_tag_type col tag = .error e) : e = .out_of_range := by
  unfold apply_tag_type at h
  split at h
  · simp at h
  · rename_i c cs
    cases hx : extract_tag_types (c :: cs) ((c :: cs).length + 1) 0 [] with
    | error e1 =>
      rw [hx] at h
      simp only [Except.error.injEq] at h
      rw [← h]
      exact extract_tag_types_error (c :: cs) _ 0 [] e1 (by omega) (by omega) hx
    | ok p =>
      rw [hx] at h
      simp at h

theorem apply_tag_type_error_any (col col2 : Column) (tag : Text) (e : Failure)
    (h : apply_tag_type col tag = .error e) : apply_tag_type col2 tag = .error e := by
  unfold apply_tag_type at h ⊢
  split at h
  · simp at h
  · rename_i c cs
    cases hx : extract_tag_types (c :: cs) ((c :: cs).length + 1) 0 [] with
    | error e1 =>
      rw [hx] at h
      simpa using h
    | ok p =>
      rw [hx] at h
      simp at h

theorem make_column_error {G : Type} (h : Helpers G) (width scolor tag_type : Text) (e : Failure)
    (he : make_column h width scolor tag_type = .error e) :
    e = .bad_lexical_cast ∨ (e = .out_of_range ∧ reads_in_range tag_type = false) := by
  unfold make_column at he
  split at he
  · simp at he; exact Or.inl he.symm
  · rename_i color _
    split at he
    · rename_i e1 hx
      simp only [Except.error.injEq] at he
      subst he
      right
      refine ⟨apply_tag_type_error _ _ _ hx, ?_⟩
      unfold reads_in_range
      rw [apply_tag_type_error_any _ {} _ _ hx]
    · split at he
      · simp at he; exact Or.inl he.symm
      · simp at he

theorem make_column_invalid_width {G : Type} (h : Helpers G) (width scolor tag_type : Text)
    (hw : h.lexical_cast_int (width_digits width) = none) (col : Column) :
    make_column h width scolor tag_type ≠ .ok col := by
  intro he
  unfold make_column at he
  split at he
  · simp at he
  · split at he
    · simp at he
    · rw [hw] at he
      simp at he

theorem generate_columns_loop_invalid_width {G : Type} (h : Helpers G) (format : Text) :
    ∀ (fuel pos : Nat) (result : List Column),
      (∃ t ∈ column_texts h format fuel pos, invalid_width h t) →
      generate_columns_loop h format fuel pos result = .error .bad_lexical_cast ∨
      (generate_columns_loop h format fuel pos result = .error .out_of_range ∧
        ∃ t ∈ column_texts h format fuel pos, reads_in_range t.2.2 = false) := by
  intro fuel
  induction fuel with
  | zero => intro pos result ⟨t, ht, _⟩; simp [column_texts] at ht
  | succ n ih =>
    intro pos result ⟨t, ht, hbad⟩
    unfold column_texts at ht
    unfold generate_columns_loop column_texts
    cases hw : (h.getEnclosedString format '(' ')' pos).1 with
    | nil => simp [hw] at ht
    | cons x xs =>
      simp only [hw, List.mem_cons] at ht ⊢
      cases hm : make_column h (x :: xs)
          (h.getEnclosedString format '[' ']' (h.getEnclosedString format '(' ')' pos).2).1
          (h.getEnclosedString format '{' '}'
            (h.getEnclosedString format '[' ']' (h.getEnclosedString format '(' ')' pos).2).2).1 with
      | error e =>
        rcases make_column_error h _ _ _ e hm with he | ⟨he, hr⟩
        · left; simp [he]
        · right; exact ⟨by simp [he], _, Or.inl rfl, hr⟩
      | ok col =>
        simp only
        rcases ht with ht | ht
        · subst ht
          exact absurd hm (make_column_invalid_width h _ _ _ hbad col)
        · rcases ih _ (result ++ [col]) ⟨t, ht, hbad⟩ with h1 | ⟨h1, t2, ht2, hr⟩
          · exact Or.inl h1
          · exact Or.inr ⟨h1, t2, Or.inr ht2, hr⟩

/-- C10: when the width text of some column of the specification (the content of
its parentheses without one trailing `f`) is not a valid integer, `generate_columns`
does not return a column list: it ends with `bad_lexical_cast`, unless the run
reads the brace text of a column beyond its end before (the out-of-range read of
settings.cpp 77-79, for which C++ defines no behaviour). -/
theorem generate_columns_invalid_width {G : Type} (h : Helpers G) (format : Text)
    (hbad : ∃ t ∈ column_texts h format (format.length + 1) 0, invalid_width h t) :
    generate_columns h format = .error .bad_lexical_cast ∨
    (generate_columns h format = .error .out_of_range ∧
      ∃ t ∈ column_texts h format (format.length + 1) 0, reads_in_range t.2.2 = false) := by
  unfold generate_columns
  rcases generate_columns_loop_invalid_width h format (format.length + 1) 0 [] hbad with
    h1 | ⟨h1, h2⟩
  · left; rw [h1]
  · right; rw [h1]; exact ⟨rfl, h2⟩

/-- Witness of C10: the width text `x` of `(x)[]{a}` is no integer, and
`generate_columns` ends with `bad_lexical_cast`. -/
theorem generate_columns_invalid_width_witness :
    (∃ t ∈ column_texts refHelpers "(x)[]{a}".toList ("(x)[]{a}".toList.length + 1) 0,
      invalid_width refHelpers t) ∧
    (generate_columns refHelpers "(x)[]{a}".toList = .error .bad_lexical_cast ∨
      (generate_columns refHelpers "(x)[]{a}".toList = .error .out_of_range ∧
        ∃ t ∈ column_texts refHelpers "(x)[]{a}".toList ("(x)[]{a}".toList.length + 1) 0,
          reads_in_range t.2.2 = false)) ∧
    generate_columns refHelpers "(x)[]{a}".toList = .error .bad_lexical_cast :=
  have hbad : ∃ t ∈ column_texts refHelpers "(x)[]{a}".toList ("(x)[]{a}".toList.length + 1) 0,
      invalid_width refHelpers t :=
    ⟨(['x'], [], ['a']), List.mem_cons_self _ _, rfl⟩
  ⟨hbad, generate_columns_invalid_width refHelpers "(x)[]{a}".toList hbad, rfl⟩

namespace Format

/-! ## C11 -/

theorem parseItems_zero (reg : Registry) (total : Nat) (inp : Text)
    (acc : List (Expression Char)) (lit : Text) :
    parseItems reg total 0 inp acc lit = .error .out_of_fuel := by
  cases inp <;> rfl

theorem parseItems_nil (reg : Registry) (total fuel : Nat)
    (acc : List (Expression Char)) (lit : Text) :
    parseItems reg total (fuel + 1) [] acc lit = .ok ⟨flushLiteral acc lit, false, false, []⟩ :=
  rfl

theorem parseItems_cons (reg : Registry) (total fuel : Nat) (c : Char) (rest : Text)
    (acc : List (Expression Char)) (lit : Text) :
    parseItems reg total (fuel + 1) (c :: rest) acc lit =
      if c = '}' then .ok ⟨flushLiteral acc lit, false, true, rest⟩
      else if c = '|' then
        match parseItems reg total fuel rest [] [] with
        | .error e => .error e
        | .ok r => .ok ⟨[.Alternative (flushLiteral acc lit) r.seq], true, r.close, r.rest⟩
      else if c = '{' then
        match parseItems reg total fuel rest [] [] with
        | .error e => .error e
        | .ok g =>
          if g.close then
            parseItems reg total fuel g.rest
              (flushLiteral acc lit ++ (if g.alt then g.seq else [.Group g.seq true])) []
          else .error (.parse_error (total - (rest.length + 1)))
      else if c = '\\' then
        match rest with
        | d :: rest2 =>
          if reserved d then parseItems reg total fuel rest2 acc (lit ++ [d])
          else parseItems reg total fuel rest acc (lit ++ [c])
        | [] => parseItems reg total fuel rest acc (lit ++ [c])
      else if c = '%' then
        match rest with
        | d :: rest2 =>
          if reg.fieldCode d then
            parseItems reg total fuel rest2 (flushLiteral acc lit ++ [.FirstOf [d]]) []
          else .error (.parse_error (total - (rest2.length + 1)))
        | [] => .error (.parse_error total)
      else if c = '$' then
        match rest with
        | '/' :: d :: rest2 =>
          match reg.directiveOff d with
          | some x =>
            parseItems reg total fuel rest2 (flushLiteral acc lit ++ [x.toExpression]) []
          | none => .error (.parse_error (total - (rest2.length + 1)))
        | d :: rest2 =>
          match reg.directive d with
          | some x =>
            parseItems reg total fuel rest2 (flushLiteral acc lit ++ [x.toExpression]) []
          | none => .error (.parse_error (total - (rest2.length + 1)))
        | [] => .error (.parse_error total)
      else parseItems reg total fuel rest acc (lit ++ [c]) := by
  rfl

theorem parseItems_dollar_nil (reg : Registry) (total fuel : Nat)
    (acc : List (Expression Char)) (lit : Text) :
    parseItems reg total (fuel + 1) ['$'] acc lit = .error (.parse_error total) := rfl

theorem parseItems_dollar_slash (reg : Registry) (total fuel : Nat) (d : Char) (rest2 : Text)
    (acc : List (Expression Char)) (lit : Text) :
    parseItems reg total (fuel + 1) ('$' :: '/' :: d :: rest2) acc lit =
      match reg.directiveOff d with
      | some x => parseItems reg total fuel rest2 (flushLiteral acc lit ++ [x.toExpression]) []
      | none => .error (.parse_error (total - (rest2.length + 1))) := rfl

theorem parseItems_dollar_slash_nil (reg : Registry) (total fuel : Nat)
    (acc : List (Expression Char)) (lit : Text) :
    parseItems reg total (fuel + 1) ['$', '/'] acc lit =
      match reg.directive '/' with
      | some x => parseItems reg total fuel [] (flushLiteral acc lit ++ [x.toExpression]) []
      | none => .error (.parse_error (total - 1)) := rfl

theorem parseItems_dollar_code (reg : Registry) (total fuel : Nat) (d : Char) (rest2 : Text)
    (acc : List (Expression Char)) (lit : Text) (hd : d ≠ '/') :
    parseItems reg total (fuel + 1) ('$' :: d :: rest2) acc lit =
      match reg.directive d with
      | some x => parseItems reg total fuel rest2 (flushLiteral acc lit ++ [x.toExpression]) []
      | none => .error (.parse_error (total - (rest2.length + 1))) := by
  rw [parseItems_cons]
  simp only [show ('$' : Char) ≠ '}' by decide, show ('$' : Char) ≠ '|' by decide,
    show ('$' : Char) ≠ '{' by decide, show ('$' : Char) ≠ '\\' by decide,
    show ('$' : Char) ≠ '%' by decide, if_false, if_true]
  split
  · rename_i heq
    simp at heq
    exact absurd heq.1 hd
  · rename_i heq
    simp at heq
    obtain ⟨h1, h2⟩ := heq
    subst h1 h2
    rfl
  · rename_i heq
    simp at heq

end Format
namespace Format

theorem openGroupsFrom_plain_literal (c : Char) (rest : Text) (d : Nat)
    (h1 : c ≠ '}') (h2 : c ≠ '{') (h3 : c ≠ '\\') (h4 : c ≠ '%') (h5 : c ≠ '$') :
    openGroupsFrom .plain (c :: rest) d = openGroupsFrom .plain rest d := by
  simp [openGroupsFrom, h1, h2, h3, h4, h5]

theorem reserved_false (c : Char) (h : reserved c = false) :
    c ≠ '}' ∧ c ≠ '{' ∧ c ≠ '\\' ∧ c ≠ '%' ∧ c ≠ '$' ∧ c ≠ '|' := by
  simp [reserved] at h
  tauto

theorem parseItems_ok (reg : Registry) (total : Nat) :
    ∀ (fuel : Nat) (inp : Text) (acc : List (Expression Char)) (lit : Text) (p : Parsed),
      parseItems reg total fuel inp acc lit = .ok p →
      (p.close = true → ∃ mid, inp = mid ++ '}' :: p.rest) ∧ (p.close = false → p.rest = []) ∧
      ∀ d, openGroupsFrom .plain inp d =
        if p.close then openGroupsFrom .plain p.rest (d - 1) else d := by
  intro fuel
  induction fuel with
  | zero => intro inp acc lit p h; simp [parseItems_zero] at h
  | succ n ih =>
    intro inp acc lit p h
    cases inp with
    | nil =>
      simp [parseItems_nil] at h
      subst h
      simp [openGroupsFrom]
    | cons c rest =>
      by_cases c6 : c = '$'
      · subst c6
        cases rest with
        | nil => simp [parseItems_dollar_nil] at h
        | cons e rest2 =>
          by_cases he : e = '/'
          · subst he
            cases rest2 with
            | nil =>
              rw [parseItems_dollar_slash_nil] at h
              cases hx : reg.directive '/' with
              | none => rw [hx] at h; simp at h
              | some x =>
                rw [hx] at h
                simp only at h
                obtain ⟨a, b, c⟩ := ih [] _ _ p h
                refine ⟨?_, b, ?_⟩
                · intro hcl
                  obtain ⟨mid, hm⟩ := a hcl
                  simp at hm
                · intro d
                  have := c d
                  simpa [openGroupsFrom] using this
            | cons f rest3 =>
              rw [parseItems_dollar_slash] at h
              cases hx : reg.directiveOff f with
              | none => rw [hx] at h; simp at h
              | some x =>
                rw [hx] at h
                simp only at h
                obtain ⟨a, b, c⟩ := ih rest3 _ _ p h
                refine ⟨?_, b, ?_⟩
                · intro hcl
                  obtain ⟨mid, hm⟩ := a hcl
                  exact ⟨'$' :: '/' :: f :: mid, by simp [hm]⟩
                · intro d
                  have := c d
                  simpa [openGroupsFrom] using this
          · rw [parseItems_dollar_code _ _ _ _ _ _ _ he] at h
            cases hx : reg.directive e with
            | none => rw [hx] at h; simp at h
            | some x =>
              rw [hx] at h
              simp only at h
              obtain ⟨a, b, c⟩ := ih rest2 _ _ p h
              refine ⟨?_, b, ?_⟩
              · intro hcl
                obtain ⟨mid, hm⟩ := a hcl
                exact ⟨'$' :: e :: mid, by simp [hm]⟩
              · intro d
                have := c d
                simpa [openGroupsFrom, he] using this
      rw [parseItems_cons] at h
      by_cases c1 : c = '}'
      · subst c1
        simp at h
        subst h
        exact ⟨fun _ => ⟨[], rfl⟩, by simp, by simp [openGroupsFrom]⟩
      rw [if_neg c1] at h
      by_cases c2 : c = '|'
      · subst c2
        rw [if_pos rfl] at h
        cases hr : parseItems reg total n rest [] [] with
        | error e => rw [hr] at h; simp at h
        | ok r =>
          rw [hr] at h
          simp at h
          subst h
          obtain ⟨a, b, c⟩ := ih rest [] [] r hr
          refine ⟨?_, b, ?_⟩
          · intro hcl
            obtain ⟨mid, hm⟩ := a hcl
            exact ⟨'|' :: mid, by simp [hm]⟩
          · intro d
            rw [openGroupsFrom_plain_literal _ _ _ (by decide) (by decide) (by decide) (by decide)
              (by decide)]
            exact c d
      rw [if_neg c2] at h
      by_cases c3 : c = '{'
      · subst c3
        rw [if_pos rfl] at h
        cases hg : parseItems reg total n rest [] [] with
        | error e => rw [hg] at h; simp at h
        | ok g =>
          rw [hg] at h
          simp only at h
          by_cases hcl : g.close = true
          · rw [if_pos hcl] at h
            obtain ⟨a1, b1, c1'⟩ := ih rest [] [] g hg
            obtain ⟨a2, b2, c2'⟩ := ih g.rest _ [] p h
            obtain ⟨mid1, hm1⟩ := a1 hcl
            refine ⟨?_, b2, ?_⟩
            · intro hp
              obtain ⟨mid2, hm2⟩ := a2 hp
              refine ⟨'{' :: mid1 ++ '}' :: mid2, ?_⟩
              rw [hm1, hm2]
              simp
            · intro d
              have e1 : openGroupsFrom .plain ('{' :: rest) d = openGroupsFrom .plain rest (d + 1) := by
                simp [openGroupsFrom]
              rw [e1, c1' (d + 1), if_pos hcl]
              simpa using c2' d
          · rw [if_neg hcl] at h
            simp at h
      rw [if_neg c3] at h
      by_cases c4 : c = '\\'
      · subst c4
        rw [if_pos rfl] at h
        cases rest with
        | nil =>
          simp only at h
          obtain ⟨a, b, c⟩ := ih [] acc _ p h
          refine ⟨?_, b, ?_⟩
          · intro hcl
            obtain ⟨mid, hm⟩ := a hcl
            simp at hm
          · intro d
            have := c d
            simp only [openGroupsFrom] at this ⊢
            simpa using this
        | cons e rest2 =>
          simp only at h
          by_cases hres : reserved e = true
          · rw [if_pos hres] at h
            obtain ⟨a, b, c⟩ := ih rest2 acc _ p h
            refine ⟨?_, b, ?_⟩
            · intro hcl
              obtain ⟨mid, hm⟩ := a hcl
              exact ⟨'\\' :: e :: mid, by simp [hm]⟩
            · intro d
              have := c d
              simpa [openGroupsFrom] using this
          · rw [if_neg hres] at h
            obtain ⟨a, b, c⟩ := ih (e :: rest2) acc _ p h
            have hr := reserved_false e (by simpa using hres)
            refine ⟨?_, b, ?_⟩
            · intro hcl
              obtain ⟨mid, hm⟩ := a hcl
              exact ⟨'\\' :: mid, by simp [hm]⟩
            · intro d
              have := c d
              rw [openGroupsFrom_plain_literal e rest2 d hr.1 hr.2.1 hr.2.2.1 hr.2.2.2.1
                hr.2.2.2.2.1] at this
              simpa [openGroupsFrom] using this
      rw [if_neg c4] at h
      by_cases c5 : c = '%'
      · subst c5
        rw [if_pos rfl] at h
        cases rest with
        | nil => simp at h
        | cons e rest2 =>
          simp only at h
          by_cases hf : reg.fieldCode e = true
          · rw [if_pos hf] at h
            obtain ⟨a, b, c⟩ := ih rest2 _ _ p h
            refine ⟨?_, b, ?_⟩
            · intro hcl
              obtain ⟨mid, hm⟩ := a hcl
              exact ⟨'%' :: e :: mid, by simp [hm]⟩
            · intro d
              have := c d
              simpa [openGroupsFrom] using this
          · rw [if_neg hf] at h
            simp at h
      rw [if_neg c5] at h
      rw [if_neg c6] at h
      obtain ⟨a, b, c'⟩ := ih rest acc _ p h
      refine ⟨?_, b, ?_⟩
      · intro hcl
        obtain ⟨mid, hm⟩ := a hcl
        exact ⟨c :: mid, by simp [hm]⟩
      · intro d
        rw [openGroupsFrom_plain_literal c rest d c1 c3 c4 c5 c6]
        exact c' d

end Format
namespace Format

theorem getElem?_mid (pre : Text) (c : Char) (rest : Text) :
    (pre ++ c :: rest)[pre.length]? = some c := by
  rw [List.getElem?_append_right (le_refl _)]
  simp

theorem pos_mid (pre : Text) (c : Char) (rest : Text) :
    (pre ++ c :: rest).length - (rest.length + 1) = pre.length := by
  simp

theorem parseItems_rest_length (reg : Registry) (total fuel : Nat) (inp : Text)
    (acc : List (Expression Char)) (lit : Text) (p : Parsed)
    (h : parseItems reg total fuel inp acc lit = .ok p) : p.rest.length ≤ inp.length := by
  obtain ⟨a, b, _⟩ := parseItems_ok reg total fuel inp acc lit p h
  cases hc : p.close with
  | true =>
    obtain ⟨mid, hm⟩ := a hc
    rw [hm]
    simp
    omega
  | false => rw [b hc]; simp

theorem parseItems_error (reg : Registry) (text : Text) :
    ∀ (fuel : Nat) (inp : Text) (acc : List (Expression Char)) (lit : Text) (pre : Text)
      (e : Failure), text = pre ++ inp → inp.length < fuel →
      parseItems reg text.length fuel inp acc lit = .error e →
      ∃ pos, e = .parse_error pos ∧ pos ≤ text.length ∧ offendingAt text pos := by
  intro fuel
  induction fuel with
  | zero => intro inp acc lit pre e _ hl _; omega
  | succ n ih =>
    intro inp acc lit pre e ht hl h
    cases inp with
    | nil => simp [parseItems_nil] at h
    | cons c rest =>
      have hl2 : rest.length < n := by simp at hl; omega
      have ht2 : text = (pre ++ [c]) ++ rest := by simp [ht]
      by_cases c6 : c = '$'
      · subst c6
        cases rest with
        | nil =>
          simp [parseItems_dollar_nil] at h
          refine ⟨text.length, h.symm, le_refl _, Or.inr (Or.inr ⟨pre.length, ?_, ?_⟩)⟩
          · simp [ht]
          · right; left; rw [ht]; exact getElem?_mid pre '$' []
        | cons e2 rest2 =>
          have hl3 : rest2.length < n := by simp at hl2; omega
          have ht3 : text = (pre ++ ['$', e2]) ++ rest2 := by simp [ht]
          by_cases he : e2 = '/'
          · subst he
            cases rest2 with
            | nil =>
              rw [parseItems_dollar_slash_nil] at h
              cases hx : reg.directive '/' with
              | none =>
                rw [hx] at h
                simp at h
                refine ⟨text.length - 1, h.symm, by omega, Or.inr (Or.inr ⟨pre.length, ?_, ?_⟩)⟩
                · simp [ht]
                · right; left; rw [ht]; exact getElem?_mid pre '$' ['/']
              | some x =>
                rw [hx] at h
                exact ih [] _ _ _ e ht3 hl3 h
            | cons f rest3 =>
              rw [parseItems_dollar_slash] at h
              cases hx : reg.directiveOff f with
              | none =>
                rw [hx] at h
                simp at h
                refine ⟨pre.length + 2, ?_, ?_, Or.inr (Or.inr ⟨pre.length + 1, rfl, ?_⟩)⟩
                · rw [← h, ht]; simp; omega
                · rw [ht]; simp
                · right; right
                  have := getElem?_mid (pre ++ ['$']) '/' (f :: rest3)
                  simpa [ht] using this
              | some x =>
                rw [hx] at h
                refine ih rest3 _ _ (pre ++ ['$', '/', f]) e (by simp [ht]) ?_ h
                simp at hl3; omega
          · rw [parseItems_dollar_code _ _ _ _ _ _ _ he] at h
            cases hx : reg.directive e2 with
            | none =>
              rw [hx] at h
              simp at h
              refine ⟨pre.length + 1, ?_, ?_, Or.inr (Or.inr ⟨pre.length, rfl, ?_⟩)⟩
              · rw [← h, ht]; simp; omega
              · rw [ht]; simp
              · right; left; rw [ht]; exact getElem?_mid pre '$' (e2 :: rest2)
            | some x =>
              rw [hx] at h
              exact ih rest2 _ _ _ e ht3 hl3 h
      rw [parseItems_cons] at h
      by_cases c1 : c = '}'
      · rw [if_pos c1] at h; simp at h
      rw [if_neg c1] at h
      by_cases c2 : c = '|'
      · rw [if_pos c2] at h
        cases hr : parseItems reg text.length n rest [] [] with
        | error e1 =>
          rw [hr] at h
          simp at h
          subst h
          exact ih rest [] [] _ e1 ht2 hl2 hr
        | ok r => rw [hr] at h; simp at h
      rw [if_neg c2] at h
      by_cases c3 : c = '{'
      · subst c3
        rw [if_pos rfl] at h
        cases hg : parseItems reg text.length n rest [] [] with
        | error e1 =>
          rw [hg] at h
          simp at h
          subst h
          exact ih rest [] [] _ e1 ht2 hl2 hg
        | ok g =>
          rw [hg] at h
          simp only at h
          by_cases hcl : g.close = true
          · rw [if_pos hcl] at h
            obtain ⟨a1, _, _⟩ := parseItems_ok reg _ n rest [] [] g hg
            obtain ⟨mid, hm⟩ := a1 hcl
            have hlen := parseItems_rest_length reg _ n rest [] [] g hg
            refine ih g.rest _ _ (pre ++ '{' :: mid ++ ['}']) e ?_ (by omega) h
            rw [ht, hm]; simp
          · rw [if_neg hcl] at h
            simp at h
            refine ⟨pre.length, ?_, ?_, Or.inl ?_⟩
            · rw [← h, ht]; simp
            · rw [ht]; simp
            · rw [ht]; exact getElem?_mid pre '{' rest
      rw [if_neg c3] at h
      by_cases c4 : c = '\\'
      · rw [if_pos c4] at h
        cases rest with
        | nil =>
          simp only at h
          exact ih [] _ _ _ e ht2 hl2 h
        | cons e2 rest2 =>
          simp only at h
          by_cases hres : reserved e2 = true
          · rw [if_pos hres] at h
            refine ih rest2 _ _ (pre ++ [c, e2]) e (by simp [ht]) ?_ h
            simp at hl2; omega
          · rw [if_neg hres] at h
            exact ih (e2 :: rest2) _ _ _ e ht2 hl2 h
      rw [if_neg c4] at h
      by_cases c5 : c = '%'
      · subst c5
        rw [if_pos rfl] at h
        cases rest with
        | nil =>
          simp at h
          refine ⟨text.length, h.symm, le_refl _, Or.inr (Or.inr ⟨pre.length, ?_, ?_⟩)⟩
          · simp [ht]
          · left; rw [ht]; exact getElem?_mid pre '%' []
        | cons e2 rest2 =>
          simp only at h
          by_cases hf : reg.fieldCode e2 = true
          · rw [if_pos hf] at h
            refine ih rest2 _ _ (pre ++ ['%', e2]) e (by simp [ht]) ?_ h
            simp at hl2; omega
          · rw [if_neg hf] at h
            simp at h
            refine ⟨pre.length + 1, ?_, ?_, Or.inr (Or.inr ⟨pre.length, rfl, ?_⟩)⟩
            · rw [← h, ht]; simp; omega
            · rw [ht]; simp
            · left; rw [ht]; exact getElem?_mid pre '%' (e2 :: rest2)
      rw [if_neg c5, if_neg c6] at h
      exact ih rest _ _ _ e ht2 hl2 h

end Format
namespace Format

/-- C11: for every template text in which some `{` has no matching `}`, parsing
fails with a parse error and produces no AST; the error carries a position of the
text, which points at a brace or at the place where a field or directive code is
expected. -/
theorem unterminated_group_is_parse_error (reg : Registry) (text : Text) (flags : Flags)
    (h : unterminated text) :
    ∃ pos, parse reg text flags = .error (.parse_error pos) ∧ pos ≤ text.length ∧
      offendingAt text pos := by
  unfold parse
  cases hp : parseItems reg text.length (text.length + 1) text [] [] with
  | error e =>
    obtain ⟨pos, h1, h2, h3⟩ := parseItems_error reg text (text.length + 1) text [] [] [] e
      (by simp) (by omega) hp
    exact ⟨pos, by simp [h1], h2, h3⟩
  | ok p =>
    obtain ⟨a, b, c⟩ := parseItems_ok reg _ _ text [] [] p hp
    cases hc : p.close with
    | true =>
      obtain ⟨mid, hm⟩ := a hc
      refine ⟨mid.length, ?_, ?_, Or.inr (Or.inl ?_)⟩
      · have hl : text.length - (p.rest.length + 1) = mid.length := by
          conv => lhs; rw [hm]
          simp
        simp [hc, hl]
      · rw [hm]; simp
      · conv => lhs; rw [hm]
        exact getElem?_mid mid '}' p.rest
    | false =>
      have := c 0
      rw [hc] at this
      simp at this
      unfold unterminated openGroups at h
      omega

/-- Witness of C11: `{%a - ` never closes its group, and parsing reports the
position of its `{`. -/
theorem unterminated_group_is_parse_error_witness :
    unterminated "\x7b%a - ".toList ∧
    (∃ pos, parse specRegistry "\x7b%a - ".toList Flags.All = .error (.parse_error pos) ∧
      pos ≤ "\x7b%a - ".toList.length ∧ offendingAt "\x7b%a - ".toList pos) ∧
    parse specRegistry "\x7b%a - ".toList Flags.All = .error (.parse_error 0) :=
  have h : unterminated "\x7b%a - ".toList := by unfold unterminated; decide
  ⟨h, unterminated_group_is_parse_error specRegistry "\x7b%a - ".toList Flags.All h, rfl⟩

end Format

/-! ## The columns of `generate_columns` -/

theorem forall₂_comp {α β γ : Type} {R : α → β → Prop} {S : β → γ → Prop}
    {l1 : List α} {l2 : List β} {l3 : List γ}
    (h1 : List.Forall₂ R l1 l2) (h2 : List.Forall₂ S l2 l3) :
    List.Forall₂ (fun a c => ∃ b, R a b ∧ S b c) l1 l3 := by
  induction h1 generalizing l3 with
  | nil => cases h2; exact List.Forall₂.nil
  | cons hab _ ih =>
    cases h2 with
    | cons hbc hrest => exact List.Forall₂.cons ⟨_, hab, hbc⟩ (ih hrest)

theorem set_stretch_limit_same (l : List Column) :
    ∀ (a : Int), List.Forall₂ same_but_stretch l (set_stretch_limit l a) := by
  induction l with
  | nil => intro a; exact List.Forall₂.nil
  | cons c cs ih =>
    intro a
    unfold set_stretch_limit
    split
    · exact List.Forall₂.cons (by simp [same_but_stretch]) (ih _)
    · refine List.Forall₂.cons (by simp [same_but_stretch]) ?_
      exact List.forall₂_same.mpr (fun x _ => by simp [same_but_stretch])

theorem generate_columns_loop_columns {G : Type} (h : Helpers G) (format : Text) :
    ∀ (fuel pos : Nat) (result cols : List Column),
      generate_columns_loop h format fuel pos result = .ok cols →
      ∃ new, cols = result ++ new ∧
        List.Forall₂ (fun t c => make_column h t.1 t.2.1 t.2.2 = .ok c)
          (column_texts h format fuel pos) new := by
  intro fuel
  induction fuel with
  | zero => intro pos result cols hk; simp [generate_columns_loop] at hk
  | succ n ih =>
    intro pos result cols hk
    unfold generate_columns_loop at hk
    unfold column_texts
    cases hw : (h.getEnclosedString format '(' ')' pos).1 with
    | nil =>
      simp only [hw] at hk ⊢
      simp at hk
      exact ⟨[], by simp [hk], List.Forall₂.nil⟩
    | cons x xs =>
      simp only [hw] at hk ⊢
      cases hm : make_column h (x :: xs)
          (h.getEnclosedString format '[' ']' (h.getEnclosedString format '(' ')' pos).2).1
          (h.getEnclosedString format '{' '}'
            (h.getEnclosedString format '[' ']' (h.getEnclosedString format '(' ')' pos).2).2).1 with
      | error e => rw [hm] at hk; simp at hk
      | ok col =>
        rw [hm] at hk
        simp only at hk
        obtain ⟨new, h1, h2⟩ := ih _ _ _ hk
        exact ⟨col :: new, by simp [h1], List.Forall₂.cons hm h2⟩

theorem generate_columns_columns {G : Type} (h : Helpers G) (format : Text) (cols : List Column)
    (hk : generate_columns h format = .ok cols) :
    List.Forall₂ (column_from h) (column_texts h format (format.length + 1) 0) cols := by
  unfold generate_columns at hk
  cases hl : generate_columns_loop h format (format.length + 1) 0 [] with
  | error e => rw [hl] at hk; simp at hk
  | ok result =>
    rw [hl] at hk
    simp at hk
    obtain ⟨new, h1, h2⟩ := generate_columns_loop_columns h format _ _ _ _ hl
    simp at h1
    subst h1
    have h3 : List.Forall₂ same_but_stretch result cols := by
      rw [← hk, ← List.forall₂_reverse_iff]
      simpa using set_stretch_limit_same result.reverse 0
    exact forall₂_comp h2 h3
theorem apply_attributes_fields (fl : Text) :
    ∀ (col : Column),
      (apply_attributes col fl).right_alignment = (col.right_alignment || decide ('r' ∈ fl)) ∧
      (apply_attributes col fl).display_empty_tag =
        (col.display_empty_tag && !decide ('E' ∈ fl)) ∧
      (apply_attributes col fl).name = col.name ∧ (apply_attributes col fl).type = col.type ∧
      (apply_attributes col fl).width = col.width ∧
      (apply_attributes col fl).stretch_limit = col.stretch_limit ∧
      (apply_attributes col fl).color = col.color ∧ (apply_attributes col fl).fixed = col.fixed := by
  induction fl with
  | nil => intro col; simp [apply_attributes]
  | cons c cs ih =>
    intro col
    unfold apply_attributes
    by_cases h1 : c = 'r'
    · subst h1
      rw [if_pos rfl]
      obtain ⟨a1, a2, a3, a4, a5, a6, a7, a8⟩ := ih { col with right_alignment := true }
      refine ⟨?_, ?_, a3, a4, a5, a6, a7, a8⟩
      · rw [a1]; simp
      · rw [a2]; simp
    · rw [if_neg h1]
      by_cases h2 : c = 'E'
      · subst h2
        rw [if_pos rfl]
        obtain ⟨a1, a2, a3, a4, a5, a6, a7, a8⟩ := ih { col with display_empty_tag := false }
        refine ⟨?_, ?_, a3, a4, a5, a6, a7, a8⟩
        · rw [a1]; simp
        · rw [a2]; simp
      · rw [if_neg h2]
        obtain ⟨a1, a2, a3, a4, a5, a6, a7, a8⟩ := ih col
        refine ⟨?_, ?_, a3, a4, a5, a6, a7, a8⟩
        · rw [a1]; simp [Ne.symm h1]
        · rw [a2]; simp [Ne.symm h2]

theorem apply_tag_type_keeps (col c : Column) (tag : Text) (hk : apply_tag_type col tag = .ok c) :
    c.name = col.name ∧ c.width = col.width ∧ c.stretch_limit = col.stretch_limit ∧
      c.color = col.color ∧ c.fixed = col.fixed := by
  unfold apply_tag_type at hk
  split at hk
  · simp at hk
    subst hk
    simp
  · rename_i x xs
    cases hx : extract_tag_types (x :: xs) ((x :: xs).length + 1) 0 [] with
    | error e => rw [hx] at hk; simp at hk
    | ok p =>
      obtain ⟨type, i⟩ := p
      rw [hx] at hk
      simp at hk
      subst hk
      obtain ⟨_, _, a3, _, a5, a6, a7, a8⟩ :=
        apply_attributes_fields ((x :: xs).drop i) { col with type := type }
      exact ⟨a3, a5, a6, a7, a8⟩

theorem make_column_ok {G : Type} (h : Helpers G) (width scolor tag_type : Text) (col : Column)
    (hk : make_column h width scolor tag_type = .ok col) :
    ∃ color c w,
      (if scolor = [] then some NC.Color.Default else h.lexical_cast_Color scolor) = some color ∧
      apply_tag_type
        ({ color := color, fixed := decide (width.getLast? = some 'f'),
           name := name_part h tag_type } : Column) (tag_part tag_type) = .ok c ∧
      h.lexical_cast_int (width_digits width) = some w ∧ col = ({ c with width := w } : Column) := by
  unfold make_column at hk
  split at hk
  · simp at hk
  · rename_i color hcol
    split at hk
    · simp at hk
    · rename_i c hc
      split at hk
      · simp at hk
      · rename_i w hw
        simp at hk
        exact ⟨color, c, w, hcol, hc, hw, hk.symm⟩

theorem make_column_width {G : Type} (h : Helpers G) (width scolor tag_type : Text) (col : Column)
    (hk : make_column h width scolor tag_type = .ok col) :
    col.fixed = decide (width.getLast? = some 'f') ∧
      h.lexical_cast_int (width_digits width) = some col.width := by
  obtain ⟨color, c, w, _, hc, hw, he⟩ := make_column_ok h width scolor tag_type col hk
  obtain ⟨_, _, _, _, a5⟩ := apply_tag_type_keeps _ _ _ hc
  subst he
  exact ⟨by simpa using a5, by simpa using hw⟩
theorem default_columns_eq :
    generate_columns refHelpers default_columns_format = .ok default_columns := rfl

/-! ## C12 -/

theorem width_digits_fixed (ds : Text) : width_digits (ds ++ ['f']) = ds := by
  simp [width_digits]

/-- C12: every column `generate_columns` returns is marked fixed exactly when its
width text ends in `f`, and its width is the integer value of the width text without
that trailing `f`, which is the rest of a width text `ds ++ "f"` and the whole of a
width text that does not end in `f`. -/
theorem column_fixed_and_width {G : Type} (h : Helpers G) (format : Text) (cols : List Column)
    (hk : generate_columns h format = .ok cols) :
    List.Forall₂
      (fun t col => (col.fixed = true ↔ t.1.getLast? = some 'f') ∧
        h.lexical_cast_int (width_digits t.1) = some col.width)
      (column_texts h format (format.length + 1) 0) cols ∧
    (∀ ds : Text, width_digits (ds ++ ['f']) = ds) ∧
    (∀ w : Text, w.getLast? ≠ some 'f' → width_digits w = w) := by
  refine ⟨?_, width_digits_fixed, fun w hw => by simp [width_digits, hw]⟩
  refine (generate_columns_columns h format cols hk).imp ?_
  intro t col ⟨c0, hm, hs⟩
  obtain ⟨a, b⟩ := make_column_width h _ _ _ c0 hm
  obtain ⟨_, _, s3, _, s5, _, _⟩ := hs
  rw [s5, s3, a]
  exact ⟨by simp, b⟩

/-- Witness of C12: in the default format `(6f)` gives the fixed width 6 and `(20)`
the relative width 20. -/
theorem column_fixed_and_width_witness :
    generate_columns refHelpers default_columns_format = .ok default_columns ∧
    List.Forall₂
      (fun t col => (col.fixed = true ↔ t.1.getLast? = some 'f') ∧
        refHelpers.lexical_cast_int (width_digits t.1) = some col.width)
      (column_texts refHelpers default_columns_format (default_columns_format.length + 1) 0)
      default_columns ∧
    (default_columns.map fun c => (c.fixed, c.width)) =
      [(false, 20), (true, 6), (false, 50), (false, 20), (true, 7)] :=
  ⟨rfl, (column_fixed_and_width refHelpers default_columns_format default_columns rfl).1, rfl⟩
/-! ## Brace texts of the documented form -/

theorem strAt_mid (pre : Text) (c : Char) (rest : Text) :
    strAt (pre ++ c :: rest) pre.length = .ok c := by
  unfold strAt
  have hlt : pre.length < (pre ++ c :: rest).length := by simp
  rw [dif_pos hlt]
  congr 1
  simp only [List.get_eq_getElem]
  rw [List.getElem_append_right (le_refl _)]
  simp

theorem strAt_end (s : Text) : strAt s s.length = .ok (Char.ofNat 0) := by
  simp [strAt]

theorem extract_tag_types_form (codes : Text) :
    ∀ (pre type flags : Text) (fuel : Nat), codes ≠ [] → flags.head? ≠ some '|' →
      (codes.intersperse '|' ++ flags).length < fuel →
      extract_tag_types (pre ++ (codes.intersperse '|' ++ flags)) fuel pre.length type =
        .ok (type ++ codes, pre.length + (codes.intersperse '|').length) := by
  induction codes with
  | nil => intro pre type flags fuel hne; exact absurd rfl hne
  | cons c cs ih =>
    intro pre type flags fuel _ hfl hfuel
    cases fuel with
    | zero => omega
    | succ n =>
      unfold extract_tag_types
      cases cs with
      | nil =>
        simp only [List.intersperse_single, List.singleton_append]
        rw [strAt_mid]
        simp only
        cases flags with
        | nil =>
          have : strAt (pre ++ [c]) (pre.length + 1) = .ok (Char.ofNat 0) := by
            have := strAt_end (pre ++ [c])
            simpa using this
          rw [this]
          simp only
          rw [if_neg (by decide)]
          simp
        | cons f fs =>
          have : strAt (pre ++ c :: f :: fs) (pre.length + 1) = .ok f := by
            have := strAt_mid (pre ++ [c]) f fs
            simpa using this
          rw [this]
          simp only
          have hf : f ≠ '|' := by simpa using hfl
          rw [if_neg hf]
          simp
      | cons c2 cs2 =>
        simp only [List.intersperse_cons₂, List.cons_append]
        rw [strAt_mid]
        simp only
        have : strAt (pre ++ c :: '|' :: (List.intersperse '|' (c2 :: cs2) ++ flags))
            (pre.length + 1) = .ok '|' := by
          have := strAt_mid (pre ++ [c]) '|' (List.intersperse '|' (c2 :: cs2) ++ flags)
          simpa using this
        rw [this]
        simp only [if_true]
        have key := ih (pre ++ [c, '|']) (type ++ [c]) flags n (by simp) hfl (by
          simp only [List.intersperse_cons₂, List.cons_append, List.length_cons] at hfuel
          omega)
        simp only [List.length_append, List.length_cons, List.length_nil, List.append_assoc,
          List.cons_append, List.nil_append] at key
        rw [key]
        simp
        omega
theorem mem_intersperse_bar (codes : Text) (x : Char) (hx : x ∈ codes.intersperse '|') :
    x = '|' ∨ x ∈ codes := by
  induction codes with
  | nil => simp at hx
  | cons c cs ih =>
    cases cs with
    | nil => simp at hx; exact Or.inr (by simp [hx])
    | cons c2 cs2 =>
      simp only [List.intersperse_cons₂, List.mem_cons] at hx
      rcases hx with hx | hx | hx
      · exact Or.inr (by simp [hx])
      · exact Or.inl hx
      · rcases ih (by simpa using hx) with h1 | h1
        · exact Or.inl h1
        · exact Or.inr (List.mem_cons_of_mem _ h1)

theorem indexOf_colon_append (body l : Text) (hb : ':' ∉ body) :
    (body ++ ':' :: l).indexOf ':' = body.length := by
  induction body with
  | nil => simp [List.indexOf_cons]
  | cons b bs ih =>
    have hb1 : b ≠ ':' := fun h => hb (by simp [h])
    have hb2 : ':' ∉ bs := fun h => hb (List.mem_cons_of_mem _ h)
    simp [List.indexOf_cons, hb1, ih hb2]

theorem tag_part_colon {G : Type} (h : Helpers G) (body l : Text) (hb : ':' ∉ body) :
    tag_part (body ++ ':' :: l) = body ∧ name_part h (body ++ ':' :: l) = h.ToWString l := by
  have hi := indexOf_colon_append body l hb
  unfold tag_part name_part
  rw [hi]
  simp

theorem brace_form_body {tag_type codes flags : Text} {label : Option Text}
    (hf : brace_form tag_type codes flags label) : ':' ∉ codes.intersperse '|' ++ flags := by
  obtain ⟨_, _, h3, h4, _⟩ := hf
  intro hm
  rcases List.mem_append.mp hm with hm | hm
  · rcases mem_intersperse_bar codes ':' hm with h | h
    · exact absurd h (by decide)
    · exact h3 ':' h rfl
  · exact h4 hm

theorem brace_form_parts {G : Type} (h : Helpers G) {tag_type codes flags : Text}
    {label : Option Text} (hf : brace_form tag_type codes flags label) :
    tag_part tag_type = codes.intersperse '|' ++ flags ∧
      name_part h tag_type = label_name h label := by
  have hb := brace_form_body hf
  obtain ⟨h1, _, _, _, _⟩ := hf
  cases label with
  | none =>
    simp only [List.append_nil] at h1
    subst h1
    have hi := List.indexOf_eq_length.mpr hb
    simp [tag_part, name_part, label_name, hi]
  | some l =>
    simp only at h1
    subst h1
    exact tag_part_colon h _ l hb

theorem apply_tag_type_form (col : Column) (codes flags : Text) (hc : codes ≠ [])
    (hfl : flags.head? ≠ some '|') :
    apply_tag_type col (codes.intersperse '|' ++ flags) =
      .ok (apply_attributes { col with type := codes } flags) := by
  have key := extract_tag_types_form codes [] [] flags
    ((codes.intersperse '|' ++ flags).length + 1) hc hfl (by omega)
  simp only [List.nil_append, List.length_nil, Nat.zero_add] at key
  unfold apply_tag_type
  cases hs : codes.intersperse '|' ++ flags with
  | nil =>
    cases codes with
    | nil => exact absurd rfl hc
    | cons c cs => cases cs <;> simp at hs
  | cons x xs =>
    simp only
    rw [← hs, key]
    simp

/-- What `generate_columns` makes of a column whose brace text has the documented
form, for a colour `color` and a width `w`. -/
theorem make_column_form {G : Type} (h : Helpers G) (width scolor tag_type codes flags : Text)
    (label : Option Text) (color : NC.Color) (w : Int)
    (hf : brace_form tag_type codes flags label)
    (hcol : (if scolor = [] then some NC.Color.Default else h.lexical_cast_Color scolor)
      = some color)
    (hw : h.lexical_cast_int (width_digits width) = some w) :
    ∃ col, make_column h width scolor tag_type = .ok col ∧ col.type = codes ∧
      col.name = label_name h label ∧ col.right_alignment = decide ('r' ∈ flags) ∧
      col.display_empty_tag = !decide ('E' ∈ flags) := by
  obtain ⟨hp, hn⟩ := brace_form_parts h hf
  obtain ⟨_, hc, _, _, hfl⟩ := hf
  unfold make_column
  rw [hcol]
  simp only
  rw [hp, apply_tag_type_form _ codes flags hc hfl]
  simp only [hw]
  obtain ⟨a1, a2, a3, a4, _⟩ := apply_attributes_fields flags
    { color := color, fixed := decide (width.getLast? = some 'f'), name := name_part h tag_type,
      type := codes }
  exact ⟨_, rfl, by simpa using a4, by simpa [hn] using a3, by simpa using a1, by simpa using a2⟩
theorem column_from_form {G : Type} (h : Helpers G) (t : Text × Text × Text) (col : Column)
    (codes flags : Text) (label : Option Text) (hc : column_from h t col)
    (hf : brace_form t.2.2 codes flags label) :
    col.type = codes ∧ col.name = label_name h label ∧
      col.right_alignment = decide ('r' ∈ flags) ∧
      col.display_empty_tag = !decide ('E' ∈ flags) := by
  obtain ⟨c0, hm, hs⟩ := hc
  obtain ⟨color, _, w, hcol, _, hw, _⟩ := make_column_ok h _ _ _ c0 hm
  obtain ⟨c1, hm1, a1, a2, a3, a4⟩ := make_column_form h t.1 t.2.1 t.2.2 codes flags label color w
    hf hcol hw
  rw [hm] at hm1
  simp at hm1
  subst hm1
  obtain ⟨s1, s2, _, _, _, s6, s7⟩ := hs
  exact ⟨by rw [s2, a1], by rw [s1, a2], by rw [s6, a3], by rw [s7, a4]⟩

/-! ## C13 -/

/-- C13: for every column `generate_columns` returns whose brace text has the form
`c1|c2|...|ck`, flags, optional `:label` (at least one code, no code being `:`, the
flags not starting with `|`), the type is `c1c2...ck` in the written order and the
name is the text after the first `:`, empty without a `:`; and the extraction of the
types never fails on a brace text of that form. -/
theorem column_type_and_name {G : Type} (h : Helpers G) (format : Text) (cols : List Column)
    (hk : generate_columns h format = .ok cols) :
    List.Forall₂
      (fun t col => ∀ (codes flags : Text) (label : Option Text),
        brace_form t.2.2 codes flags label → col.type = codes ∧ col.name = label_name h label)
      (column_texts h format (format.length + 1) 0) cols ∧
    (∀ (col0 : Column) (tag_type codes flags : Text) (label : Option Text),
      brace_form tag_type codes flags label →
      ∃ c, apply_tag_type col0 (tag_part tag_type) = .ok c ∧ c.type = codes) := by
  constructor
  · refine (generate_columns_columns h format cols hk).imp ?_
    intro t col hc codes flags label hf
    obtain ⟨a1, a2, _, _⟩ := column_from_form h t col codes flags label hc hf
    exact ⟨a1, a2⟩
  · intro col0 tag_type codes flags label hf
    obtain ⟨hp, _⟩ := brace_form_parts h hf
    obtain ⟨_, hc, _, _, hfl⟩ := hf
    rw [hp, apply_tag_type_form _ codes flags hc hfl]
    exact ⟨_, rfl, (apply_attributes_fields flags { col0 with type := codes }).2.2.2.1⟩

/-- Witness of C13: in the default format `{t|f:Title}` gives the type `tf` and the
name `Title`. -/
theorem column_type_and_name_witness :
    generate_columns refHelpers default_columns_format = .ok default_columns ∧
    List.Forall₂
      (fun t col => ∀ (codes flags : Text) (label : Option Text),
        brace_form t.2.2 codes flags label →
        col.type = codes ∧ col.name = label_name refHelpers label)
      (column_texts refHelpers default_columns_format (default_columns_format.length + 1) 0)
      default_columns ∧
    brace_form "t|f:Title".toList ['t', 'f'] [] (some "Title".toList) ∧
    (default_columns.map fun c => (c.type, c.name)) =
      [(['a'], []), (['N'], []), (['t', 'f'], "Title".toList), (['b'], []), (['l'], [])] :=
  ⟨rfl, (column_type_and_name refHelpers default_columns_format default_columns rfl).1,
    ⟨rfl, by simp, by simp, by simp, by simp⟩, rfl⟩

/-! ## C14 -/

/-- C14: for every column `generate_columns` returns: when its brace text has the
form code list, flags, optional label, `right_alignment` is set exactly when the
flags contain `r` and `display_empty_tag` is cleared exactly when the flags contain
`E`, so that a column with neither flag is left-aligned with the placeholder
enabled; when the brace text has nothing before its label (an empty code list), the
column is left-aligned and `display_empty_tag` is cleared. -/
theorem column_flags {G : Type} (h : Helpers G) (format : Text) (cols : List Column)
    (hk : generate_columns h format = .ok cols) :
    List.Forall₂
      (fun t col =>
        (∀ (codes flags : Text) (label : Option Text), brace_form t.2.2 codes flags label →
          (col.right_alignment = true ↔ 'r' ∈ flags) ∧
          (col.display_empty_tag = false ↔ 'E' ∈ flags) ∧
          ('r' ∉ flags → 'E' ∉ flags →
            col.right_alignment = false ∧ col.display_empty_tag = true)) ∧
        (tag_part t.2.2 = [] → col.right_alignment = false ∧ col.display_empty_tag = false))
      (column_texts h format (format.length + 1) 0) cols := by
  refine (generate_columns_columns h format cols hk).imp ?_
  intro t col hc
  constructor
  · intro codes flags label hf
    obtain ⟨_, _, a3, a4⟩ := column_from_form h t col codes flags label hc hf
    rw [a3, a4]
    refine ⟨by simp, by simp, ?_⟩
    intro hr he
    simp [hr, he]
  · intro he
    obtain ⟨c0, hm, hs⟩ := hc
    obtain ⟨color, c, w, _, hc2, _, hcw⟩ := make_column_ok h _ _ _ c0 hm
    rw [he] at hc2
    simp [apply_tag_type] at hc2
    obtain ⟨_, _, _, _, _, s6, s7⟩ := hs
    rw [s6, s7, hcw, ← hc2]
    simp

/-- Witness of C14: in the default format `{NE}` clears the placeholder, and no
column is right-aligned. -/
theorem column_flags_witness :
    generate_columns refHelpers default_columns_format = .ok default_columns ∧
    List.Forall₂
      (fun t col =>
        (∀ (codes flags : Text) (label : Option Text), brace_form t.2.2 codes flags label →
          (col.right_alignment = true ↔ 'r' ∈ flags) ∧
          (col.display_empty_tag = false ↔ 'E' ∈ flags) ∧
          ('r' ∉ flags → 'E' ∉ flags →
            col.right_alignment = false ∧ col.display_empty_tag = true)) ∧
        (tag_part t.2.2 = [] → col.right_alignment = false ∧ col.display_empty_tag = false))
      (column_texts refHelpers default_columns_format (default_columns_format.length + 1) 0)
      default_columns ∧
    brace_form "NE".toList ['N'] ['E'] none ∧
    (default_columns.map fun c => (c.right_alignment, c.display_empty_tag)) =
      [(false, true), (false, false), (false, true), (false, true), (false, true)] ∧
    generate_columns refHelpers "(10)[]{ar}(5)[]{}".toList =
      .ok [{ type := ['a'], width := 10, right_alignment := true },
           { width := 5, stretch_limit := 0, display_empty_tag := false }] :=
  ⟨rfl, column_flags refHelpers default_columns_format default_columns rfl,
    ⟨rfl, by simp, by simp, by simp, by simp⟩, rfl, rfl⟩

/-! ## C15 -/

theorem column_tag_value {G : Type} (h : Helpers G) (column : Column) (s : Song G)
    (hk : ∀ c ∈ column.type, (h.charToGetFunction c).isSome = true) :
    column_tag h column s = .ok (first_non_empty (candidate_texts h column s)) := by
  unfold column_tag candidate_texts
  cases hty : column.type with
  | nil => simp [column_tag_loop, first_non_empty]
  | cons c cs =>
    rw [hty] at hk
    exact column_tag_loop_eq h s (c :: cs) [] hk (by simp)

theorem candidate_texts_all_empty {G : Type} (h : Helpers G) (column : Column) (s : Song G)
    (hall : ∀ c ∈ column.type, ∀ get, h.charToGetFunction c = some get → tag_text h s get = []) :
    first_non_empty (candidate_texts h column s) = [] := by
  rw [first_non_empty_eq_nil]
  intro t ht
  simp only [candidate_texts, List.mem_filterMap] at ht
  obtain ⟨c, hc, hm⟩ := ht
  cases hg : h.charToGetFunction c with
  | none => simp [hg] at hm
  | some get =>
    simp [hg] at hm
    rw [← hm]
    exact hall c hc get hg

/-- C15: for a column all of whose codes are known, drawn for a song: when every
candidate is empty the cell text is `Config.empty_tag` cut to the column width if
the column's `display_empty_tag` is set, and the cut of the empty text (the empty
text, as cutting leaves it empty) if it is cleared; when some candidate is non-empty
the cell text is the cut of the first non-empty candidate, whatever the placeholder
is. -/
theorem cell_text_placeholder {G : Type} (h : Helpers G) (wh : WideHelpers) (empty_tag : Text)
    (column : Column) (s : Song G) (width : Int)
    (hk : ∀ c ∈ column.type, (h.charToGetFunction c).isSome = true) :
    ((∀ c ∈ column.type, ∀ get, h.charToGetFunction c = some get → tag_text h s get = []) →
      (column.display_empty_tag = true →
        cell_text h wh empty_tag column s width =
          .ok (wh.wideCut (h.ToWString empty_tag) width)) ∧
      (column.display_empty_tag = false →
        cell_text h wh empty_tag column s width = .ok (wh.wideCut [] width) ∧
        (wh.wideCut [] width = [] → cell_text h wh empty_tag column s width = .ok []))) ∧
    (first_non_empty (candidate_texts h column s) ≠ [] →
      ∀ other_tag : Text, cell_text h wh other_tag column s width =
        .ok (wh.wideCut (first_non_empty (candidate_texts h column s)) width)) := by
  have h1 := column_tag_value h column s hk
  constructor
  · intro hall
    have he := candidate_texts_all_empty h column s hall
    unfold cell_text
    rw [h1, he]
    refine ⟨?_, ?_⟩
    · intro hd
      simp [hd]
    · intro hd
      refine ⟨by simp [hd], ?_⟩
      intro hc
      simp [hd, hc]
  · intro hne other
    unfold cell_text
    rw [h1]
    simp [hne]

/-- Witness of C15: the column `{b}` with the placeholder `<empty>`, for a song
without album, at width 4 and at width 20. -/
theorem cell_text_placeholder_witness :
    (∀ c ∈ ({ type := ['b'] } : Column).type, (refHelpers.charToGetFunction c).isSome = true) ∧
    cell_text refHelpers refWide "<empty>".toList { type := ['b'] } ⟨fun _ => []⟩ 4 =
      .ok "<emp".toList ∧
    cell_text refHelpers refWide "<empty>".toList { type := ['b'] } ⟨fun _ => []⟩ 20 =
      .ok "<empty>".toList :=
  have hk : ∀ c ∈ ({ type := ['b'] } : Column).type,
      (refHelpers.charToGetFunction c).isSome = true := by
    intro c hc
    simp at hc
    subst hc
    rfl
  ⟨hk,
    ((cell_text_placeholder refHelpers refWide "<empty>".toList { type := ['b'] }
      ⟨fun _ => []⟩ 4 hk).1 (by intro c _ get _; rfl)).1 rfl,
    rfl⟩
/-! ## C16 -/

theorem column_name_loop_eq (type : Text) (hne : type ≠ []) :
    column_name_loop type = ['/'].intercalate (type.map toColumnName) := by
  induction type with
  | nil => exact absurd rfl hne
  | cons c cs ih =>
    cases cs with
    | nil => simp [column_name_loop, List.intercalate]
    | cons d ds =>
      have := ih (by simp)
      simp only [column_name_loop, this]
      simp [List.intercalate]

theorem Columns_loop_cell (wh : WideHelpers) (list_width : Nat) (columns : List Column) :
    ∀ (remained_width : Int) (cell : HeaderCell),
      cell ∈ Columns_loop wh list_width columns remained_width →
      cell.column ∈ columns ∧ cell.name = wh.wideCut (header_name cell.column) cell.width := by
  induction columns with
  | nil => intro r cell hc; simp [Columns_loop] at hc
  | cons it rest ih =>
    intro r cell hc
    unfold Columns_loop at hc
    split at hc
    · obtain ⟨a, b⟩ := ih _ cell hc
      exact ⟨List.mem_cons_of_mem _ a, b⟩
    · split at hc
      · simp at hc
      · rcases List.mem_cons.mp hc with hc | hc
        · subst hc
          exact ⟨List.mem_cons_self _ _, rfl⟩
        · obtain ⟨a, b⟩ := ih _ cell hc
          exact ⟨List.mem_cons_of_mem _ a, b⟩

/-- C16: for every column `Display::Columns` emits, the label written into the
header is the name of the column cut to the width the column gets, where the name
is the explicit name of the column if it has one and otherwise, for a type
`c1...ck` with `k ≥ 1`, the labels of `toColumnName` for `c1`, ..., `ck` joined by
`/`; the labels are those of the table. -/
theorem header_label (wh : WideHelpers) (list_width : Nat) (columns : List Column)
    (cell : HeaderCell)
    (hc : cell ∈ Columns_loop wh list_width columns (int_of_size_t list_width)) :
    (cell.column ∈ columns ∧ cell.name = wh.wideCut (header_name cell.column) cell.width ∧
      (cell.column.name ≠ [] → header_name cell.column = cell.column.name) ∧
      (cell.column.name = [] → cell.column.type ≠ [] →
        header_name cell.column = ['/'].intercalate (cell.column.type.map toColumnName))) ∧
    (toColumnName 'l' = "Time".toList ∧ toColumnName 'f' = "Filename".toList ∧
      toColumnName 'D' = "Directory".toList ∧ toColumnName 'a' = "Artist".toList ∧
      toColumnName 'A' = "Album Artist".toList ∧ toColumnName 't' = "Title".toList ∧
      toColumnName 'b' = "Album".toList ∧ toColumnName 'y' = "Date".toList ∧
      toColumnName 'n' = "Track".toList ∧ toColumnName 'N' = "Track".toList ∧
      toColumnName 'g' = "Genre".toList ∧ toColumnName 'c' = "Composer".toList ∧
      toColumnName 'p' = "Performer".toList ∧ toColumnName 'd' = "Disc".toList ∧
      toColumnName 'C' = "Comment".toList ∧ toColumnName 'P' = "Priority".toList) := by
  obtain ⟨a, b⟩ := Columns_loop_cell wh list_width columns _ cell hc
  refine ⟨⟨a, b, ?_, ?_⟩, by decide⟩
  · intro hn
    simp [header_name, hn]
  · intro hn ht
    simp only [header_name, hn, if_true]
    exact column_name_loop_eq _ ht

/-- Witness of C16: the header of the default columns in a list 80 wide; the third
column has the explicit name `Title`, and a column of type `tf` without a name would
be headed `Title/Filename`. -/
theorem header_label_witness :
    (⟨{ name := "Title".toList, type := ['t', 'f'], width := 50, color := .White }, 39,
        "Title".toList, false⟩ : HeaderCell) ∈
      Columns_loop refWide 80 default_columns (int_of_size_t 80) ∧
    header_name { name := "Title".toList, type := ['t', 'f'], width := 50, color := .White }
      = "Title".toList ∧
    header_name { type := ['t', 'f'] } = "Title/Filename".toList ∧
    Display.Columns refHelpers refWide default_columns 80 =
      "Artist          Track Title                                   Album      Time   ".toList :=
  have hc : (⟨{ name := "Title".toList, type := ['t', 'f'], width := 50, color := .White }, 39,
      "Title".toList, false⟩ : HeaderCell) ∈
      Columns_loop refWide 80 default_columns (int_of_size_t 80) := by decide
  ⟨hc, (header_label refWide 80 default_columns _ hc).1.2.2.1 (by decide), by decide, by decide⟩

namespace Format

/-! ## C17 -/

theorem parseItems_escape (reg : Registry) (total fuel : Nat) (d : Char) (rest : Text)
    (acc : List (Expression Char)) (lit : Text) (hd : reserved d = true) :
    parseItems reg total (fuel + 1) ('\\' :: d :: rest) acc lit =
      parseItems reg total fuel rest acc (lit ++ [d]) := by
  rw [parseItems_cons]
  simp [hd]

theorem parseItems_plain (reg : Registry) (total fuel : Nat) (c : Char) (rest : Text)
    (acc : List (Expression Char)) (lit : Text) (hc : reserved c = false) :
    parseItems reg total (fuel + 1) (c :: rest) acc lit =
      parseItems reg total fuel rest acc (lit ++ [c]) := by
  obtain ⟨h1, h2, h3, h4, h5, h6⟩ := reserved_false c hc
  rw [parseItems_cons]
  simp [h1, h2, h3, h4, h5, h6]

theorem parseItems_escapeReserved (reg : Registry) (total : Nat) (s : Text) :
    ∀ (fuel : Nat) (acc : List (Expression Char)) (lit : Text),
      (escapeReserved s).length < fuel →
      parseItems reg total fuel (escapeReserved s) acc lit =
        .ok ⟨flushLiteral acc (lit ++ s), false, false, []⟩ := by
  induction s with
  | nil =>
    intro fuel acc lit hf
    cases fuel with
    | zero => simp at hf
    | succ n => simp [escapeReserved, parseItems_nil]
  | cons c cs ih =>
    intro fuel acc lit hf
    cases fuel with
    | zero => simp at hf
    | succ n =>
      unfold escapeReserved at hf ⊢
      by_cases hc : reserved c = true
      · rw [if_pos hc] at hf ⊢
        rw [parseItems_escape reg total n c _ acc lit hc, ih n acc (lit ++ [c]) (by
          simp at hf; omega)]
        simp
      · rw [if_neg hc] at hf ⊢
        rw [parseItems_plain reg total n c _ acc lit (by simpa using hc),
          ih n acc (lit ++ [c]) (by simp at hf; omega)]
        simp

/-- C17: in every template, at every place where the parser stands, a backslash
followed by the reserved character `d` appends `d` to the pending literal text and
parsing goes on after both characters; so the template that writes a text `s` with
each reserved character escaped parses to the one literal `s`, an AST without any
group, which renders `s` under every record and flag set; in particular
`\{literal\}` renders `{literal}`. -/
theorem escaped_reserved_is_literal (reg : Registry) (d : Char) (hd : reserved d = true) :
    (∀ (total fuel : Nat) (rest : Text) (acc : List (Expression Char)) (lit : Text),
      parseItems reg total (fuel + 1) ('\\' :: d :: rest) acc lit =
        parseItems reg total fuel rest acc (lit ++ [d])) ∧
    (∀ (c : Char) (cs : Text) (flags : Flags),
      parse reg (escapeReserved (c :: cs)) flags = .ok [.Literal (c :: cs)] ∧
      ∀ (record : Record Char) (f : Flags), (render [.Literal (c :: cs)] record f).text = c :: cs) ∧
    (escapeReserved "{literal}".toList = "\\\x7bliteral\\\x7d".toList ∧
      ∀ flags, parse reg "\\\x7bliteral\\\x7d".toList flags = .ok [.Literal "{literal}".toList]) := by
  refine ⟨fun total fuel rest acc lit => parseItems_escape reg total fuel d rest acc lit hd,
    ?_, by decide, ?_⟩
  · intro c cs flags
    constructor
    · unfold parse
      rw [parseItems_escapeReserved reg _ (c :: cs) _ [] [] (by omega)]
      simp [flushLiteral]
    · intro record f
      simp [render, evalSeq, evalExpr, Out.emit, Out.append, Out.empty, Out.text, eventsText]
  · intro flags
    have : "\\\x7bliteral\\\x7d".toList = escapeReserved "{literal}".toList := by decide
    rw [this]
    unfold parse
    rw [parseItems_escapeReserved reg _ _ _ [] [] (by omega)]
    simp [flushLiteral]

/-- Witness of C17: the escaped brace `\{`, and the template `\{literal\}`. -/
theorem escaped_reserved_is_literal_witness :
    reserved '{' = true ∧
    parse specRegistry "\\\x7bliteral\\\x7d".toList Flags.All = .ok [.Literal "{literal}".toList] ∧
    (render (G := Char) [.Literal "{literal}".toList] noSong Flags.All).text
      = "{literal}".toList :=
  have hd : reserved '{' = true := by decide
  ⟨hd, (escaped_reserved_is_literal specRegistry '{' hd).2.2.2 Flags.All,
    ((escaped_reserved_is_literal specRegistry '{' hd).2.1 '{' "literal\x7d".toList Flags.All).2
      noSong Flags.All⟩

end Format

/-! ## C18 -/

namespace Format

theorem Out.text_append (a b : Out) (h : a.trailing = [] ∨ b.main = []) :
    (a.append b).text = a.text ++ b.text := by
  rcases h with h | h <;> simp [Out.text, Out.append, eventsText, h]

theorem evalExpr_leaf_text {G : Type} (r : Record G) (f : Flags) (st : Style) (sw : Bool)
    (e : Expression G) (he : e.isLeaf = true) :
    (evalExpr r f st sw e).text = e.ownText r := by
  cases e with
  | Literal t => cases sw <;> simp [evalExpr, Out.emit, Out.text, eventsText, Expression.ownText]
  | FirstOf cs =>
    cases h : resolve r cs <;> cases sw <;>
      simp [evalExpr, h, Out.emit, Out.text, eventsText, Expression.ownText]
  | Group body opt => simp [Expression.isLeaf] at he
  | Alternative l r => simp [Expression.isLeaf] at he
  | ColorDirective c =>
    simp only [evalExpr]; split <;> simp [Out.empty, Out.text, eventsText, Expression.ownText]
  | AttributeDirective k b =>
    simp only [evalExpr]; split <;> simp [Out.empty, Out.text, eventsText, Expression.ownText]
  | OutputSwitchMarker =>
    simp only [evalExpr]; split <;> simp [Out.empty, Out.text, eventsText, Expression.ownText]

theorem evalSeq_leaf_text {G : Type} (r : Record G) (f : Flags) (l : List (Expression G)) :
    ∀ (st : Style) (sw : Bool), (∀ e ∈ l, e.isLeaf = true) →
      (evalSeq r f st sw l).text = sourceText r l := by
  induction l with
  | nil => intro st sw _; simp [evalSeq_nil, Out.empty, Out.text, eventsText, sourceText]
  | cons e es ih =>
    intro st sw h
    have h1 := evalExpr_leaf_text r f st sw e (h e (List.mem_cons_self _ _))
    have h2 := ih (evalExpr r f st sw e).style (evalExpr r f st sw e).switched
      (fun x hx => h x (List.mem_cons_of_mem _ hx))
    have sa := evalExpr_switch r f e st sw
    have sb := evalSeq_switch r f es (evalExpr r f st sw e).style (evalExpr r f st sw e).switched
    rw [evalSeq_cons, Out.text_append, h1, h2]
    · simp [sourceText]
    · rcases Bool.eq_false_or_eq_true (evalExpr r f st sw e).switched with hs | hs
      · exact Or.inr (sb.1 hs).1
      · exact Or.inl (sa.2.2 hs)

end Format

theorem columns_to_format_leaf {G : Type} (h : Helpers G) (columns : List Column) :
    ∀ (ast : Format.AST G), columns_to_format h columns = .ok ast →
      ∀ e ∈ ast, e.isLeaf = true := by
  induction columns with
  | nil => intro ast hk; simp [columns_to_format] at hk
  | cons c cs ih =>
    intro ast hk
    unfold columns_to_format at hk
    cases hf : first_of_column h c.type with
    | error e => rw [hf] at hk; simp at hk
    | ok fo =>
      rw [hf] at hk
      simp only at hk
      cases cs with
      | nil =>
        simp at hk
        subst hk
        intro e he
        simp at he
        subst he
        rfl
      | cons n more =>
        simp only at hk
        cases hr : columns_to_format h (n :: more) with
        | error e => rw [hr] at hk; simp at hk
        | ok result =>
          rw [hr] at hk
          simp at hk
          subst hk
          intro e he
          simp only [List.mem_cons] at he
          rcases he with he | he | he
          · subst he; rfl
          · subst he; rfl
          · exact ih result hr e he

/-- C18: for every AST without `Group` and `Alternative`, every record and every
flag set, the rendered text is the concatenation, in source order, of the literals
and the field substitutions, so it is the same under any two flag sets; the AST
`columns_to_format` builds is of that kind, and `SongToString` in column mode gives
that concatenation. -/
theorem flat_template_text {G : Type} (ast : Format.AST G)
    (hflat : ∀ e ∈ ast, e.isLeaf = true) :
    (∀ (record : Format.Record G) (flags : Format.Flags),
      (Format.render ast record flags).text = Format.sourceText record ast ∧
      Format.stringify ast (some record) = Format.sourceText record ast) ∧
    (∀ (record : Format.Record G) (f1 f2 : Format.Flags),
      (Format.render ast record f1).text = (Format.render ast record f2).text) ∧
    (∀ (h : Helpers G) (columns : List Column) (columns_ast other : Format.AST G) (s : Song G),
      columns_to_format h columns = .ok columns_ast →
      (∀ e ∈ columns_ast, e.isLeaf = true) ∧
      SongToString .Columns other columns_ast s = Format.sourceText s.record columns_ast) := by
  refine ⟨?_, ?_, ?_⟩
  · intro record flags
    exact ⟨Format.evalSeq_leaf_text record flags ast _ _ hflat,
      Format.evalSeq_leaf_text record Format.Flags.Tag ast _ _ hflat⟩
  · intro record f1 f2
    rw [show (Format.render ast record f1).text = Format.sourceText record ast from
        Format.evalSeq_leaf_text record f1 ast _ _ hflat,
      show (Format.render ast record f2).text = Format.sourceText record ast from
        Format.evalSeq_leaf_text record f2 ast _ _ hflat]
  · intro h columns columns_ast other s hk
    have hl := columns_to_format_leaf h columns columns_ast hk
    exact ⟨hl, Format.evalSeq_leaf_text s.record Format.Flags.Tag columns_ast _ _ hl⟩

/-- Witness of C18: the AST of the default columns, stringified for a song. -/
theorem flat_template_text_witness :
    (∀ e ∈ ([.FirstOf ['a'], .Literal [' '], .FirstOf ['t', 'f']] : Format.AST Char),
      e.isLeaf = true) ∧
    columns_to_format refHelpers [{ type := ['a'] }, { type := ['t', 'f'] }] =
      .ok [.FirstOf ['a'], .Literal [' '], .FirstOf ['t', 'f']] ∧
    (Format.render [.FirstOf ['a'], .Literal [' '], .FirstOf ['t', 'f']]
      (fun c => if c = 'f' then some "x.mp3".toList else if c = 'a' then some "Abba".toList
        else none) Format.Flags.All).text = "Abba x.mp3".toList :=
  have hflat : ∀ e ∈ ([.FirstOf ['a'], .Literal [' '], .FirstOf ['t', 'f']] : Format.AST Char),
      e.isLeaf = true := by
    intro e he
    simp at he
    rcases he with rfl | rfl | rfl <;> rfl
  ⟨hflat, rfl,
    ((flat_template_text [.FirstOf ['a'], .Literal [' '], .FirstOf ['t', 'f']] hflat).1
      (fun c => if c = 'f' then some "x.mp3".toList else if c = 'a' then some "Abba".toList
        else none) Format.Flags.All).1.trans (by decide)⟩

/-! ## C19 -/

/-- C19: two parses of the same template text with the same flags give the same
AST, so the two ASTs render the same result (main events, trailing events, final
style) for every record and every flag set; the two ASTs the worker of
`song_status_format` keeps are equal when the wide string has the characters of the
template. -/
theorem parse_deterministic (reg : Format.Registry) (text : Text) (flags : Format.Flags)
    (ast1 ast2 : Format.AST Char) (h1 : Format.parse reg text flags = .ok ast1)
    (h2 : Format.parse reg text flags = .ok ast2) :
    ast1 = ast2 ∧
    (∀ (record : Format.Record Char) (f : Format.Flags),
      Format.render ast1 record f = Format.render ast2 record f ∧
      (Format.render ast1 record f).main = (Format.render ast2 record f).main ∧
      (Format.render ast1 record f).trailing = (Format.render ast2 record f).trailing) ∧
    (∀ (G : Type) (h : Helpers G) (w a : Format.AST Char), h.ToWString text = text →
      song_status_format_worker h reg text = .ok (w, a) → w = a) := by
  have he : ast1 = ast2 := by
    rw [h1] at h2
    simpa using h2
  subst he
  refine ⟨rfl, fun _ _ => ⟨rfl, rfl, rfl⟩, ?_⟩
  intro G h w a hw hk
  unfold song_status_format_worker at hk
  rw [hw] at hk
  cases hp : Format.parse reg text (Format.Flags.All.xor Format.Flags.OutputSwitch) with
  | error e => rw [hp] at hk; simp at hk
  | ok x =>
    rw [hp] at hk
    simp at hk
    rw [← hk.1, ← hk.2]

/-- Witness of C19: the template `{%t}|{%f}`, parsed twice. -/
theorem parse_deterministic_witness :
    Format.parse Format.specRegistry "{%t}|{%f}".toList Format.Flags.All =
      .ok [.Alternative [.Group [.FirstOf ['t']] true] [.Group [.FirstOf ['f']] true]] ∧
    ∀ (record : Format.Record Char) (f : Format.Flags),
      Format.render
        [.Alternative [.Group [.FirstOf ['t']] true] [.Group [.FirstOf ['f']] true]] record f =
      Format.render
        [.Alternative [.Group [.FirstOf ['t']] true] [.Group [.FirstOf ['f']] true]] record f :=
  ⟨rfl, fun record f =>
    ((parse_deterministic Format.specRegistry "{%t}|{%f}".toList Format.Flags.All
      [.Alternative [.Group [.FirstOf ['t']] true] [.Group [.FirstOf ['f']] true]]
      [.Alternative [.Group [.FirstOf ['t']] true] [.Group [.FirstOf ['f']] true]]
      rfl rfl).2.1 record f).1⟩

/-! ## C20 -/

namespace Format

/-- C20: a group that is suppressed emits no event at all and leaves the style state
and the output switch as they were before it, directives inside it included; a
sequence with a suppressed group renders as the sequence without it; a group whose
subtree has field references, none of which resolves to non-empty text (and no
alternative), is suppressed; in particular `{$3(%l)$9}` emits nothing for a song
without length. -/
theorem suppressed_group_emits_nothing {G : Type} (r : Record G) (f : Flags) (st : Style)
    (sw : Bool) (body : List (Expression G)) (opt : Bool)
    (hs : groupVisible r f st sw body = false) :
    evalExpr r f st sw (.Group body opt) = ⟨[], [], st, sw, true, false⟩ ∧
    (∀ (pre post : List (Expression G)) (st0 : Style) (sw0 : Bool),
      (evalSeq r f st0 sw0 pre).style = st → (evalSeq r f st0 sw0 pre).switched = sw →
      (evalSeq r f st0 sw0 (pre ++ .Group body opt :: post)).main =
        (evalSeq r f st0 sw0 (pre ++ post)).main ∧
      (evalSeq r f st0 sw0 (pre ++ .Group body opt :: post)).trailing =
        (evalSeq r f st0 sw0 (pre ++ post)).trailing ∧
      (evalSeq r f st0 sw0 (pre ++ .Group body opt :: post)).style =
        (evalSeq r f st0 sw0 (pre ++ post)).style ∧
      (evalSeq r f st0 sw0 (pre ++ .Group body opt :: post)).switched =
        (evalSeq r f st0 sw0 (pre ++ post)).switched) ∧
    (∀ (body2 : List (Expression G)) (st2 : Style) (sw2 : Bool), altFreeSeq body2 = true →
      hasFieldRefSeq body2 = true → anyFieldNonEmptySeq r body2 = false →
      groupVisible r f st2 sw2 body2 = false) ∧
    (∀ (song : Record Char) (flags : Flags), (song 'l').getD [] = [] →
      ∃ ast, parse specRegistry "{$3(%l)$9}".toList flags = .ok ast ∧
        (render ast song flags).main = [] ∧ (render ast song flags).trailing = [] ∧
        (render ast song flags).style = Style.initial) := by
  have hg : evalExpr r f st sw (.Group body opt) = ⟨[], [], st, sw, true, false⟩ := by
    rw [evalExpr_Group]
    simp only [groupVisible, Bool.not_eq_false'] at hs
    simp [Out.asGroup, hs]
  have hstatic : ∀ (body2 : List (Expression G)) (st2 : Style) (sw2 : Bool),
      altFreeSeq body2 = true → hasFieldRefSeq body2 = true →
      anyFieldNonEmptySeq r body2 = false → groupVisible r f st2 sw2 body2 = false := by
    intro body2 st2 sw2 ha hr hn
    have ih := evalSeq_refs_hit r f body2 st2 sw2 ha
    simp [groupVisible, Out.suppressed, ih.1, ih.2, hr, hn]
  refine ⟨hg, ?_, hstatic, ?_⟩
  · intro pre post st0 sw0 h1 h2
    rw [evalSeq_append, evalSeq_append, evalSeq_cons, h1, h2, hg]
    simp [Out.append]
  · intro song flags hl
    refine ⟨[.Group [.ColorDirective (.slot 3), .Literal ['('], .FirstOf ['l'], .Literal [')'],
      .ColorDirective (.slot 9)] true], rfl, ?_⟩
    have hres : resolve song ['l'] = [] := by rw [resolve_single]; exact hl
    have ih := evalSeq_refs_hit song flags
      [.ColorDirective (.slot 3), .Literal ['('], .FirstOf ['l'], .Literal [')'],
        .ColorDirective (.slot 9)] Style.initial false (by decide)
    have hb : (evalSeq song flags Style.initial false
        [.ColorDirective (.slot 3), .Literal ['('], .FirstOf ['l'], .Literal [')'],
          .ColorDirective (.slot 9)]).suppressed = true := by
      simp [Out.suppressed, ih.1, ih.2, hasFieldRefSeq, Expression.hasFieldRef,
        anyFieldNonEmptySeq, Expression.anyFieldNonEmpty, hres]
    unfold render
    rw [evalSeq_cons, evalExpr_Group, evalSeq_nil]
    simp [Out.asGroup, hb, Out.append, Out.empty]

/-- Witness of C20: the group `{$3(%l)$9}` for a song without length, under all
flags. -/
theorem suppressed_group_emits_nothing_witness :
    groupVisible (G := Char) noSong Flags.All Style.initial false
      [.ColorDirective (.slot 3), .Literal ['('], .FirstOf ['l'], .Literal [')'],
        .ColorDirective (.slot 9)] = false ∧
    evalExpr (G := Char) noSong Flags.All Style.initial false
      (.Group [.ColorDirective (.slot 3), .Literal ['('], .FirstOf ['l'], .Literal [')'],
        .ColorDirective (.slot 9)] true) = ⟨[], [], Style.initial, false, true, false⟩ :=
  have hs : groupVisible (G := Char) noSong Flags.All Style.initial false
      [.ColorDirective (.slot 3), .Literal ['('], .FirstOf ['l'], .Literal [')'],
        .ColorDirective (.slot 9)] = false := by decide
  ⟨hs, (suppressed_group_emits_nothing noSong Flags.All Style.initial false _ true hs).1⟩

end Format

/-! ## C21 -/

/-- C21: the option `default_place_to_search_in` as the code reads it.  The value
"playlist" sets `search_in_db` to true, as "database" and the default do; no value of
the option makes `search_in_db` false. -/
theorem default_place_to_search_in_playlist :
    default_place_to_search_in (some "playlist".toList) = .ok true ∧
      default_place_to_search_in (some "database".toList) = .ok true ∧
      default_place_to_search_in none = .ok true ∧
      default_place_to_search_in (some "files".toList) =
        .error "invalid argument: files".toList ∧
      ∀ value, default_place_to_search_in value ≠ .ok false := by
  refine ⟨rfl, rfl, rfl, rfl, ?_⟩
  intro value
  cases value with
  | none => simp [default_place_to_search_in]
  | some v =>
    simp only [default_place_to_search_in, default_place_to_search_in_worker]
    split
    · simp
    · split <;> simp

/-! ## C30 -/

/-- C30: for the brace text `a|` the loop which extracts the code list reads
`tag_type[3]`, beyond the terminating character at index 2: the format
`(10)[]{a|}` makes `generate_columns` read out of the range of the string. -/
theorem brace_text_read_past_end :
    refHelpers.getEnclosedString "(10)[]{a|}".toList '{' '}' 6 = ("a|".toList, 10) ∧
      strAt "a|".toList 2 = .ok (Char.ofNat 0) ∧
      strAt "a|".toList 3 = .error .out_of_range ∧
      extract_tag_types "a|".toList 3 0 [] = .error .out_of_range ∧
      generate_columns refHelpers "(10)[]{a|}".toList = .error .out_of_range := by
  refine ⟨by decide, rfl, rfl, rfl, rfl⟩

/-! ## C22 -/

theorem first_of_column_ok {G : Type} (h : Helpers G) (type : Text)
    (hknown : ∀ x ∈ type, (h.charToGetFunction x).isSome = true) :
    ∃ fs, first_of_column h type = .ok fs ∧ fs.map some = type.map h.charToGetFunction := by
  induction type with
  | nil => exact ⟨[], rfl, rfl⟩
  | cons x xs ih =>
    obtain ⟨fs, hfs, hmap⟩ := ih (fun y hy => hknown y (List.mem_cons_of_mem _ hy))
    have hx := hknown x (List.mem_cons_self _ _)
    obtain ⟨f, hf⟩ := Option.isSome_iff_exists.mp hx
    refine ⟨f :: fs, ?_, ?_⟩
    · simp only [first_of_column, hf, hfs]
    · simp [hf, hmap]

/-- C22: for a non-empty list of `n` columns whose codes all have an accessor (which
`columns_to_format` asserts), `columns_to_format` returns an AST of `2n-1`
expressions: position `2i` holds the `FirstOf` of the accessors of the codes of
column `i`, in their order, every odd position holds the literal of one space, and
every node is one of the two, so none is a group, an alternative or a directive. -/
theorem columns_to_format_shape {G : Type} (h : Helpers G) (columns : List Column)
    (hne : columns ≠ [])
    (hknown : ∀ c ∈ columns, ∀ x ∈ c.type, (h.charToGetFunction x).isSome = true) :
    ∃ ast, columns_to_format h columns = .ok ast ∧
      ast.length = 2 * columns.length - 1 ∧
      (∀ i c, columns[i]? = some c → ∃ fs, ast[2 * i]? = some (.FirstOf fs) ∧
          fs.map some = c.type.map h.charToGetFunction) ∧
      (∀ i, 2 * i + 1 < ast.length → ast[2 * i + 1]? = some (.Literal [' '])) ∧
      ∀ e ∈ ast, (∃ fs, e = .FirstOf fs) ∨ e = .Literal [' '] := by
  induction columns with
  | nil => exact absurd rfl hne
  | cons c cs ih =>
    obtain ⟨fo, hfo, hmap⟩ := first_of_column_ok h c.type (hknown c (List.mem_cons_self _ _))
    cases cs with
    | nil =>
      refine ⟨[.FirstOf fo], ?_, rfl, ?_, ?_, ?_⟩
      · simp only [columns_to_format, hfo]
      · intro i d hi
        cases i with
        | zero =>
          simp at hi
          subst hi
          exact ⟨fo, rfl, hmap⟩
        | succ k => simp at hi
      · intro i hi
        simp at hi
      · intro e he
        simp at he
        exact Or.inl ⟨fo, he⟩
    | cons n more =>
      obtain ⟨result, hres, hlen, hpos, hodd, hall⟩ :=
        ih (by simp) (fun d hd => hknown d (List.mem_cons_of_mem _ hd))
      refine ⟨.FirstOf fo :: .Literal [' '] :: result, ?_, ?_, ?_, ?_, ?_⟩
      · simp only [columns_to_format, hfo, hres]
      · simp only [List.length_cons] at hlen ⊢
        omega
      · intro i d hi
        cases i with
        | zero =>
          simp at hi
          subst hi
          exact ⟨fo, rfl, hmap⟩
        | succ k =>
          rw [List.getElem?_cons_succ] at hi
          obtain ⟨fs, hfs, hm⟩ := hpos k d hi
          refine ⟨fs, ?_, hm⟩
          have : 2 * (k + 1) = 2 * k + 1 + 1 := by ring
          rw [this, List.getElem?_cons_succ, List.getElem?_cons_succ]
          exact hfs
      · intro i hi
        cases i with
        | zero => simp
        | succ k =>
          have : 2 * (k + 1) + 1 = 2 * k + 1 + 1 + 1 := by ring
          rw [this, List.getElem?_cons_succ, List.getElem?_cons_succ]
          apply hodd
          simp only [List.length_cons] at hi
          omega
      · intro e he
        simp only [List.mem_cons] at he
        rcases he with he | he | he
        · exact Or.inl ⟨fo, he⟩
        · exact Or.inr he
        · exact hall e he

theorem columns_to_format_shape_witness :
    ∃ ast, columns_to_format refHelpers default_columns = .ok ast ∧
      ast.length = 2 * default_columns.length - 1 ∧
      (∀ i c, default_columns[i]? = some c → ∃ fs, ast[2 * i]? = some (.FirstOf fs) ∧
          fs.map some = c.type.map refHelpers.charToGetFunction) ∧
      (∀ i, 2 * i + 1 < ast.length → ast[2 * i + 1]? = some (.Literal [' '])) ∧
      ∀ e ∈ ast, (∃ fs, e = .FirstOf fs) ∨ e = .Literal [' '] :=
  columns_to_format_shape refHelpers default_columns (by decide) (by decide)

/-! ## C25 -/

theorem make_column_stretch_limit {G : Type} (h : Helpers G) (width scolor tag_type : Text)
    (col : Column) (hk : make_column h width scolor tag_type = .ok col) :
    col.stretch_limit = -1 := by
  obtain ⟨color, c, w, _, hc, _, he⟩ := make_column_ok h width scolor tag_type col hk
  obtain ⟨_, _, a3, _, _⟩ := apply_tag_type_keeps _ _ _ hc
  subst he
  simpa using a3

theorem forall₂_right_all {α β : Type} {R : α → β → Prop} {P : β → Prop}
    {l1 : List α} {l2 : List β} (h : List.Forall₂ R l1 l2) (hp : ∀ a b, R a b → P b) :
    ∀ b ∈ l2, P b := by
  induction h with
  | nil => intro b hb; simp at hb
  | cons hab _ ih =>
    intro b hb
    rcases List.mem_cons.mp hb with hb | hb
    · subst hb
      exact hp _ _ hab
    · exact ih b hb

theorem generate_columns_loop_stretch_limit {G : Type} (h : Helpers G) (format : Text)
    (cols : List Column)
    (hk : generate_columns_loop h format (format.length + 1) 0 [] = .ok cols) :
    ∀ c ∈ cols, c.stretch_limit = -1 := by
  obtain ⟨new, h1, h2⟩ := generate_columns_loop_columns h format _ _ _ _ hk
  simp at h1
  subst h1
  exact forall₂_right_all h2 (fun t c htc => make_column_stretch_limit h _ _ _ _ htc)

theorem set_stretch_limit_fixed (l : List Column) :
    ∀ (a : Int), (∀ c ∈ l, c.fixed = true) → set_stretch_limit l a = l := by
  induction l with
  | nil => intro a _; rfl
  | cons c cs ih =>
    intro a hf
    unfold set_stretch_limit
    rw [if_pos (hf c (List.mem_cons_self _ _)),
      ih _ (fun d hd => hf d (List.mem_cons_of_mem _ hd))]

theorem int_add_wrap (a w s : Int) : int_wrap (int_add a w + s) = int_wrap (a + (w + s)) := by
  unfold int_wrap int_add
  omega

theorem int_wrap_int_add (a w : Int) : int_wrap (int_add a w) = int_add a w := by
  unfold int_wrap int_add
  omega

theorem set_stretch_limit_split (fx : List Column) (r : Column) (rest : List Column)
    (hr : r.fixed = false) :
    ∀ (a : Int), int_wrap a = a → (∀ c ∈ fx, c.fixed = true) →
      set_stretch_limit (fx ++ r :: rest) a =
        fx ++ { r with stretch_limit := int_wrap (a + widths_sum fx) } :: rest := by
  induction fx with
  | nil =>
    intro a ha _
    simp [set_stretch_limit, hr, widths_sum, ha]
  | cons c cs ih =>
    intro a ha hf
    have hc := hf c (List.mem_cons_self _ _)
    rw [List.cons_append, set_stretch_limit, if_pos hc]
    rw [ih (int_add a c.width) (int_wrap_int_add a c.width)
      (fun d hd => hf d (List.mem_cons_of_mem _ hd)), int_add_wrap]
    simp [widths_sum]

theorem first_relative_split (l : List Column) (hex : ∃ c ∈ l, c.fixed = false) :
    ∃ fx r rest, l = fx ++ r :: rest ∧ (∀ c ∈ fx, c.fixed = true) ∧ r.fixed = false := by
  induction l with
  | nil => simp at hex
  | cons c cs ih =>
    by_cases hc : c.fixed = true
    · obtain ⟨d, hd, hdf⟩ := hex
      have hd2 : d ∈ cs := by
        rcases List.mem_cons.mp hd with hd | hd
        · subst hd; rw [hc] at hdf; cases hdf
        · exact hd
      obtain ⟨fx, r, rest, h1, h2, h3⟩ := ih ⟨d, hd2, hdf⟩
      refine ⟨c :: fx, r, rest, by simp [h1], ?_, h3⟩
      intro x hx
      rcases List.mem_cons.mp hx with hx | hx
      · subst hx; exact hc
      · exact h2 x hx
    · exact ⟨[], c, cs, rfl, by simp, by simpa using hc⟩

theorem widths_sum_reverse (l : List Column) : widths_sum l.reverse = widths_sum l := by
  simp [widths_sum, List.sum_reverse]

theorem generate_columns_stretch {G : Type} (h : Helpers G) (format : Text)
    (cols : List Column) (hk : generate_columns h format = .ok cols) :
    ((∀ c ∈ cols, c.fixed = true) ∧ ∀ c ∈ cols, c.stretch_limit = -1) ∨
    ∃ pre r post, cols = pre ++ r :: post ∧ r.fixed = false ∧
      (∀ c ∈ post, c.fixed = true) ∧
      r.stretch_limit = int_wrap (widths_sum post) ∧
      ∀ c ∈ pre ++ post, c.stretch_limit = -1 := by
  unfold generate_columns at hk
  cases hl : generate_columns_loop h format (format.length + 1) 0 [] with
  | error e => rw [hl] at hk; simp at hk
  | ok result =>
    rw [hl] at hk
    simp only [Except.ok.injEq] at hk
    have hs := generate_columns_loop_stretch_limit h format result hl
    by_cases hall : ∀ c ∈ result, c.fixed = true
    · left
      rw [set_stretch_limit_fixed _ _ (by simpa using hall), List.reverse_reverse] at hk
      subst hk
      exact ⟨hall, hs⟩
    · right
      have hex : ∃ c ∈ result.reverse, c.fixed = false := by
        push_neg at hall
        obtain ⟨c, hc, hcf⟩ := hall
        exact ⟨c, by simpa using hc, by simpa using hcf⟩
      obtain ⟨fx, r, rest, h1, h2, h3⟩ := first_relative_split _ hex
      rw [h1, set_stretch_limit_split fx r rest h3 0 (by decide) h2] at hk
      have hres : result = rest.reverse ++ r :: fx.reverse := by
        have := congrArg List.reverse h1
        simpa using this
      refine ⟨rest.reverse, { r with stretch_limit := int_wrap (0 + widths_sum fx) },
        fx.reverse, ?_, h3, ?_, ?_, ?_⟩
      · rw [← hk]; simp
      · intro c hc; exact h2 c (by simpa using hc)
      · simp [widths_sum_reverse]
      · intro c hc
        apply hs
        rw [hres]
        simp only [List.mem_append, List.mem_cons] at hc ⊢
        tauto

/-- C25, amended: in a column list `generate_columns` returns, if every column is
fixed then every `stretch_limit` is -1; if some column has relative width, the list
is `pre`, the last column `r` of relative width, and the fixed columns `post`, where
every column but `r` has `stretch_limit` -1 and that of `r` is the sum of the widths
of `post` as `int` arithmetic adds it up: the sum itself whenever it fits in an
`int`. -/
theorem stretch_limit_of_last_relative {G : Type} (h : Helpers G) (format : Text)
    (cols : List Column) (hk : generate_columns h format = .ok cols) :
    ((∀ c ∈ cols, c.fixed = true) → ∀ c ∈ cols, c.stretch_limit = -1) ∧
    ((∃ c ∈ cols, c.fixed = false) →
      ∃ pre r post, cols = pre ++ r :: post ∧ r.fixed = false ∧
        (∀ c ∈ post, c.fixed = true) ∧
        r.stretch_limit = int_wrap (widths_sum post) ∧
        (is_int (widths_sum post) → r.stretch_limit = widths_sum post) ∧
        ∀ c ∈ pre ++ post, c.stretch_limit = -1) := by
  rcases generate_columns_stretch h format cols hk with ⟨hf, hs⟩ | ⟨pre, r, post, h1, h2, h3, h4, h5⟩
  · refine ⟨fun _ => hs, ?_⟩
    rintro ⟨c, hc, hcf⟩
    rw [hf c hc] at hcf
    cases hcf
  · refine ⟨?_, fun _ => ⟨pre, r, post, h1, h2, h3, h4, ?_, h5⟩⟩
    · intro hf
      have := hf r (by rw [h1]; simp)
      rw [h2] at this
      cases this
    · intro hi
      rw [h4]
      unfold is_int at hi
      unfold int_wrap
      omega

theorem stretch_limit_of_last_relative_witness :
    ((∀ c ∈ default_columns, c.fixed = true) → ∀ c ∈ default_columns, c.stretch_limit = -1) ∧
    ((∃ c ∈ default_columns, c.fixed = false) →
      ∃ pre r post, default_columns = pre ++ r :: post ∧ r.fixed = false ∧
        (∀ c ∈ post, c.fixed = true) ∧
        r.stretch_limit = int_wrap (widths_sum post) ∧
        (is_int (widths_sum post) → r.stretch_limit = widths_sum post) ∧
        ∀ c ∈ pre ++ post, c.stretch_limit = -1) :=
  stretch_limit_of_last_relative refHelpers default_columns_format default_columns
    default_columns_eq

/-- C25, counterexample: in the list `generate_columns` returns for a relative column
followed by fixed columns of widths 2147483647 and 1, the relative column is the last
one of relative width and its `stretch_limit` is -2147483648, not the sum 2147483648
of the widths after it. -/
theorem stretch_limit_sum_counterexample :
    generate_columns refHelpers wide_columns_format =
      .ok [{ type := ['a'], width := 10, stretch_limit := -2147483648 },
           { type := ['b'], width := 2147483647, fixed := true },
           { type := ['l'], width := 1, fixed := true }] ∧
      widths_sum [{ type := ['b'], width := 2147483647, fixed := true },
           { type := ['l'], width := 1, fixed := true }] = 2147483648 :=
  ⟨rfl, rfl⟩

/-! ## C29 -/

namespace Statusbar

theorem print_then_tryRedraw_unlocks (statusbar_visibility : Bool) (Timer later delay : Int)
    (message : Text) (s : State) (hs : s.statusbar_allow_unlock = true) (hd : 0 < delay)
    (hl : later - Timer > seconds delay) :
    (tryRedraw statusbar_visibility later
        (print statusbar_visibility Timer delay message s)).statusbar_lock_delay = -1 ∧
      locked_bar_isUnlocked statusbar_visibility
        (tryRedraw statusbar_visibility later
          (print statusbar_visibility Timer delay message s)) = true := by
  cases statusbar_visibility <;>
    simp [print, tryRedraw, hs, hd, hl, locked_bar_isUnlocked, isUnlocked,
      Progressbar_isUnlocked]

/-- C29: after `print` with delay 0, run from the initial state of the file (no
`ScopedLock` alive), `tryRedraw` changes nothing at whatever time it is called: the
lock delay stays 0, which is not negative, and the bar which `print` locked stays
locked. -/
theorem print_zero_delay_stays_locked (statusbar_visibility : Bool) (Timer later : Int)
    (message : Text) :
    tryRedraw statusbar_visibility later (print statusbar_visibility Timer 0 message {}) =
        print statusbar_visibility Timer 0 message {} ∧
      (tryRedraw statusbar_visibility later
        (print statusbar_visibility Timer 0 message {})).statusbar_lock_delay = 0 ∧
      locked_bar_isUnlocked statusbar_visibility
        (tryRedraw statusbar_visibility later
          (print statusbar_visibility Timer 0 message {})) = false := by
  cases statusbar_visibility <;>
    simp [print, tryRedraw, locked_bar_isUnlocked, isUnlocked, Progressbar_isUnlocked]

end Statusbar

/-! ## C23 -/

theorem display_length_nil {G : Type} {h : Helpers G} {wh : WideHelpers} {len : Text → Nat}
    (hd : display_length_of h wh len) : len [] = 0 := by
  simpa using hd.2.1 0

theorem display_length_one {G : Type} {h : Helpers G} {wh : WideHelpers} {len : Text → Nat}
    (hd : display_length_of h wh len) : len [' '] = 1 := by
  simpa using hd.2.1 1

theorem Columns_loop_skip (wh : WideHelpers) (list_width : Nat) (it : Column)
    (rest : List Column) (r : Int) (h0 : column_width wh list_width it r = 0) :
    Columns_loop wh list_width (it :: rest) r = Columns_loop wh list_width rest r := by
  rw [Columns_loop, if_pos h0]

theorem Columns_loop_break (wh : WideHelpers) (list_width : Nat) (it : Column)
    (rest : List Column) (r : Int) (h0 : column_width wh list_width it r ≠ 0)
    (hb : int_sub r (spaced_width (column_width wh list_width it r) rest.isEmpty) < 0 ∨
      spaced_width (column_width wh list_width it r) rest.isEmpty < 0) :
    Columns_loop wh list_width (it :: rest) r = [] := by
  rw [Columns_loop, if_neg h0, if_pos hb]

theorem Columns_loop_emit (wh : WideHelpers) (list_width : Nat) (it : Column)
    (rest : List Column) (r : Int) (h0 : column_width wh list_width it r ≠ 0)
    (hb : ¬ (int_sub r (spaced_width (column_width wh list_width it r) rest.isEmpty) < 0 ∨
      spaced_width (column_width wh list_width it r) rest.isEmpty < 0)) :
    Columns_loop wh list_width (it :: rest) r =
      ⟨it, spaced_width (column_width wh list_width it r) rest.isEmpty,
        wh.wideCut (header_name it)
          (spaced_width (column_width wh list_width it r) rest.isEmpty),
        rest.isEmpty⟩ ::
        Columns_loop wh list_width rest
          (if rest.isEmpty then r
           else int_sub r
             (int_add (spaced_width (column_width wh list_width it r) rest.isEmpty) 1)) := by
  rw [Columns_loop, if_neg h0, if_neg hb]

theorem header_cell_text_length {G : Type} (h : Helpers G) (wh : WideHelpers)
    (len : Text → Nat) (hd : display_length_of h wh len) (it : Column) (w : Int)
    (last : Bool) (hw0 : 0 ≤ w) (hw1 : w < 2 ^ 31) :
    (len (header_cell_text h wh ⟨it, w, wh.wideCut (header_name it) w, last⟩) : Int) =
      w + (if last then 0 else 1) := by
  obtain ⟨happ, hsp, hname, hcut⟩ := hd
  have hc := hcut (header_name it) w hw0
  have hx : int_sub w (int_of_size_t (wh.wideLength (wh.wideCut (header_name it) w))) =
      w - (wh.wideLength (wh.wideCut (header_name it) w) : Int) := by
    unfold int_sub int_of_size_t
    omega
  have hl1 : len [' '] = 1 := by simpa using hsp 1
  have hl0 : len [] = 0 := by simpa using hsp 0
  simp only [header_cell_text, hx]
  have hm : (max 0 (w - (wh.wideLength (wh.wideCut (header_name it) w) : Int))).toNat =
      (w - (wh.wideLength (wh.wideCut (header_name it) w) : Int)).toNat := by
    rw [max_eq_right (by omega)]
  rw [hm]
  cases hr : it.right_alignment <;> cases last <;>
    simp only [happ, hsp, hname, hl1, hl0, if_true, if_false, Bool.false_eq_true] <;>
    push_cast <;> rw [Int.toNat_of_nonneg (by omega)] <;> omega

theorem display_length_flatten_cons {G : Type} {h : Helpers G} {wh : WideHelpers}
    {len : Text → Nat} (hd : display_length_of h wh len) (t : Text) (ts : List Text) :
    len (t :: ts).flatten = len t + len ts.flatten := by
  rw [List.flatten_cons, hd.1]

theorem column_width_is_int (wh : WideHelpers) (list_width : Nat) (it : Column) (r : Int)
    (hw : is_int it.width) (hr : is_int (wh.relative_width it.width list_width)) :
    is_int (column_width wh list_width it r) := by
  unfold column_width
  split
  · unfold is_int int_sub; omega
  · split
    · exact hw
    · exact hr

theorem Columns_loop_length_le {G : Type} (h : Helpers G) (wh : WideHelpers)
    (len : Text → Nat) (hd : display_length_of h wh len) (list_width : Nat)
    (columns : List Column) (hi : int_widths wh columns list_width) :
    ∀ (r : Int), -1 ≤ r → r < 2 ^ 31 →
      (len ((Columns_loop wh list_width columns r).map (header_cell_text h wh)).flatten : Int)
        ≤ r + 1 := by
  induction columns with
  | nil =>
    intro r hr _
    simp only [Columns_loop, List.map_nil, List.flatten_nil, display_length_nil hd]
    push_cast
    omega
  | cons it rest ih =>
    intro r hr0 hr1
    have hi2 : int_widths wh rest list_width :=
      fun c hc => hi c (List.mem_cons_of_mem _ hc)
    have hcw := column_width_is_int wh list_width it r (hi it (List.mem_cons_self _ _)).1
      (hi it (List.mem_cons_self _ _)).2
    by_cases h0 : column_width wh list_width it r = 0
    · rw [Columns_loop_skip _ _ _ _ _ h0]
      exact ih hi2 r hr0 hr1
    · by_cases hb :
          int_sub r (spaced_width (column_width wh list_width it r) rest.isEmpty) < 0 ∨
            spaced_width (column_width wh list_width it r) rest.isEmpty < 0
      · rw [Columns_loop_break _ _ _ _ _ h0 hb]
        simp only [List.map_nil, List.flatten_nil, display_length_nil hd]
        push_cast
        omega
      · rw [Columns_loop_emit _ _ _ _ _ h0 hb, List.map_cons, display_length_flatten_cons hd]
        push_neg at hb
        obtain ⟨hb1, hb2⟩ := hb
        generalize hwd : spaced_width (column_width wh list_width it r) rest.isEmpty = w
          at hb1 hb2 ⊢
        have hwi : is_int w := by
          rw [← hwd]
          unfold spaced_width
          split
          · exact hcw
          · unfold is_int int_sub; omega
        have hwr : w ≤ r := by
          unfold is_int at hwi
          unfold int_sub at hb1
          omega
        push_cast
        rw [header_cell_text_length h wh len hd it w _ hb2 hwi.2]
        cases hl : rest.isEmpty with
        | true =>
          have : rest = [] := by simpa using hl
          subst this
          simp only [Columns_loop, List.map_nil, List.flatten_nil, display_length_nil hd,
            if_true]
          push_cast
          omega
        | false =>
          simp only [if_false, Bool.false_eq_true]
          have hnext : int_sub r (int_add w 1) = r - w - 1 := by
            unfold is_int at hwi
            unfold int_sub int_add
            omega
          rw [hnext]
          have := ih hi2 (r - w - 1) (by omega) (by omega)
          omega

/-- C23, amended: for columns and a line of a width `W` below `2 ^ 31`, with widths
that are values of an `int`, the header `Display::Columns(W)` returns has display
length at most `W + 1`: the name and the padding of every column it emits fit into
what remains of the line, and so does every separating space but the one after a
column that ends at the end of the line. -/
theorem header_length_le {G : Type} (h : Helpers G) (wh : WideHelpers) (len : Text → Nat)
    (hd : display_length_of h wh len) (columns : List Column) (list_width : Nat)
    (hw : list_width < 2 ^ 31) (hi : int_widths wh columns list_width) :
    len (Display.Columns h wh columns list_width) ≤ list_width + 1 := by
  have hr : int_of_size_t list_width = (list_width : Int) := by
    unfold int_of_size_t
    omega
  have := Columns_loop_length_le h wh len hd list_width columns hi (int_of_size_t list_width)
    (by rw [hr]; omega) (by rw [hr]; omega)
  rw [hr] at this
  unfold Display.Columns
  rw [hr]
  omega

theorem refWide_display_length : display_length_of refHelpers refWide List.length := by
  refine ⟨fun a b => List.length_append a b, fun n => List.length_replicate n ' ',
    fun t => rfl, ?_⟩
  intro t w hw
  show (((t.take w.toNat).length : Nat) : Int) ≤ w
  rw [List.length_take]
  omega

theorem header_length_le_witness :
    (Display.Columns refHelpers refWide default_columns 80).length ≤ 80 + 1 :=
  header_length_le refHelpers refWide List.length refWide_display_length default_columns 80
    (by decide) (by unfold int_widths is_int; decide)

/-- C23, counterexample: for the two fixed columns of the format `(11f)[]{a} (5f)[]{b}`
and a line of 10 cells, `Display::Columns` emits the first column, cut to 10 cells,
and the space after it: a header of 11 cells. -/
theorem header_length_counterexample :
    generate_columns refHelpers tight_columns_format =
        .ok [{ type := ['a'], width := 11, fixed := true },
             { type := ['b'], width := 5, fixed := true }] ∧
      Display.Columns refHelpers refWide
        [{ type := ['a'], width := 11, fixed := true },
         { type := ['b'], width := 5, fixed := true }] 10 = "Artist     ".toList ∧
      "Artist     ".toList.length = 11 := by
  refine ⟨rfl, by decide, rfl⟩
/-! ## C24 -/

theorem widths_sum_cons (c : Column) (cs : List Column) :
    widths_sum (c :: cs) = c.width + widths_sum cs := by
  simp [widths_sum]

theorem widths_sum_append (l1 l2 : List Column) :
    widths_sum (l1 ++ l2) = widths_sum l1 + widths_sum l2 := by
  simp [widths_sum]

theorem widths_sum_nonneg (l : List Column) (hp : ∀ c ∈ l, 0 < c.width) :
    0 ≤ widths_sum l := by
  induction l with
  | nil => simp [widths_sum]
  | cons c cs ih =>
    rw [widths_sum_cons]
    have := hp c (List.mem_cons_self _ _)
    have := ih (fun d hd => hp d (List.mem_cons_of_mem _ hd))
    omega

theorem column_width_fixed (wh : WideHelpers) (list_width : Nat) (c : Column) (r : Int)
    (hf : c.fixed = true) (hs : c.stretch_limit = -1) :
    column_width wh list_width c r = c.width := by
  simp [column_width, hf, hs]

theorem Columns_loop_fixed_step {G : Type} (h : Helpers G) (wh : WideHelpers)
    (hd : display_length_of h wh List.length) (list_width : Nat) (c : Column)
    (rest : List Column) (r : Int) (hf : c.fixed = true) (hs : c.stretch_limit = -1)
    (hp : 0 < c.width) (hne : rest.isEmpty = false) (hcr : c.width ≤ r) (hr : r < 2 ^ 31) :
    ((((Columns_loop wh list_width (c :: rest) r).map (header_cell_text h wh)).flatten.length
        : Nat) : Int) =
      c.width +
        ((((Columns_loop wh list_width rest (r - c.width)).map
          (header_cell_text h wh)).flatten.length : Nat) : Int) := by
  have hcw := column_width_fixed wh list_width c r hf hs
  have hsp : spaced_width c.width rest.isEmpty = c.width - 1 := by
    rw [hne]
    unfold spaced_width int_sub
    simp only [if_false, Bool.false_eq_true]
    omega
  have h0 : column_width wh list_width c r ≠ 0 := by rw [hcw]; omega
  have hb : ¬ (int_sub r (spaced_width (column_width wh list_width c r) rest.isEmpty) < 0 ∨
      spaced_width (column_width wh list_width c r) rest.isEmpty < 0) := by
    rw [hcw, hsp]
    unfold int_sub
    omega
  rw [Columns_loop_emit _ _ _ _ _ h0 hb, List.map_cons, display_length_flatten_cons hd,
    hcw, hsp, hne]
  simp only [if_false, Bool.false_eq_true]
  have hnext : int_sub r (int_add (c.width - 1) 1) = r - c.width := by
    unfold int_sub int_add
    omega
  rw [hnext]
  push_cast
  rw [header_cell_text_length h wh List.length hd c (c.width - 1) false (by omega) (by omega)]
  simp only [if_false, Bool.false_eq_true]
  omega

theorem Columns_loop_fixed_tail {G : Type} (h : Helpers G) (wh : WideHelpers)
    (hd : display_length_of h wh List.length) (list_width : Nat) (post : List Column)
    (hpost : ∀ c ∈ post, c.fixed = true ∧ c.stretch_limit = -1 ∧ 0 < c.width) :
    widths_sum post < 2 ^ 31 →
      ((((Columns_loop wh list_width post (widths_sum post)).map
        (header_cell_text h wh)).flatten.length : Nat) : Int) = widths_sum post := by
  induction post with
  | nil => intro _; simp [Columns_loop, widths_sum]
  | cons c rest ih =>
    intro hr
    obtain ⟨hf, hs, hp⟩ := hpost c (List.mem_cons_self _ _)
    have hrest := fun d hd => hpost d (List.mem_cons_of_mem c hd)
    have hnn := widths_sum_nonneg rest (fun d hd => (hrest d hd).2.2)
    rw [widths_sum_cons] at hr ⊢
    cases hl : rest.isEmpty with
    | true =>
      have : rest = [] := by simpa using hl
      subst this
      have hcw := column_width_fixed wh list_width c (c.width + widths_sum []) hf hs
      have hsp : spaced_width c.width ([] : List Column).isEmpty = c.width := by
        simp [spaced_width]
      have h0 : column_width wh list_width c (c.width + widths_sum []) ≠ 0 := by
        rw [hcw]; omega
      have hb : ¬ (int_sub (c.width + widths_sum [])
          (spaced_width (column_width wh list_width c (c.width + widths_sum []))
            ([] : List Column).isEmpty) < 0 ∨
          spaced_width (column_width wh list_width c (c.width + widths_sum []))
            ([] : List Column).isEmpty < 0) := by
        rw [hcw, hsp]
        unfold int_sub
        simp only [widths_sum, List.map_nil, List.sum_nil] at hr ⊢
        omega
      rw [Columns_loop_emit _ _ _ _ _ h0 hb, List.map_cons, display_length_flatten_cons hd,
        hcw, hsp]
      simp only [List.isEmpty_nil]
      push_cast
      rw [header_cell_text_length h wh List.length hd c c.width true (by omega)
        (by simp only [widths_sum, List.map_nil, List.sum_nil] at hr; omega)]
      simp [Columns_loop, widths_sum]
    | false =>
      rw [Columns_loop_fixed_step h wh hd list_width c rest _ hf hs hp hl (by omega) hr]
      have : c.width + widths_sum rest - c.width = widths_sum rest := by ring
      rw [this, ih hrest (by omega)]

theorem Columns_loop_stretched {G : Type} (h : Helpers G) (wh : WideHelpers)
    (hd : display_length_of h wh List.length) (list_width : Nat) (r : Column)
    (post : List Column)
    (hpost : ∀ c ∈ post, c.fixed = true ∧ c.stretch_limit = -1 ∧ 0 < c.width)
    (hrs : r.stretch_limit = widths_sum post) (rem : Int)
    (hle : widths_sum post ≤ rem) (hrem : rem < 2 ^ 31) :
    ((((Columns_loop wh list_width (r :: post) rem).map
      (header_cell_text h wh)).flatten.length : Nat) : Int) = rem := by
  have hnn := widths_sum_nonneg post (fun d hd => (hpost d hd).2.2)
  have hcw : column_width wh list_width r rem = rem - widths_sum post := by
    unfold column_width
    rw [if_pos (by rw [hrs]; exact hnn), hrs]
    unfold int_sub
    omega
  by_cases h0 : column_width wh list_width r rem = 0
  · rw [Columns_loop_skip _ _ _ _ _ h0]
    have : rem = widths_sum post := by rw [hcw] at h0; omega
    rw [this]
    exact Columns_loop_fixed_tail h wh hd list_width post hpost (by omega)
  · cases hl : post.isEmpty with
    | true =>
      have : post = [] := by simpa using hl
      subst this
      have hs0 : widths_sum ([] : List Column) = 0 := by simp [widths_sum]
      rw [hs0] at hcw hle
      have hsp : spaced_width (rem - 0) ([] : List Column).isEmpty = rem := by
        simp [spaced_width]
      have hb : ¬ (int_sub rem
          (spaced_width (column_width wh list_width r rem) ([] : List Column).isEmpty) < 0 ∨
          spaced_width (column_width wh list_width r rem) ([] : List Column).isEmpty < 0) := by
        rw [hcw, hsp]
        unfold int_sub
        omega
      rw [Columns_loop_emit _ _ _ _ _ h0 hb, List.map_cons, display_length_flatten_cons hd,
        hcw, hsp]
      simp only [List.isEmpty_nil]
      push_cast
      rw [header_cell_text_length h wh List.length hd r rem true hle hrem]
      simp [Columns_loop]
    | false =>
      have hsp : spaced_width (rem - widths_sum post) post.isEmpty =
          rem - widths_sum post - 1 := by
        rw [hl]
        unfold spaced_width int_sub
        simp only [if_false, Bool.false_eq_true]
        omega
      have hpos : 0 < rem - widths_sum post := by rw [hcw] at h0; omega
      have hb : ¬ (int_sub rem
          (spaced_width (column_width wh list_width r rem) post.isEmpty) < 0 ∨
          spaced_width (column_width wh list_width r rem) post.isEmpty < 0) := by
        rw [hcw, hsp]
        unfold int_sub
        omega
      rw [Columns_loop_emit _ _ _ _ _ h0 hb, List.map_cons, display_length_flatten_cons hd,
        hcw, hsp, hl]
      simp only [if_false, Bool.false_eq_true]
      have hnext : int_sub rem (int_add (rem - widths_sum post - 1) 1) = widths_sum post := by
        unfold int_sub int_add
        omega
      rw [hnext]
      push_cast
      rw [header_cell_text_length h wh List.length hd r (rem - widths_sum post - 1) false
        (by omega) (by omega),
        Columns_loop_fixed_tail h wh hd list_width post hpost (by omega)]
      simp only [if_false, Bool.false_eq_true]
      omega

theorem Columns_loop_one_relative {G : Type} (h : Helpers G) (wh : WideHelpers)
    (hd : display_length_of h wh List.length) (list_width : Nat) (r : Column)
    (post : List Column)
    (hpost : ∀ c ∈ post, c.fixed = true ∧ c.stretch_limit = -1 ∧ 0 < c.width)
    (hrs : r.stretch_limit = widths_sum post) (pre : List Column)
    (hpre : ∀ c ∈ pre, c.fixed = true ∧ c.stretch_limit = -1 ∧ 0 < c.width) :
    ∀ (rem : Int), widths_sum pre + widths_sum post ≤ rem → rem < 2 ^ 31 →
      ((((Columns_loop wh list_width (pre ++ r :: post) rem).map
        (header_cell_text h wh)).flatten.length : Nat) : Int) = rem := by
  induction pre with
  | nil =>
    intro rem hle hrem
    have : widths_sum ([] : List Column) = 0 := by simp [widths_sum]
    rw [this] at hle
    exact Columns_loop_stretched h wh hd list_width r post hpost hrs rem (by omega) hrem
  | cons c pre ih =>
    intro rem hle hrem
    obtain ⟨hf, hs, hp⟩ := hpre c (List.mem_cons_self _ _)
    have hrest := fun d hd => hpre d (List.mem_cons_of_mem c hd)
    have hnn1 := widths_sum_nonneg pre (fun d hd => (hrest d hd).2.2)
    have hnn2 := widths_sum_nonneg post (fun d hd => (hpost d hd).2.2)
    rw [widths_sum_cons] at hle
    have hne : (pre ++ r :: post).isEmpty = false := by cases pre <;> rfl
    rw [List.cons_append,
      Columns_loop_fixed_step h wh hd list_width c _ rem hf hs hp hne (by omega) hrem,
      ih hrest (rem - c.width) (by omega) (by omega)]
    ring

theorem one_relative_columns_eq :
    generate_columns refHelpers one_relative_format = .ok one_relative_columns := rfl

/-- C24, amended: for a line of a width `W` below `2 ^ 31` and a column list
`generate_columns` returns in which exactly one column has relative width and the
others are fixed with positive widths of a sum of at most `W`, with labels of
characters one cell wide, the header `Display::Columns(W)` returns has length `W`. -/
theorem header_fills_line {G : Type} (h : Helpers G) (wh : WideHelpers) (format : Text)
    (cols : List Column) (list_width : Nat)
    (hk : generate_columns h format = .ok cols)
    (hw : list_width < 2 ^ 31)
    (hd : display_length_of h wh List.length)
    (hone : cols.countP (fun c => !c.fixed) = 1)
    (hpos : ∀ c ∈ cols, c.fixed = true → 0 < c.width)
    (hsum : widths_sum (cols.filter (fun c => c.fixed)) ≤ list_width) :
    (Display.Columns h wh cols list_width).length = list_width := by
  have hr : int_of_size_t list_width = (list_width : Int) := by
    unfold int_of_size_t
    omega
  rcases generate_columns_stretch h format cols hk with
    ⟨hf, _⟩ | ⟨pre, r, post, h1, h2, h3, h4, h5⟩
  · have : cols.countP (fun c => !c.fixed) = 0 := by
      rw [List.countP_eq_zero]
      intro c hc
      simp [hf c hc]
    omega
  · subst h1
    have hcp : post.countP (fun c => !c.fixed) = 0 := by
      rw [List.countP_eq_zero]
      intro c hc
      simp [h3 c hc]
    have hpre0 : pre.countP (fun c => !c.fixed) = 0 := by
      rw [List.countP_append, List.countP_cons, hcp] at hone
      simp only [h2, Bool.not_false, if_true] at hone
      omega
    have hpf : ∀ c ∈ pre, c.fixed = true := by
      rw [List.countP_eq_zero] at hpre0
      intro c hc
      simpa using hpre0 c hc
    have hfil : (pre ++ r :: post).filter (fun c => c.fixed) = pre ++ post := by
      rw [List.filter_append, List.filter_cons, h2]
      simp only [Bool.false_eq_true, if_false]
      rw [List.filter_eq_self.mpr hpf, List.filter_eq_self.mpr h3]
    rw [hfil, widths_sum_append] at hsum
    have hpost : ∀ c ∈ post, c.fixed = true ∧ c.stretch_limit = -1 ∧ 0 < c.width :=
      fun c hc => ⟨h3 c hc, h5 c (by simp [hc]),
        hpos c (by simp [hc]) (h3 c hc)⟩
    have hpre : ∀ c ∈ pre, c.fixed = true ∧ c.stretch_limit = -1 ∧ 0 < c.width :=
      fun c hc => ⟨hpf c hc, h5 c (by simp [hc]),
        hpos c (by simp [hc]) (hpf c hc)⟩
    have hnn1 := widths_sum_nonneg pre (fun d hd => (hpre d hd).2.2)
    have hnn2 := widths_sum_nonneg post (fun d hd => (hpost d hd).2.2)
    have hrs : r.stretch_limit = widths_sum post := by
      rw [h4]
      unfold int_wrap
      omega
    have := Columns_loop_one_relative h wh hd list_width r post hpost hrs pre hpre
      (int_of_size_t list_width) (by rw [hr]; omega) (by rw [hr]; omega)
    rw [hr] at this
    unfold Display.Columns
    rw [hr]
    exact_mod_cast this

theorem header_fills_line_witness :
    (Display.Columns refHelpers refWide one_relative_columns 80).length = 80 :=
  header_fills_line refHelpers refWide one_relative_format one_relative_columns 80
    one_relative_columns_eq (by decide) refWide_display_length (by decide) (by decide)
    (by decide)

/-- C24, counterexample: for a line of `2 ^ 31` cells and the one column of relative
width of the format `(50)[]{t}`, the `int remained_width` is `-2 ^ 31`, so is the
width of the column, and `Display::Columns` returns the empty header. -/
theorem header_fills_line_counterexample :
    generate_columns refHelpers "(50)[]{t}".toList =
        .ok [{ type := ['t'], width := 50, stretch_limit := 0 }] ∧
      int_of_size_t 2147483648 = -2147483648 ∧
      Display.Columns refHelpers refWide
        [{ type := ['t'], width := 50, stretch_limit := 0 }] 2147483648 = [] := by
  refine ⟨rfl, by decide, by decide⟩

/-! ## Menu::scroll: the steps -/

namespace NC

namespace Menu

theorem kept_trans {a b c : Menu} (h1 : kept a b) (h2 : kept b c) : kept a c := by
  obtain ⟨_, ⟨a1, a2, a3, a4⟩, a5⟩ := h1
  obtain ⟨b0, ⟨b1, b2, b3, b4⟩, b5⟩ := h2
  exact ⟨b0, ⟨b1.trans a1, b2.trans a2, b3.trans a3, b4.trans a4⟩, fun hw => b5 (a5 hw)⟩

theorem kept_refl {a : Menu} (h : a.ranged) : kept a a :=
  ⟨h, ⟨rfl, rfl, rfl, rfl⟩, id⟩

theorem max_highlight_eq (m : Menu) (hr : m.ranged) :
    m.max_highlight + 1 = m.m_items.length := by
  obtain ⟨h1, _, _, h4⟩ := hr
  unfold max_highlight size_t_sub
  omega

theorem ranged_item (m : Menu) (hr : m.ranged) :
    m.m_items[m.m_highlight]? = some true ∨ m.m_items[m.m_highlight]? = some false := by
  obtain ⟨_, _, _, h4⟩ := hr
  rw [List.getElem?_eq_getElem h4]
  cases m.m_items[m.m_highlight] <;> simp

theorem highlightableAt_lt {m : Menu} {pos : Nat} (h : m.highlightableAt pos) :
    pos < m.m_items.length := by
  unfold highlightableAt at h
  by_contra hc
  rw [List.getElem?_eq_none (by omega)] at h
  cases h

theorem autocenter_ok (m : Menu) (hr : m.ranged) :
    ∃ m1, m.autocenter = .ok m1 ∧ m1.m_highlight = m.m_highlight ∧ kept m m1 := by
  obtain ⟨items, H, b, h, cyc, ac⟩ := m
  obtain ⟨h1, h2, h3, h4⟩ := hr
  simp only at h1 h2 h3 h4
  cases ac with
  | false => exact ⟨_, rfl, rfl, kept_refl ⟨h1, h2, h3, h4⟩⟩
  | true =>
    simp only [autocenter, highlight, if_true, if_pos h4]
    refine ⟨_, rfl, rfl, ⟨h1, h2, ?_, h4⟩, ⟨rfl, rfl, rfl, rfl⟩, ?_⟩
    · simp only
      split
      · omega
      · unfold size_t_sub; omega
    · rintro ⟨w1, w2, w3⟩
      simp only at w1 w2 w3
      refine ⟨w1, ?_, ?_⟩
      · simp only
        split
        · omega
        · unfold size_t_sub; omega
      · simp only
        split
        · omega
        · unfold size_t_sub; omega

theorem settle_true (rec : Menu → Scroll → Except Failure Menu) (m : Menu) (d : Scroll)
    (ht : m.m_items[m.m_highlight]? = some true) : settle rec m d = m.autocenter := by
  simp [settle, isHighlightable, ht]

theorem settle_false (rec : Menu → Scroll → Except Failure Menu) (m : Menu) (d : Scroll)
    (ht : m.m_items[m.m_highlight]? = some false) (m1 : Menu) (hrec : rec m d = .ok m1) :
    settle rec m d = m1.autocenter := by
  simp [settle, isHighlightable, ht, hrec]

theorem scroll_Up_bottom (rec : Menu → Scroll → Except Failure Menu) (m : Menu)
    (h0 : m.m_highlight = 0) :
    m.scroll_Up rec = if m.m_cyclic_scroll_enabled then rec m .End else m.autocenter := by
  have hc : ¬ (m.m_highlight ≤ m.m_beginning ∧ m.m_highlight > 0) := by omega
  unfold scroll_Up
  dsimp only
  rw [if_neg hc, if_pos h0]

theorem scroll_Up_step (m : Menu) (hr : m.ranged)
    (h0 : 0 < m.m_highlight) :
    ∃ m2, (∀ (rec : Menu → Scroll → Except Failure Menu),
        m.scroll_Up rec = settle rec m2
          (if m2.m_highlight = 0 ∧ m2.m_cyclic_scroll_enabled = false then .Down else .Up)) ∧
      m2.m_highlight + 1 = m.m_highlight ∧ kept m m2 := by
  obtain ⟨h1, h2, h3, h4⟩ := hr
  refine ⟨{ m with
      m_beginning :=
        if m.m_highlight ≤ m.m_beginning ∧ m.m_highlight > 0 then size_t_sub m.m_beginning 1
        else m.m_beginning
      m_highlight := size_t_sub m.m_highlight 1 }, ?_, ?_,
    ⟨⟨h1, h2, ?_, ?_⟩, ⟨rfl, rfl, rfl, rfl⟩, ?_⟩⟩
  · intro rec
    unfold scroll_Up
    dsimp only
    rw [if_neg (by omega)]
  · dsimp only
    unfold size_t_sub
    omega
  · dsimp only
    unfold size_t_sub
    split <;> omega
  · dsimp only
    unfold size_t_sub
    omega
  · rintro ⟨w1, w2, w3⟩
    refine ⟨w1, ?_, ?_⟩ <;> dsimp only <;> unfold size_t_sub <;> split <;> omega

theorem scroll_Down_top (rec : Menu → Scroll → Except Failure Menu) (m : Menu) (hr : m.ranged)
    (ht : m.m_highlight + 1 = m.m_items.length) :
    m.scroll_Down rec = if m.m_cyclic_scroll_enabled then rec m .Home else m.autocenter := by
  have hm := max_highlight_eq m hr
  have hc : ¬ (m.m_highlight ≥ m.max_visible_highlight ∧ m.m_highlight < m.max_highlight) := by
    omega
  have he : m.m_highlight = m.max_highlight := by omega
  unfold scroll_Down
  dsimp only
  rw [if_neg hc, if_pos he]

theorem scroll_Down_step (m : Menu)
    (hr : m.ranged) (ht : m.m_highlight + 1 < m.m_items.length) :
    ∃ m2, (∀ (rec : Menu → Scroll → Except Failure Menu),
        m.scroll_Down rec = settle rec m2
          (if m2.m_highlight = m.max_highlight ∧ m2.m_cyclic_scroll_enabled = false then .Up
           else .Down)) ∧
      m2.m_highlight = m.m_highlight + 1 ∧ kept m m2 := by
  have hm := max_highlight_eq m hr
  obtain ⟨h1, h2, h3, h4⟩ := hr
  have hv : m.max_visible_highlight =
      ((m.m_beginning + m.m_height) % 2 ^ 64 + 2 ^ 64 - 1) % 2 ^ 64 := rfl
  refine ⟨{ m with
      m_beginning :=
        if m.m_highlight ≥ m.max_visible_highlight ∧ m.m_highlight < m.max_highlight then
          size_t_add m.m_beginning 1
        else m.m_beginning
      m_highlight := size_t_add m.m_highlight 1 }, ?_, ?_,
    ⟨⟨h1, h2, ?_, ?_⟩, ⟨rfl, rfl, rfl, rfl⟩, ?_⟩⟩
  · intro rec
    unfold scroll_Down
    dsimp only
    rw [if_neg (by omega)]
  · dsimp only
    unfold size_t_add
    omega
  · dsimp only
    unfold size_t_add
    split <;> omega
  · dsimp only
    unfold size_t_add
    omega
  · rintro ⟨w1, w2, w3⟩
    refine ⟨w1, ?_, ?_⟩ <;> dsimp only <;> unfold size_t_add <;> split <;> omega

theorem scroll_PageUp_cyclic (rec : Menu → Scroll → Except Failure Menu) (m : Menu)
    (hc : m.m_cyclic_scroll_enabled = true ∧ m.m_highlight = 0) :
    m.scroll_PageUp rec = rec m .End := by
  unfold scroll_PageUp
  rw [if_pos hc]

theorem scroll_PageUp_step (m : Menu)
    (hr : m.ranged) (hc : ¬ (m.m_cyclic_scroll_enabled = true ∧ m.m_highlight = 0)) :
    ∃ m2, (∀ (rec : Menu → Scroll → Except Failure Menu),
        m.scroll_PageUp rec = settle rec m2
          (if m2.m_highlight = 0 ∧ m2.m_cyclic_scroll_enabled = false then .Down else .Up)) ∧
      kept m m2 := by
  obtain ⟨h1, h2, h3, h4⟩ := hr
  refine ⟨{ m with
      m_highlight := if m.m_highlight < m.m_height then 0 else size_t_sub m.m_highlight m.m_height
      m_beginning :=
        if m.m_beginning < m.m_height then 0 else size_t_sub m.m_beginning m.m_height }, ?_,
    ⟨⟨h1, h2, ?_, ?_⟩, ⟨rfl, rfl, rfl, rfl⟩, ?_⟩⟩
  · intro rec
    unfold scroll_PageUp
    rw [if_neg hc]
  · dsimp only
    unfold size_t_sub
    split <;> omega
  · dsimp only
    unfold size_t_sub
    split <;> omega
  · rintro ⟨w1, w2, w3⟩
    refine ⟨w1, ?_, ?_⟩ <;> dsimp only <;> unfold size_t_sub <;> split <;> split <;> omega

theorem scroll_PageDown_cyclic (rec : Menu → Scroll → Except Failure Menu) (m : Menu)
    (hc : m.m_cyclic_scroll_enabled = true ∧ m.m_highlight = m.max_highlight) :
    m.scroll_PageDown rec = rec m .Home := by
  unfold scroll_PageDown
  rw [if_pos hc]

theorem scroll_PageDown_step (m : Menu)
    (hr : m.ranged)
    (hc : ¬ (m.m_cyclic_scroll_enabled = true ∧ m.m_highlight = m.max_highlight)) :
    ∃ m2, (∀ (rec : Menu → Scroll → Except Failure Menu),
        m.scroll_PageDown rec = settle rec m2
          (if m2.m_highlight = m.max_highlight ∧ m2.m_cyclic_scroll_enabled = false then .Up
           else .Down)) ∧
      kept m m2 := by
  have hm := max_highlight_eq m hr
  obtain ⟨h1, h2, h3, h4⟩ := hr
  have hb : m.max_beginning =
      if m.m_items.length < m.m_height then 0
      else (m.m_items.length + 2 ^ 64 - m.m_height) % 2 ^ 64 := rfl
  refine ⟨{ m with
      m_beginning := min (size_t_add m.m_beginning m.m_height) m.max_beginning
      m_highlight := min (size_t_add m.m_highlight m.m_height) m.max_highlight }, ?_,
    ⟨⟨h1, h2, ?_, ?_⟩, ⟨rfl, rfl, rfl, rfl⟩, ?_⟩⟩
  · intro rec
    unfold scroll_PageDown
    rw [if_neg hc]
  · dsimp only
    unfold size_t_add
    omega
  · dsimp only
    omega
  · rintro ⟨w1, w2, w3⟩
    rw [hb]
    refine ⟨w1, ?_, ?_⟩ <;> dsimp only <;> unfold size_t_add <;> split <;> omega

theorem scroll_Home_step (m : Menu)
    (hr : m.ranged) :
    ∃ m2, (∀ (rec : Menu → Scroll → Except Failure Menu),
        m.scroll_Home rec = settle rec m2 .Down) ∧
      m2.m_highlight = 0 ∧ kept m m2 := by
  obtain ⟨h1, h2, h3, h4⟩ := hr
  refine ⟨{ m with m_highlight := 0, m_beginning := 0 }, fun _ => rfl, rfl,
    ⟨⟨h1, h2, ?_, ?_⟩, ⟨rfl, rfl, rfl, rfl⟩, ?_⟩⟩
  · dsimp only
    omega
  · dsimp only
    omega
  · rintro ⟨w1, w2, w3⟩
    refine ⟨w1, ?_, ?_⟩ <;> dsimp only <;> omega

theorem scroll_End_step (m : Menu)
    (hr : m.ranged) :
    ∃ m2, (∀ (rec : Menu → Scroll → Except Failure Menu),
        m.scroll_End rec = settle rec m2 .Up) ∧
      m2.m_highlight + 1 = m.m_items.length ∧ kept m m2 := by
  have hm := max_highlight_eq m hr
  obtain ⟨h1, h2, h3, h4⟩ := hr
  have hb : m.max_beginning =
      if m.m_items.length < m.m_height then 0
      else (m.m_items.length + 2 ^ 64 - m.m_height) % 2 ^ 64 := rfl
  refine ⟨{ m with m_highlight := m.max_highlight, m_beginning := m.max_beginning }, fun _ => rfl, hm,
    ⟨⟨h1, h2, ?_, ?_⟩, ⟨rfl, rfl, rfl, rfl⟩, ?_⟩⟩
  · dsimp only
    rw [hb]
    split <;> omega
  · dsimp only
    omega
  · rintro ⟨w1, w2, w3⟩
    refine ⟨w1, ?_, ?_⟩ <;> dsimp only <;> rw [hb] <;> split <;> omega

/-! ## Menu::scroll: what every call keeps -/

theorem ranged_not_empty (m : Menu) (hr : m.ranged) : m.m_items.isEmpty = false := by
  obtain ⟨_, _, _, h4⟩ := hr
  cases hi : m.m_items with
  | nil => rw [hi] at h4; simp at h4
  | cons a l => rfl

theorem scroll_body_Up (rec : Menu → Scroll → Except Failure Menu) (m : Menu) (hr : m.ranged) :
    scroll_body rec m .Up = m.scroll_Up rec := by
  unfold scroll_body
  rw [ranged_not_empty m hr]
  rfl

theorem scroll_body_Down (rec : Menu → Scroll → Except Failure Menu) (m : Menu)
    (hr : m.ranged) : scroll_body rec m .Down = m.scroll_Down rec := by
  unfold scroll_body
  rw [ranged_not_empty m hr]
  rfl

theorem scroll_body_PageUp (rec : Menu → Scroll → Except Failure Menu) (m : Menu)
    (hr : m.ranged) : scroll_body rec m .PageUp = m.scroll_PageUp rec := by
  unfold scroll_body
  rw [ranged_not_empty m hr]
  rfl

theorem scroll_body_PageDown (rec : Menu → Scroll → Except Failure Menu) (m : Menu)
    (hr : m.ranged) : scroll_body rec m .PageDown = m.scroll_PageDown rec := by
  unfold scroll_body
  rw [ranged_not_empty m hr]
  rfl

theorem scroll_body_Home (rec : Menu → Scroll → Except Failure Menu) (m : Menu)
    (hr : m.ranged) : scroll_body rec m .Home = m.scroll_Home rec := by
  unfold scroll_body
  rw [ranged_not_empty m hr]
  rfl

theorem scroll_body_End (rec : Menu → Scroll → Except Failure Menu) (m : Menu)
    (hr : m.ranged) : scroll_body rec m .End = m.scroll_End rec := by
  unfold scroll_body
  rw [ranged_not_empty m hr]
  rfl

theorem scroll_succ (fuel : Nat) (m : Menu) (d : Scroll) :
    scroll (fuel + 1) m d = scroll_body (scroll fuel) m d := rfl

theorem autocenter_kept (m m1 : Menu) (hr : m.ranged) (hk : m.autocenter = .ok m1) :
    m1.m_highlight = m.m_highlight ∧ kept m m1 := by
  obtain ⟨m2, h1, h2, h3⟩ := autocenter_ok m hr
  rw [h1] at hk
  cases hk
  exact ⟨h2, h3⟩

theorem settle_kept (rec : Menu → Scroll → Except Failure Menu) (m m1 : Menu) (d : Scroll)
    (hr : m.ranged) (hrec : ∀ m3, rec m d = .ok m3 → kept m m3)
    (hk : settle rec m d = .ok m1) : kept m m1 := by
  rcases ranged_item m hr with ht | ht
  · rw [settle_true rec m d ht] at hk
    exact (autocenter_kept m m1 hr hk).2
  · cases h3 : rec m d with
    | error e => simp [settle, isHighlightable, ht, h3] at hk
    | ok m3 =>
      rw [settle_false rec m d ht m3 h3] at hk
      have k3 := hrec m3 h3
      exact kept_trans k3 (autocenter_kept m3 m1 k3.1 hk).2

theorem scroll_body_kept (rec : Menu → Scroll → Except Failure Menu)
    (hrec : ∀ m d m1, m.ranged → rec m d = .ok m1 → kept m m1) (m : Menu) (d : Scroll)
    (m1 : Menu) (hr : m.ranged) (hk : scroll_body rec m d = .ok m1) : kept m m1 := by
  have hm := max_highlight_eq m hr
  cases d with
  | Up =>
    rw [scroll_body_Up rec m hr] at hk
    by_cases h0 : m.m_highlight = 0
    · rw [scroll_Up_bottom rec m h0] at hk
      split at hk
      · exact hrec _ _ _ hr hk
      · exact (autocenter_kept m m1 hr hk).2
    · obtain ⟨m2, h2, _, k2⟩ := scroll_Up_step m hr (by omega)
      rw [h2 rec] at hk
      exact kept_trans k2 (settle_kept rec m2 m1 _ k2.1 (fun m3 h3 => hrec _ _ _ k2.1 h3) hk)
  | Down =>
    rw [scroll_body_Down rec m hr] at hk
    by_cases h0 : m.m_highlight + 1 = m.m_items.length
    · rw [scroll_Down_top rec m hr h0] at hk
      split at hk
      · exact hrec _ _ _ hr hk
      · exact (autocenter_kept m m1 hr hk).2
    · obtain ⟨m2, h2, _, k2⟩ := scroll_Down_step m hr (by have := hr.2.2.2; omega)
      rw [h2 rec] at hk
      exact kept_trans k2 (settle_kept rec m2 m1 _ k2.1 (fun m3 h3 => hrec _ _ _ k2.1 h3) hk)
  | PageUp =>
    rw [scroll_body_PageUp rec m hr] at hk
    by_cases hc : m.m_cyclic_scroll_enabled = true ∧ m.m_highlight = 0
    · rw [scroll_PageUp_cyclic rec m hc] at hk
      exact hrec _ _ _ hr hk
    · obtain ⟨m2, h2, k2⟩ := scroll_PageUp_step m hr hc
      rw [h2 rec] at hk
      exact kept_trans k2 (settle_kept rec m2 m1 _ k2.1 (fun m3 h3 => hrec _ _ _ k2.1 h3) hk)
  | PageDown =>
    rw [scroll_body_PageDown rec m hr] at hk
    by_cases hc : m.m_cyclic_scroll_enabled = true ∧ m.m_highlight = m.max_highlight
    · rw [scroll_PageDown_cyclic rec m hc] at hk
      exact hrec _ _ _ hr hk
    · obtain ⟨m2, h2, k2⟩ := scroll_PageDown_step m hr hc
      rw [h2 rec] at hk
      exact kept_trans k2 (settle_kept rec m2 m1 _ k2.1 (fun m3 h3 => hrec _ _ _ k2.1 h3) hk)
  | Home =>
    rw [scroll_body_Home rec m hr] at hk
    obtain ⟨m2, h2, _, k2⟩ := scroll_Home_step m hr
    rw [h2 rec] at hk
    exact kept_trans k2 (settle_kept rec m2 m1 _ k2.1 (fun m3 h3 => hrec _ _ _ k2.1 h3) hk)
  | End =>
    rw [scroll_body_End rec m hr] at hk
    obtain ⟨m2, h2, _, k2⟩ := scroll_End_step m hr
    rw [h2 rec] at hk
    exact kept_trans k2 (settle_kept rec m2 m1 _ k2.1 (fun m3 h3 => hrec _ _ _ k2.1 h3) hk)

theorem scroll_kept : ∀ (fuel : Nat) (m : Menu) (d : Scroll) (m1 : Menu),
    m.ranged → scroll fuel m d = .ok m1 → kept m m1 := by
  intro fuel
  induction fuel with
  | zero => intro m d m1 _ hk; cases hk
  | succ n ih =>
    intro m d m1 hr hk
    rw [scroll_succ] at hk
    exact scroll_body_kept (scroll n) ih m d m1 hr hk

theorem settle_mono (rec1 rec2 : Menu → Scroll → Except Failure Menu) (m m1 : Menu)
    (d : Scroll) (hrec : ∀ m3, rec1 m d = .ok m3 → rec2 m d = .ok m3)
    (hk : settle rec1 m d = .ok m1) : settle rec2 m d = .ok m1 := by
  unfold settle at hk ⊢
  cases hi : m.isHighlightable m.m_highlight with
  | error e => rw [hi] at hk; cases hk
  | ok b =>
    rw [hi] at hk
    cases b with
    | true => exact hk
    | false =>
      dsimp only at hk ⊢
      cases h3 : rec1 m d with
      | error e => rw [h3] at hk; cases hk
      | ok m3 =>
        rw [h3] at hk
        rw [hrec m3 h3]
        exact hk

theorem scroll_body_mono (rec1 rec2 : Menu → Scroll → Except Failure Menu)
    (hrec : ∀ m d m1, m.ranged → rec1 m d = .ok m1 → rec2 m d = .ok m1) (m : Menu)
    (d : Scroll)
    (m1 : Menu) (hr : m.ranged) (hk : scroll_body rec1 m d = .ok m1) :
    scroll_body rec2 m d = .ok m1 := by
  cases d with
  | Up =>
    rw [scroll_body_Up _ m hr] at hk ⊢
    by_cases h0 : m.m_highlight = 0
    · rw [scroll_Up_bottom _ m h0] at hk ⊢
      split at hk
      · rename_i hc
        rw [if_pos hc]
        exact hrec _ _ _ hr hk
      · rename_i hc
        rw [if_neg hc]
        exact hk
    · obtain ⟨m2, h2, _, k2⟩ := scroll_Up_step m hr (by omega)
      rw [h2] at hk ⊢
      exact settle_mono rec1 rec2 m2 m1 _ (fun m3 h3 => hrec _ _ _ k2.1 h3) hk
  | Down =>
    rw [scroll_body_Down _ m hr] at hk ⊢
    by_cases h0 : m.m_highlight + 1 = m.m_items.length
    · rw [scroll_Down_top _ m hr h0] at hk ⊢
      split at hk
      · rename_i hc
        rw [if_pos hc]
        exact hrec _ _ _ hr hk
      · rename_i hc
        rw [if_neg hc]
        exact hk
    · obtain ⟨m2, h2, _, k2⟩ := scroll_Down_step m hr (by have := hr.2.2.2; omega)
      rw [h2] at hk ⊢
      exact settle_mono rec1 rec2 m2 m1 _ (fun m3 h3 => hrec _ _ _ k2.1 h3) hk
  | PageUp =>
    rw [scroll_body_PageUp _ m hr] at hk ⊢
    by_cases hc : m.m_cyclic_scroll_enabled = true ∧ m.m_highlight = 0
    · rw [scroll_PageUp_cyclic _ m hc] at hk ⊢
      exact hrec _ _ _ hr hk
    · obtain ⟨m2, h2, k2⟩ := scroll_PageUp_step m hr hc
      rw [h2] at hk ⊢
      exact settle_mono rec1 rec2 m2 m1 _ (fun m3 h3 => hrec _ _ _ k2.1 h3) hk
  | PageDown =>
    rw [scroll_body_PageDown _ m hr] at hk ⊢
    by_cases hc : m.m_cyclic_scroll_enabled = true ∧ m.m_highlight = m.max_highlight
    · rw [scroll_PageDown_cyclic _ m hc] at hk ⊢
      exact hrec _ _ _ hr hk
    · obtain ⟨m2, h2, k2⟩ := scroll_PageDown_step m hr hc
      rw [h2] at hk ⊢
      exact settle_mono rec1 rec2 m2 m1 _ (fun m3 h3 => hrec _ _ _ k2.1 h3) hk
  | Home =>
    rw [scroll_body_Home _ m hr] at hk ⊢
    obtain ⟨m2, h2, _, k2⟩ := scroll_Home_step m hr
    rw [h2] at hk ⊢
    exact settle_mono rec1 rec2 m2 m1 _ (fun m3 h3 => hrec _ _ _ k2.1 h3) hk
  | End =>
    rw [scroll_body_End _ m hr] at hk ⊢
    obtain ⟨m2, h2, _, k2⟩ := scroll_End_step m hr
    rw [h2] at hk ⊢
    exact settle_mono rec1 rec2 m2 m1 _ (fun m3 h3 => hrec _ _ _ k2.1 h3) hk

theorem scroll_mono_succ : ∀ (fuel : Nat) (m : Menu) (d : Scroll) (m1 : Menu),
    m.ranged → scroll fuel m d = .ok m1 → scroll (fuel + 1) m d = .ok m1 := by
  intro fuel
  induction fuel with
  | zero => intro m d m1 _ hk; cases hk
  | succ n ih =>
    intro m d m1 hr hk
    rw [scroll_succ] at hk ⊢
    exact scroll_body_mono (scroll n) (scroll (n + 1)) ih m d m1 hr hk

/-! ## Menu::scroll: where the cursor comes to rest -/

theorem scroll_mono_le (fuel fuel1 : Nat) (m : Menu) (d : Scroll) (m1 : Menu) (hr : m.ranged)
    (hle : fuel ≤ fuel1) (hk : scroll fuel m d = .ok m1) : scroll fuel1 m d = .ok m1 := by
  induction hle with
  | refl => exact hk
  | step _ ih => exact scroll_mono_succ _ m d m1 hr ih

theorem highlightableAt_same {m m2 : Menu} (s : same_menu m m2) (pos : Nat) :
    m2.highlightableAt pos ↔ m.highlightableAt pos := by
  unfold highlightableAt
  rw [s.1]

theorem settle_true_finds (rec : Menu → Scroll → Except Failure Menu) (m2 : Menu) (d : Scroll)
    (hr : m2.ranged) (ht : m2.m_items[m2.m_highlight]? = some true) :
    ∃ m1, settle rec m2 d = .ok m1 ∧ m1.m_highlight = m2.m_highlight := by
  obtain ⟨m1, h1, h2, _⟩ := autocenter_ok m2 hr
  exact ⟨m1, by rw [settle_true rec m2 d ht, h1], h2⟩

theorem settle_false_finds (rec : Menu → Scroll → Except Failure Menu) (m2 m3 : Menu)
    (d : Scroll) (hf : m2.m_items[m2.m_highlight]? = some false) (h3 : rec m2 d = .ok m3)
    (r3 : m3.ranged) :
    ∃ m1, settle rec m2 d = .ok m1 ∧ m1.m_highlight = m3.m_highlight := by
  obtain ⟨m1, h1, h2, _⟩ := autocenter_ok m3 r3
  exact ⟨m1, by rw [settle_false rec m2 d hf m3 h3, h1], h2⟩

theorem scroll_Down_finds : ∀ (fuel : Nat) (m : Menu) (d : Nat), m.ranged →
    m.highlightableAt (m.m_highlight + d + 1) → d + 1 ≤ fuel →
    ∃ m1, scroll fuel m .Down = .ok m1 ∧ m.highlightableAt m1.m_highlight := by
  intro fuel
  induction fuel with
  | zero => intro m d _ _ hf; omega
  | succ n ih =>
    intro m d hr hk hf
    have hlt := highlightableAt_lt hk
    have hm := max_highlight_eq m hr
    obtain ⟨m2, h2, e2, k2⟩ := scroll_Down_step m hr (by omega)
    rw [scroll_succ, scroll_body_Down _ m hr, h2]
    obtain ⟨r2, s2, _⟩ := k2
    rcases ranged_item m2 r2 with ht | hfalse
    · obtain ⟨m1, h1, p1⟩ := settle_true_finds (scroll n) m2 _ r2 ht
      exact ⟨m1, h1, by rw [p1]; exact (highlightableAt_same s2 _).mp ht⟩
    · have hd : d ≠ 0 := by
        rintro rfl
        have := (highlightableAt_same s2 _).mpr hk
        unfold highlightableAt at this
        rw [e2] at hfalse
        rw [this] at hfalse
        cases hfalse
      rw [if_neg (by omega)]
      have hk2 : m2.highlightableAt (m2.m_highlight + (d - 1) + 1) := by
        rw [highlightableAt_same s2, e2]
        have : m.m_highlight + 1 + (d - 1) + 1 = m.m_highlight + d + 1 := by omega
        rw [this]
        exact hk
      obtain ⟨m3, h3, q3⟩ := ih m2 (d - 1) r2 hk2 (by omega)
      obtain ⟨m1, h1, p1⟩ :=
        settle_false_finds (scroll n) m2 m3 _ hfalse h3 (scroll_kept _ _ _ _ r2 h3).1
      exact ⟨m1, h1, by rw [p1]; exact (highlightableAt_same s2 _).mp q3⟩

theorem scroll_Up_finds : ∀ (fuel : Nat) (m : Menu) (k d : Nat), m.ranged →
    m.m_highlight = k + d + 1 → m.highlightableAt k → d + 1 ≤ fuel →
    ∃ m1, scroll fuel m .Up = .ok m1 ∧ m.highlightableAt m1.m_highlight := by
  intro fuel
  induction fuel with
  | zero => intro m k d _ _ _ hf; omega
  | succ n ih =>
    intro m k d hr hh hk hf
    obtain ⟨m2, h2, e2, k2⟩ := scroll_Up_step m hr (by omega)
    rw [scroll_succ, scroll_body_Up _ m hr, h2]
    obtain ⟨r2, s2, _⟩ := k2
    rcases ranged_item m2 r2 with ht | hfalse
    · obtain ⟨m1, h1, p1⟩ := settle_true_finds (scroll n) m2 _ r2 ht
      exact ⟨m1, h1, by rw [p1]; exact (highlightableAt_same s2 _).mp ht⟩
    · have hd : d ≠ 0 := by
        rintro rfl
        have := (highlightableAt_same s2 _).mpr hk
        unfold highlightableAt at this
        have e : m2.m_highlight = k := by omega
        rw [e] at hfalse
        rw [this] at hfalse
        cases hfalse
      rw [if_neg (by omega)]
      obtain ⟨m3, h3, q3⟩ := ih m2 k (d - 1) r2 (by omega)
        ((highlightableAt_same s2 _).mpr hk) (by omega)
      obtain ⟨m1, h1, p1⟩ :=
        settle_false_finds (scroll n) m2 m3 _ hfalse h3 (scroll_kept _ _ _ _ r2 h3).1
      exact ⟨m1, h1, by rw [p1]; exact (highlightableAt_same s2 _).mp q3⟩

theorem scroll_Home_finds (fuel : Nat) (m : Menu) (hr : m.ranged)
    (hex : ∃ k, m.highlightableAt k) (hf : m.m_items.length + 1 ≤ fuel) :
    ∃ m1, scroll fuel m .Home = .ok m1 ∧ m.highlightableAt m1.m_highlight := by
  obtain ⟨n, rfl⟩ : ∃ n, fuel = n + 1 := ⟨fuel - 1, by omega⟩
  obtain ⟨k, hk⟩ := hex
  have hlt := highlightableAt_lt hk
  obtain ⟨m2, h2, e2, k2⟩ := scroll_Home_step m hr
  rw [scroll_succ, scroll_body_Home _ m hr, h2]
  obtain ⟨r2, s2, _⟩ := k2
  rcases ranged_item m2 r2 with ht | hfalse
  · obtain ⟨m1, h1, p1⟩ := settle_true_finds (scroll n) m2 _ r2 ht
    exact ⟨m1, h1, by rw [p1]; exact (highlightableAt_same s2 _).mp ht⟩
  · have hk0 : k ≠ 0 := by
      rintro rfl
      have := (highlightableAt_same s2 _).mpr hk
      unfold highlightableAt at this
      rw [e2] at hfalse
      rw [this] at hfalse
      cases hfalse
    have hk2 : m2.highlightableAt (m2.m_highlight + (k - 1) + 1) := by
      rw [highlightableAt_same s2, e2]
      have : 0 + (k - 1) + 1 = k := by omega
      rw [this]
      exact hk
    obtain ⟨m3, h3, q3⟩ := scroll_Down_finds n m2 (k - 1) r2 hk2 (by omega)
    obtain ⟨m1, h1, p1⟩ :=
      settle_false_finds (scroll n) m2 m3 _ hfalse h3 (scroll_kept _ _ _ _ r2 h3).1
    exact ⟨m1, h1, by rw [p1]; exact (highlightableAt_same s2 _).mp q3⟩

theorem scroll_End_finds (fuel : Nat) (m : Menu) (hr : m.ranged)
    (hex : ∃ k, m.highlightableAt k) (hf : m.m_items.length + 1 ≤ fuel) :
    ∃ m1, scroll fuel m .End = .ok m1 ∧ m.highlightableAt m1.m_highlight := by
  obtain ⟨n, rfl⟩ : ∃ n, fuel = n + 1 := ⟨fuel - 1, by omega⟩
  obtain ⟨k, hk⟩ := hex
  have hlt := highlightableAt_lt hk
  obtain ⟨m2, h2, e2, k2⟩ := scroll_End_step m hr
  rw [scroll_succ, scroll_body_End _ m hr, h2]
  obtain ⟨r2, s2, _⟩ := k2
  rcases ranged_item m2 r2 with ht | hfalse
  · obtain ⟨m1, h1, p1⟩ := settle_true_finds (scroll n) m2 _ r2 ht
    exact ⟨m1, h1, by rw [p1]; exact (highlightableAt_same s2 _).mp ht⟩
  · have hk0 : k ≠ m2.m_highlight := by
      rintro rfl
      have := (highlightableAt_same s2 _).mpr hk
      unfold highlightableAt at this
      rw [this] at hfalse
      cases hfalse
    obtain ⟨m3, h3, q3⟩ := scroll_Up_finds n m2 k (m2.m_highlight - k - 1) r2 (by omega)
      ((highlightableAt_same s2 _).mpr hk) (by omega)
    obtain ⟨m1, h1, p1⟩ :=
      settle_false_finds (scroll n) m2 m3 _ hfalse h3 (scroll_kept _ _ _ _ r2 h3).1
    exact ⟨m1, h1, by rw [p1]; exact (highlightableAt_same s2 _).mp q3⟩

theorem not_highlightable_ne {m m2 : Menu} (s : same_menu m m2) {k : Nat}
    (hk : m.highlightableAt k) (hf : m2.m_items[m2.m_highlight]? = some false) :
    k ≠ m2.m_highlight := by
  rintro rfl
  have := (highlightableAt_same s _).mpr hk
  unfold highlightableAt at this
  rw [this] at hf
  cases hf

theorem scroll_Down_rests : ∀ (e : Nat) (m : Menu) (fuel : Nat), m.ranged →
    (∃ k, m.highlightableAt k) → m.m_highlight + e + 1 = m.m_items.length →
    e + m.m_items.length + 2 ≤ fuel →
    ∃ m1, scroll fuel m .Down = .ok m1 ∧
      (m.highlightableAt m.m_highlight ∨ 0 < e ∨ m.m_cyclic_scroll_enabled = true →
        m.highlightableAt m1.m_highlight) := by
  intro e
  induction e with
  | zero =>
    intro m fuel hr hex he hf
    obtain ⟨n, rfl⟩ : ∃ n, fuel = n + 1 := ⟨fuel - 1, by omega⟩
    rw [scroll_succ, scroll_body_Down _ m hr, scroll_Down_top _ m hr (by omega)]
    cases hc : m.m_cyclic_scroll_enabled with
    | true =>
      rw [if_pos rfl]
      obtain ⟨m1, h1, q1⟩ := scroll_Home_finds n m hr hex (by omega)
      exact ⟨m1, h1, fun _ => q1⟩
    | false =>
      rw [if_neg (by simp)]
      obtain ⟨m1, h1, p1, _⟩ := autocenter_ok m hr
      refine ⟨m1, h1, ?_⟩
      rintro (h | h | h)
      · rw [p1]; exact h
      · omega
      · cases h
  | succ e ih =>
    intro m fuel hr hex he hf
    obtain ⟨n, rfl⟩ : ∃ n, fuel = n + 1 := ⟨fuel - 1, by omega⟩
    have hm := max_highlight_eq m hr
    obtain ⟨m2, h2, e2, k2⟩ := scroll_Down_step m hr (by omega)
    rw [scroll_succ, scroll_body_Down _ m hr, h2]
    obtain ⟨r2, s2, _⟩ := k2
    rcases ranged_item m2 r2 with ht | hfalse
    · obtain ⟨m1, h1, p1⟩ := settle_true_finds (scroll n) m2 _ r2 ht
      exact ⟨m1, h1, fun _ => by rw [p1]; exact (highlightableAt_same s2 _).mp ht⟩
    · by_cases hdir : m2.m_highlight = m.max_highlight ∧ m2.m_cyclic_scroll_enabled = false
      · rw [if_pos hdir]
        obtain ⟨k, hk⟩ := hex
        have hlt := highlightableAt_lt hk
        have hk0 := not_highlightable_ne s2 hk hfalse
        obtain ⟨m3, h3, q3⟩ := scroll_Up_finds n m2 k (m2.m_highlight - k - 1) r2
          (by omega) ((highlightableAt_same s2 _).mpr hk) (by omega)
        obtain ⟨m1, h1, p1⟩ :=
          settle_false_finds (scroll n) m2 m3 _ hfalse h3 (scroll_kept _ _ _ _ r2 h3).1
        exact ⟨m1, h1, fun _ => by rw [p1]; exact (highlightableAt_same s2 _).mp q3⟩
      · rw [if_neg hdir]
        have hex2 : ∃ k, m2.highlightableAt k := by
          obtain ⟨k, hk⟩ := hex
          exact ⟨k, (highlightableAt_same s2 _).mpr hk⟩
        obtain ⟨m3, h3, q3⟩ := ih m2 n r2 hex2 (by rw [s2.1]; omega) (by rw [s2.1]; omega)
        have hcond : m2.highlightableAt m2.m_highlight ∨ 0 < e ∨
            m2.m_cyclic_scroll_enabled = true := by
          by_cases he0 : 0 < e
          · exact Or.inr (Or.inl he0)
          · right; right
            have hmx : m2.m_highlight = m.max_highlight := by omega
            cases hcyc : m2.m_cyclic_scroll_enabled with
            | true => rfl
            | false => exact absurd ⟨hmx, hcyc⟩ hdir
        obtain ⟨m1, h1, p1⟩ :=
          settle_false_finds (scroll n) m2 m3 _ hfalse h3 (scroll_kept _ _ _ _ r2 h3).1
        exact ⟨m1, h1, fun _ => by rw [p1]; exact (highlightableAt_same s2 _).mp (q3 hcond)⟩

theorem scroll_Up_rests : ∀ (e : Nat) (m : Menu) (fuel : Nat), m.ranged →
    (∃ k, m.highlightableAt k) → m.m_highlight = e → e + m.m_items.length + 2 ≤ fuel →
    ∃ m1, scroll fuel m .Up = .ok m1 ∧
      (m.highlightableAt m.m_highlight ∨ 0 < e ∨ m.m_cyclic_scroll_enabled = true →
        m.highlightableAt m1.m_highlight) := by
  intro e
  induction e with
  | zero =>
    intro m fuel hr hex he hf
    obtain ⟨n, rfl⟩ : ∃ n, fuel = n + 1 := ⟨fuel - 1, by omega⟩
    rw [scroll_succ, scroll_body_Up _ m hr, scroll_Up_bottom _ m he]
    cases hc : m.m_cyclic_scroll_enabled with
    | true =>
      rw [if_pos rfl]
      obtain ⟨m1, h1, q1⟩ := scroll_End_finds n m hr hex (by omega)
      exact ⟨m1, h1, fun _ => q1⟩
    | false =>
      rw [if_neg (by simp)]
      obtain ⟨m1, h1, p1, _⟩ := autocenter_ok m hr
      refine ⟨m1, h1, ?_⟩
      rintro (h | h | h)
      · rw [p1]; exact h
      · omega
      · cases h
  | succ e ih =>
    intro m fuel hr hex he hf
    obtain ⟨n, rfl⟩ : ∃ n, fuel = n + 1 := ⟨fuel - 1, by omega⟩
    obtain ⟨m2, h2, e2, k2⟩ := scroll_Up_step m hr (by omega)
    rw [scroll_succ, scroll_body_Up _ m hr, h2]
    obtain ⟨r2, s2, _⟩ := k2
    rcases ranged_item m2 r2 with ht | hfalse
    · obtain ⟨m1, h1, p1⟩ := settle_true_finds (scroll n) m2 _ r2 ht
      exact ⟨m1, h1, fun _ => by rw [p1]; exact (highlightableAt_same s2 _).mp ht⟩
    · by_cases hdir : m2.m_highlight = 0 ∧ m2.m_cyclic_scroll_enabled = false
      · rw [if_pos hdir]
        obtain ⟨k, hk⟩ := hex
        have hlt := highlightableAt_lt hk
        have hk0 := not_highlightable_ne s2 hk hfalse
        have hk2 : m2.highlightableAt (m2.m_highlight + (k - 1) + 1) := by
          rw [highlightableAt_same s2]
          have : m2.m_highlight + (k - 1) + 1 = k := by omega
          rw [this]
          exact hk
        obtain ⟨m3, h3, q3⟩ := scroll_Down_finds n m2 (k - 1) r2 hk2 (by omega)
        obtain ⟨m1, h1, p1⟩ :=
          settle_false_finds (scroll n) m2 m3 _ hfalse h3 (scroll_kept _ _ _ _ r2 h3).1
        exact ⟨m1, h1, fun _ => by rw [p1]; exact (highlightableAt_same s2 _).mp q3⟩
      · rw [if_neg hdir]
        have hex2 : ∃ k, m2.highlightableAt k := by
          obtain ⟨k, hk⟩ := hex
          exact ⟨k, (highlightableAt_same s2 _).mpr hk⟩
        obtain ⟨m3, h3, q3⟩ := ih m2 n r2 hex2 (by omega) (by rw [s2.1]; omega)
        have hcond : m2.highlightableAt m2.m_highlight ∨ 0 < e ∨
            m2.m_cyclic_scroll_enabled = true := by
          by_cases he0 : 0 < e
          · exact Or.inr (Or.inl he0)
          · right; right
            have hmx : m2.m_highlight = 0 := by omega
            cases hcyc : m2.m_cyclic_scroll_enabled with
            | true => rfl
            | false => exact absurd ⟨hmx, hcyc⟩ hdir
        obtain ⟨m1, h1, p1⟩ :=
          settle_false_finds (scroll n) m2 m3 _ hfalse h3 (scroll_kept _ _ _ _ r2 h3).1
        exact ⟨m1, h1, fun _ => by rw [p1]; exact (highlightableAt_same s2 _).mp (q3 hcond)⟩

theorem settle_Up_rests (n : Nat) (m m2 : Menu) (r2 : m2.ranged) (s2 : same_menu m m2)
    (hex : ∃ k, m.highlightableAt k) (hf : 2 * m.m_items.length + 2 ≤ n) :
    ∃ m1, settle (scroll n) m2
        (if m2.m_highlight = 0 ∧ m2.m_cyclic_scroll_enabled = false then .Down else .Up)
        = .ok m1 ∧ m.highlightableAt m1.m_highlight := by
  have hl2 := r2.2.2.2
  rw [s2.1] at hl2
  rcases ranged_item m2 r2 with ht | hfalse
  · obtain ⟨m1, h1, p1⟩ := settle_true_finds (scroll n) m2 _ r2 ht
    exact ⟨m1, h1, by rw [p1]; exact (highlightableAt_same s2 _).mp ht⟩
  · by_cases hdir : m2.m_highlight = 0 ∧ m2.m_cyclic_scroll_enabled = false
    · rw [if_pos hdir]
      obtain ⟨k, hk⟩ := hex
      have hlt := highlightableAt_lt hk
      have hk0 := not_highlightable_ne s2 hk hfalse
      have hk2 : m2.highlightableAt (m2.m_highlight + (k - 1) + 1) := by
        rw [highlightableAt_same s2]
        have : m2.m_highlight + (k - 1) + 1 = k := by omega
        rw [this]
        exact hk
      obtain ⟨m3, h3, q3⟩ := scroll_Down_finds n m2 (k - 1) r2 hk2 (by omega)
      obtain ⟨m1, h1, p1⟩ :=
        settle_false_finds (scroll n) m2 m3 _ hfalse h3 (scroll_kept _ _ _ _ r2 h3).1
      exact ⟨m1, h1, by rw [p1]; exact (highlightableAt_same s2 _).mp q3⟩
    · rw [if_neg hdir]
      have hex2 : ∃ k, m2.highlightableAt k := by
        obtain ⟨k, hk⟩ := hex
        exact ⟨k, (highlightableAt_same s2 _).mpr hk⟩
      obtain ⟨m3, h3, q3⟩ := scroll_Up_rests m2.m_highlight m2 n r2 hex2 rfl
        (by rw [s2.1]; omega)
      have hcond : m2.highlightableAt m2.m_highlight ∨ 0 < m2.m_highlight ∨
          m2.m_cyclic_scroll_enabled = true := by
        by_cases he0 : 0 < m2.m_highlight
        · exact Or.inr (Or.inl he0)
        · right; right
          have hmx : m2.m_highlight = 0 := by omega
          cases hcyc : m2.m_cyclic_scroll_enabled with
          | true => rfl
          | false => exact absurd ⟨hmx, hcyc⟩ hdir
      obtain ⟨m1, h1, p1⟩ :=
        settle_false_finds (scroll n) m2 m3 _ hfalse h3 (scroll_kept _ _ _ _ r2 h3).1
      exact ⟨m1, h1, by rw [p1]; exact (highlightableAt_same s2 _).mp (q3 hcond)⟩

theorem settle_Down_rests (n : Nat) (m m2 : Menu) (hr : m.ranged) (r2 : m2.ranged)
    (s2 : same_menu m m2) (hex : ∃ k, m.highlightableAt k)
    (hf : 2 * m.m_items.length + 2 ≤ n) :
    ∃ m1, settle (scroll n) m2
        (if m2.m_highlight = m.max_highlight ∧ m2.m_cyclic_scroll_enabled = false then .Up
         else .Down)
        = .ok m1 ∧ m.highlightableAt m1.m_highlight := by
  have hm := max_highlight_eq m hr
  have hl2 := r2.2.2.2
  rw [s2.1] at hl2
  rcases ranged_item m2 r2 with ht | hfalse
  · obtain ⟨m1, h1, p1⟩ := settle_true_finds (scroll n) m2 _ r2 ht
    exact ⟨m1, h1, by rw [p1]; exact (highlightableAt_same s2 _).mp ht⟩
  · by_cases hdir : m2.m_highlight = m.max_highlight ∧ m2.m_cyclic_scroll_enabled = false
    · rw [if_pos hdir]
      obtain ⟨k, hk⟩ := hex
      have hlt := highlightableAt_lt hk
      have hk0 := not_highlightable_ne s2 hk hfalse
      obtain ⟨m3, h3, q3⟩ := scroll_Up_finds n m2 k (m2.m_highlight - k - 1) r2
        (by omega) ((highlightableAt_same s2 _).mpr hk) (by omega)
      obtain ⟨m1, h1, p1⟩ :=
        settle_false_finds (scroll n) m2 m3 _ hfalse h3 (scroll_kept _ _ _ _ r2 h3).1
      exact ⟨m1, h1, by rw [p1]; exact (highlightableAt_same s2 _).mp q3⟩
    · rw [if_neg hdir]
      have hex2 : ∃ k, m2.highlightableAt k := by
        obtain ⟨k, hk⟩ := hex
        exact ⟨k, (highlightableAt_same s2 _).mpr hk⟩
      obtain ⟨m3, h3, q3⟩ := scroll_Down_rests (m.m_items.length - 1 - m2.m_highlight) m2 n r2
        hex2 (by rw [s2.1]; omega) (by rw [s2.1]; omega)
      have hcond : m2.highlightableAt m2.m_highlight ∨
          0 < m.m_items.length - 1 - m2.m_highlight ∨
          m2.m_cyclic_scroll_enabled = true := by
        by_cases he0 : 0 < m.m_items.length - 1 - m2.m_highlight
        · exact Or.inr (Or.inl he0)
        · right; right
          have hmx : m2.m_highlight = m.max_highlight := by omega
          cases hcyc : m2.m_cyclic_scroll_enabled with
          | true => rfl
          | false => exact absurd ⟨hmx, hcyc⟩ hdir
      obtain ⟨m1, h1, p1⟩ :=
        settle_false_finds (scroll n) m2 m3 _ hfalse h3 (scroll_kept _ _ _ _ r2 h3).1
      exact ⟨m1, h1, by rw [p1]; exact (highlightableAt_same s2 _).mp (q3 hcond)⟩

theorem scroll_rests (m : Menu) (d : Scroll) (fuel : Nat) (hr : m.ranged)
    (hex : ∃ k, m.highlightableAt k) (hf : 2 * m.m_items.length + 3 ≤ fuel) :
    ∃ m1, scroll fuel m d = .ok m1 ∧
      (m.highlightableAt m.m_highlight → m.highlightableAt m1.m_highlight) := by
  have hl := hr.2.2.2
  cases d with
  | Up =>
    obtain ⟨m1, h1, q1⟩ := scroll_Up_rests m.m_highlight m fuel hr hex rfl (by omega)
    exact ⟨m1, h1, fun h => q1 (Or.inl h)⟩
  | Down =>
    obtain ⟨m1, h1, q1⟩ := scroll_Down_rests (m.m_items.length - 1 - m.m_highlight) m fuel hr
      hex (by omega) (by omega)
    exact ⟨m1, h1, fun h => q1 (Or.inl h)⟩
  | PageUp =>
    obtain ⟨n, rfl⟩ : ∃ n, fuel = n + 1 := ⟨fuel - 1, by omega⟩
    rw [scroll_succ, scroll_body_PageUp _ m hr]
    by_cases hc : m.m_cyclic_scroll_enabled = true ∧ m.m_highlight = 0
    · rw [scroll_PageUp_cyclic _ m hc]
      obtain ⟨m1, h1, q1⟩ := scroll_End_finds n m hr hex (by omega)
      exact ⟨m1, h1, fun _ => q1⟩
    · obtain ⟨m2, h2, r2, s2, _⟩ := scroll_PageUp_step m hr hc
      rw [h2]
      obtain ⟨m1, h1, q1⟩ := settle_Up_rests n m m2 r2 s2 hex (by omega)
      exact ⟨m1, h1, fun _ => q1⟩
  | PageDown =>
    obtain ⟨n, rfl⟩ : ∃ n, fuel = n + 1 := ⟨fuel - 1, by omega⟩
    rw [scroll_succ, scroll_body_PageDown _ m hr]
    by_cases hc : m.m_cyclic_scroll_enabled = true ∧ m.m_highlight = m.max_highlight
    · rw [scroll_PageDown_cyclic _ m hc]
      obtain ⟨m1, h1, q1⟩ := scroll_Home_finds n m hr hex (by omega)
      exact ⟨m1, h1, fun _ => q1⟩
    · obtain ⟨m2, h2, r2, s2, _⟩ := scroll_PageDown_step m hr hc
      rw [h2]
      obtain ⟨m1, h1, q1⟩ := settle_Down_rests n m m2 hr r2 s2 hex (by omega)
      exact ⟨m1, h1, fun _ => q1⟩
  | Home =>
    obtain ⟨m1, h1, q1⟩ := scroll_Home_finds fuel m hr hex (by omega)
    exact ⟨m1, h1, fun _ => q1⟩
  | End =>
    obtain ⟨m1, h1, q1⟩ := scroll_End_finds fuel m hr hex (by omega)
    exact ⟨m1, h1, fun _ => q1⟩

/-! ## C26 -/

/-- C26: for a menu whose highlighted position is that of an item the cursor may rest
on, `Menu::scroll` returns, in each direction and with cyclic scrolling on or off
(with a depth of recursion of `2 * size + 3` or more), and leaves the items as they
are and the highlighted position in range and on an item the cursor may rest on. -/
theorem scroll_rests_on_highlightable (m : Menu) (where_ : Scroll) (fuel : Nat)
    (hr : m.ranged) (hh : m.highlightableAt m.m_highlight)
    (hf : 2 * m.m_items.length + 3 ≤ fuel) :
    ∃ m1, scroll fuel m where_ = .ok m1 ∧ m1.m_items = m.m_items ∧
      m1.m_highlight < m1.m_items.length ∧ m1.highlightableAt m1.m_highlight := by
  obtain ⟨m1, h1, q1⟩ := scroll_rests m where_ fuel hr ⟨_, hh⟩ hf
  obtain ⟨r1, s1, _⟩ := scroll_kept fuel m where_ m1 hr h1
  exact ⟨m1, h1, s1.1, r1.2.2.2, (highlightableAt_same s1 _).mpr (q1 hh)⟩

theorem scroll_rests_on_highlightable_witness :
    ∃ m1, scroll 11 separator_menu .Down = .ok m1 ∧ m1.m_items = separator_menu.m_items ∧
      m1.m_highlight < m1.m_items.length ∧ m1.highlightableAt m1.m_highlight :=
  scroll_rests_on_highlightable separator_menu .Down 11
    ⟨by decide, by decide, by decide, by decide⟩ rfl (by decide)

/-! ## C27 -/

/-- C27: for a menu with an item the cursor may rest on and a highlighted position in
range, `Menu::scroll` returns in each direction, with cyclic scrolling on or off: a
depth of recursion of `2 * size + 3` is enough, and the result is the same for every
greater bound. -/
theorem scroll_terminates (m : Menu) (where_ : Scroll) (hr : m.ranged)
    (hex : ∃ pos, m.highlightableAt pos) :
    ∃ m1, ∀ fuel, 2 * m.m_items.length + 3 ≤ fuel → scroll fuel m where_ = .ok m1 := by
  obtain ⟨m1, h1, _⟩ := scroll_rests m where_ (2 * m.m_items.length + 3) hr hex (le_refl _)
  exact ⟨m1, fun fuel hf => scroll_mono_le _ fuel m where_ m1 hr hf h1⟩

theorem scroll_terminates_witness :
    ∃ m1, ∀ fuel, 2 * unsettled_menu.m_items.length + 3 ≤ fuel →
      scroll fuel unsettled_menu .Down = .ok m1 :=
  scroll_terminates unsettled_menu .Down ⟨by decide, by decide, by decide, by decide⟩
    ⟨0, rfl⟩

/-! ## C28 -/

/-- C28: for a menu of a height of at least one line with an item the cursor may rest
on, whose highlighted position is in range and inside the window, `Menu::scroll`
returns, in each direction and with cyclic scrolling and the centered cursor each on
or off, and leaves the highlighted position in range and inside the window:
`m_highlight < size` and `m_beginning <= m_highlight <= m_beginning + m_height - 1`. -/
theorem scroll_keeps_window (m : Menu) (where_ : Scroll) (fuel : Nat) (hr : m.ranged)
    (hex : ∃ pos, m.highlightableAt pos) (hw : m.windowed)
    (hf : 2 * m.m_items.length + 3 ≤ fuel) :
    ∃ m1, scroll fuel m where_ = .ok m1 ∧ m1.m_items = m.m_items ∧
      m1.m_height = m.m_height ∧ m1.m_highlight < m1.m_items.length ∧
      m1.m_beginning ≤ m1.m_highlight ∧ m1.m_highlight ≤ m1.m_beginning + m1.m_height - 1 := by
  obtain ⟨m1, h1, _⟩ := scroll_rests m where_ fuel hr hex hf
  obtain ⟨r1, s1, w1⟩ := scroll_kept fuel m where_ m1 hr h1
  obtain ⟨_, w2, w3⟩ := w1 hw
  exact ⟨m1, h1, s1.1, s1.2.1, r1.2.2.2, w2, by omega⟩

theorem scroll_keeps_window_witness :
    ∃ m1, scroll 11 cyclic_menu .PageUp = .ok m1 ∧ m1.m_items = cyclic_menu.m_items ∧
      m1.m_height = cyclic_menu.m_height ∧ m1.m_highlight < m1.m_items.length ∧
      m1.m_beginning ≤ m1.m_highlight ∧ m1.m_highlight ≤ m1.m_beginning + m1.m_height - 1 :=
  scroll_keeps_window cyclic_menu .PageUp 11 ⟨by decide, by decide, by decide, by decide⟩
    ⟨0, rfl⟩ ⟨by decide, by decide, by decide⟩ (by decide)

end Menu

end NC

end Ncmpcpp
